import Mathlib

/-! VirtualC64: the VIC-II register interface and memory fetches.

A shallow embedding of `src/C64/VICII/VIC_memory.cpp` (the register interface
`VIC::peek`, `VIC::spypeek` and `VIC::poke` and the memory fetches `VIC::memAccess` to
`VIC::sFinalize`), of the accessors of `src/Emulator/CPU/CPU.h`, of the screen buffers and
source masks of `src/C64/VICII/PixelEngine.h`, of the read pointer and the header check
of `src/C64/AnyC64File.cpp`, of the guards, the instruction log and the disassembler of
`src/Emulator/CPU/CPUDebugger.cpp`, and of the buttons and I/O reads of
`src/Emulator/Cartridges/CustomCartridges/FreezeFrame.cpp`.

Conventions.
* C integers are natural numbers.  A conversion to a narrower type is written
  explicitly (`u8`, `u16`), and `~` is the complement of a 32 bit pattern (`bitNot`).
* C arrays are index maps `Nat → Nat`; an element assignment is `setAt`.
* A failed `assert` is the result `none`.
* The class declaration of `VIC` is not among the sources.  Its data members appear as
  fields of `VIC`, its constants and side-effect free helpers as fields of `VICDecls`,
  and a call of `triggerDelayedIRQ` or `putMessage` is recorded in the state.
-/

namespace VirtualC64

/-! ## Machine arithmetic -/

/-- Conversion to `uint8_t`. -/
def u8 (x : Nat) : Nat := x % 256

/-- Conversion to `uint16_t`. -/
def u16 (x : Nat) : Nat := x % 65536

/-- The operator `~` applied to an `int`-promoted operand, as a 32 bit two's complement
pattern. -/
def bitNot (x : Nat) : Nat := 0xFFFFFFFF ^^^ x

/-- Modelled from the spec: the macro `GET_BIT(x, nr)` is defined outside the sources; it
is read as "bit `nr` of `x`", that is `x & (1 << nr)` used as a truth value. -/
def GET_BIT (x nr : Nat) : Bool := x &&& (1 <<< nr) != 0

/-- Element assignment `a[i] = v` on an array seen as an index map. -/
def setAt (a : Nat → Nat) (i v : Nat) : Nat → Nat := fun j => if j = i then v else a j

/-! ## Data model -/

/-- One copy of the registers that take part in mid-cycle timing (`reg.current`,
`reg.delayed`).  `sprX` holds 9 bit values in 16 bit cells, the rest are bytes. -/
structure VICIIRegisters where
  sprX : Nat → Nat := fun _ => 0
  sprY : Nat → Nat := fun _ => 0
  ctrl1 : Nat := 0
  sprEnable : Nat := 0
  ctrl2 : Nat := 0
  sprExpandY : Nat := 0
  sprPriority : Nat := 0
  sprMC : Nat := 0
  sprExpandX : Nat := 0
  colors : Nat → Nat := fun _ => 0

/-- The pair `reg` of register copies. -/
structure RegPair where
  current : VICIIRegisters := {}
  delayed : VICIIRegisters := {}

/-- Modelled from the spec: the enumeration of the colour registers is declared outside
the sources; its members are numbered in register order (border, background 0 to 3,
sprite extra colours 1 and 2, sprites 0 to 7), the order in which `poke` indexes `colors`
by `addr - 0x20`.  This is the index of the border colour. -/
def COLREG_BORDER : Nat := 0

/-- Index of background colour 0. -/
def COLREG_BG0 : Nat := 1

/-- Index of background colour 1. -/
def COLREG_BG1 : Nat := 2

/-- Index of background colour 2. -/
def COLREG_BG2 : Nat := 3

/-- Index of background colour 3. -/
def COLREG_BG3 : Nat := 4

/-- Index of sprite extra colour 1. -/
def COLREG_SPR_EX1 : Nat := 5

/-- Index of sprite extra colour 2. -/
def COLREG_SPR_EX2 : Nat := 6

/-- Index of the colour of sprite 0; the colours of sprites 1 to 7 follow. -/
def COLREG_SPR0 : Nat := 7

/-- Messages sent to the GUI by the code under study. -/
inductive Message where
  | MSG_CHARSET
  deriving DecidableEq, Repr

/-- The part of `C64Memory` read by the VIC (`c64->mem`). -/
structure C64Memory where
  ram : Nat → Nat := fun _ => 0
  rom : Nat → Nat := fun _ => 0
  colorRam : Nat → Nat := fun _ => 0

/-- Modelled from the spec: the type `MicroInstruction` is declared outside the sources;
a microinstruction is identified by its tag, a number. -/
abbrev MicroInstruction := Nat

/-- The part of the CPU state behind the accessors of `CPU.h`: `pc` is the frozen program
counter, `regPC` the real one, `regP` the status register and `next` the microinstruction
to be executed next. -/
structure CPU where
  pc : Nat := 0
  regPC : Nat := 0
  regA : Nat := 0
  regX : Nat := 0
  regY : Nat := 0
  regP : Nat := 0
  halted : Bool := false
  next : MicroInstruction := 0

/-- Modelled from the spec: the flag masks are declared outside the sources; the status
register has the bits N, V, -, B, D, I, Z, C from bit 7 down to bit 0 (the layout
documented at `CPU::regP`).  This is the mask of N. -/
def N_FLAG : Nat := 0x80

/-- Mask of the overflow flag V. -/
def V_FLAG : Nat := 0x40

/-- Mask of the break flag B. -/
def B_FLAG : Nat := 0x10

/-- Mask of the decimal flag D. -/
def D_FLAG : Nat := 0x08

/-- Mask of the interrupt disable flag I. -/
def I_FLAG : Nat := 0x04

/-- Mask of the zero flag Z. -/
def Z_FLAG : Nat := 0x02

/-- Mask of the carry flag C. -/
def C_FLAG : Nat := 0x01

/-- Modelled from the spec: the macro `LO_BYTE` is defined outside the sources; it is the
low byte of a 16 bit value. -/
def LO_BYTE (x : Nat) : Nat := u8 (x &&& 0xFF)

/-- Modelled from the spec: the macro `HI_BYTE` is defined outside the sources; it is the
high byte of a 16 bit value. -/
def HI_BYTE (x : Nat) : Nat := u8 (x >>> 8)

/-- The function `CPU::getPC`. -/
def CPU.getPC (c : CPU) : Nat := c.pc

/-- The function `CPU::jumpToAddress`; `fetch` is the tag of the fetch microinstruction,
declared outside the sources. -/
def CPU.jumpToAddress (fetch : MicroInstruction) (c : CPU) (addr : Nat) : CPU :=
  { c with pc := addr, regPC := addr, next := fetch }

/-- The function `CPU::setPCL`. -/
def CPU.setPCL (c : CPU) (lo : Nat) : CPU :=
  { c with regPC := u16 ((c.regPC &&& 0xff00) ||| lo) }

/-- The function `CPU::setPCH`. -/
def CPU.setPCH (c : CPU) (hi : Nat) : CPU :=
  { c with regPC := u16 ((c.regPC &&& 0x00ff) ||| (u16 hi <<< 8)) }

/-- The function `CPU::incPC`. -/
def CPU.incPC (c : CPU) (offset : Nat) : CPU :=
  { c with regPC := u16 (c.regPC + offset) }

/-- The function `CPU::incPCL`. -/
def CPU.incPCL (c : CPU) (offset : Nat) : CPU :=
  c.setPCL (u8 (LO_BYTE c.regPC + offset))

/-- The function `CPU::incPCH`. -/
def CPU.incPCH (c : CPU) (offset : Nat) : CPU :=
  c.setPCH (u8 (HI_BYTE c.regPC + offset))

/-- The common body of `CPU::setN`, `setV`, `setB`, `setD`, `setI`, `setZ` and `setC`:
`bit ? regP |= FLAG : regP &= ~FLAG`. -/
def CPU.setFlag (flag : Nat) (c : CPU) (bit : Nat) : CPU :=
  if bit != 0 then { c with regP := c.regP ||| flag }
  else { c with regP := u8 (c.regP &&& bitNot flag) }

/-- The function `CPU::setN`. -/
def CPU.setN (c : CPU) (bit : Nat) : CPU := CPU.setFlag N_FLAG c bit

/-- The function `CPU::setV`. -/
def CPU.setV (c : CPU) (bit : Nat) : CPU := CPU.setFlag V_FLAG c bit

/-- The function `CPU::setB`. -/
def CPU.setB (c : CPU) (bit : Nat) : CPU := CPU.setFlag B_FLAG c bit

/-- The function `CPU::setD`. -/
def CPU.setD (c : CPU) (bit : Nat) : CPU := CPU.setFlag D_FLAG c bit

/-- The function `CPU::setI`. -/
def CPU.setI (c : CPU) (bit : Nat) : CPU := CPU.setFlag I_FLAG c bit

/-- The function `CPU::setZ`. -/
def CPU.setZ (c : CPU) (bit : Nat) : CPU := CPU.setFlag Z_FLAG c bit

/-- The function `CPU::setC`. -/
def CPU.setC (c : CPU) (bit : Nat) : CPU := CPU.setFlag C_FLAG c bit

/-- The function `CPU::getP`: the value returned and the state after the call. -/
def CPU.getP (c : CPU) : Nat × CPU := (u8 (c.regP ||| 0b00100000), c)

/-- The function `CPU::getPWithClearedB`: the value returned and the state after the
call. -/
def CPU.getPWithClearedB (c : CPU) : Nat × CPU :=
  let r := c.getP
  (u8 (r.1 &&& 0b11101111), r.2)

/-- The function `CPU::setP`. -/
def CPU.setP (c : CPU) (p : Nat) : CPU := { c with regP := p }

/-- The function `CPU::setPWithoutB`. -/
def CPU.setPWithoutB (c : CPU) (p : Nat) : CPU :=
  { c with regP := (p &&& 0b11101111) ||| (c.regP &&& 0b00010000) }

/-- The function `CPU::loadA`. -/
def CPU.loadA (c : CPU) (a : Nat) : CPU :=
  let c1 : CPU := { c with regA := a }
  (c1.setN (a &&& 0x80)).setZ (if a == 0 then 1 else 0)

/-- The function `CPU::loadX`. -/
def CPU.loadX (c : CPU) (x : Nat) : CPU :=
  let c1 : CPU := { c with regX := x }
  (c1.setN (x &&& 0x80)).setZ (if x == 0 then 1 else 0)

/-- The function `CPU::loadY`. -/
def CPU.loadY (c : CPU) (y : Nat) : CPU :=
  let c1 : CPU := { c with regY := y }
  (c1.setN (y &&& 0x80)).setZ (if y == 0 then 1 else 0)

/-- The function `CPU::isHalted`. -/
def CPU.isHalted (c : CPU) : Bool := c.halted

/-- The function `CPU::inFetchPhase`. -/
def CPU.inFetchPhase (fetch : MicroInstruction) (c : CPU) : Bool := c.next == fetch

/-- The state-changing accessors of `CPU.h` (lines 304 to 346), with their arguments. -/
inductive CPUAccessor where
  | jumpToAddress (addr : Nat)
  | setPCL (lo : Nat)
  | setPCH (hi : Nat)
  | incPC (offset : Nat)
  | incPCL (offset : Nat)
  | incPCH (offset : Nat)
  | setN (bit : Nat)
  | setV (bit : Nat)
  | setB (bit : Nat)
  | setD (bit : Nat)
  | setI (bit : Nat)
  | setZ (bit : Nat)
  | setC (bit : Nat)
  | setP (p : Nat)
  | setPWithoutB (p : Nat)
  | loadA (a : Nat)
  | loadX (x : Nat)
  | loadY (y : Nat)
  deriving DecidableEq, Repr

/-- The state after a call of a state-changing accessor. -/
def CPU.call (fetch : MicroInstruction) (c : CPU) : CPUAccessor → CPU
  | .jumpToAddress addr => CPU.jumpToAddress fetch c addr
  | .setPCL lo => c.setPCL lo
  | .setPCH hi => c.setPCH hi
  | .incPC offset => c.incPC offset
  | .incPCL offset => c.incPCL offset
  | .incPCH offset => c.incPCH offset
  | .setN bit => c.setN bit
  | .setV bit => c.setV bit
  | .setB bit => c.setB bit
  | .setD bit => c.setD bit
  | .setI bit => c.setI bit
  | .setZ bit => c.setZ bit
  | .setC bit => c.setC bit
  | .setP p => c.setP p
  | .setPWithoutB p => c.setPWithoutB p
  | .loadA a => c.loadA a
  | .loadX x => c.loadX x
  | .loadY y => c.loadY y

/-- The part of the machine the VIC reaches through its `c64` pointer.
`expansionport_peek a` is the byte `c64->expansionport.peek(a)` delivers and `messages`
collects the arguments of `putMessage`, oldest first. -/
structure C64 where
  rasterline : Nat := 0
  ultimax : Bool := false
  mem : C64Memory := {}
  cpu : CPU := {}
  expansionport_peek : Nat → Nat := fun _ => 0
  messages : List Message := []

/-- Modelled from the spec: `C64::getUltimax` is declared outside the sources; it tells
whether the cartridge puts the machine in Ultimax mode. -/
def C64.getUltimax (c : C64) : Bool := c.ultimax

/-- Modelled from the spec: `C64::putMessage` is declared outside the sources; the
message is appended to the queue read by the GUI. -/
def C64.putMessage (c : C64) (m : Message) : C64 := { c with messages := c.messages ++ [m] }

/-- The three data bytes of a sprite shift register (`spriteSr[i].chunk1` to `chunk3`). -/
structure SpriteSR where
  chunk1 : Nat := 0
  chunk2 : Nat := 0
  chunk3 : Nat := 0

/-- Element assignment on the array of sprite shift registers. -/
def setSr (a : Nat → SpriteSR) (i : Nat) (v : SpriteSR) : Nat → SpriteSR :=
  fun j => if j = i then v else a j

/-- The data members of `VIC` used by `VIC_memory.cpp`.  `irqTriggers` collects the
arguments of the calls of `triggerDelayedIRQ`, oldest first, and `gAccessResult` the
values passed to `gAccessResult.write`, oldest first. -/
structure VIC where
  reg : RegPair := {}
  yCounter : Nat := 0
  latchedLightPenX : Nat := 0
  latchedLightPenY : Nat := 0
  memSelect : Nat := 0
  irr : Nat := 0
  imr : Nat := 0
  spriteSpriteCollision : Nat := 0
  spriteBackgroundColllision : Nat := 0
  rasterIrqLine : Nat := 0
  DENwasSetInRasterline30 : Bool := false
  badLine : Bool := false
  delay : Nat := 0
  upperComparisonVal : Nat := 0
  lowerComparisonVal : Nat := 0
  leftComparisonVal : Nat := 0
  rightComparisonVal : Nat := 0
  cleared_bits_in_d017 : Nat := 0
  expansionFF : Nat := 0
  emulateGrayDotBug : Bool := false
  bankAddr : Nat := 0
  addrBus : Nat := 0
  dataBus : Nat := 0
  videoMatrix : Nat → Nat := fun _ => 0
  colorLine : Nat → Nat := fun _ => 0
  vc : Nat := 0
  vmli : Nat := 0
  rc : Nat := 0
  c64 : C64 := {}
  irqTriggers : List Nat := []
  displayState : Bool := false
  gAccessResult : List Nat := []
  spritePtr : Nat → Nat := fun _ => 0
  mc : Nat → Nat := fun _ => 0
  spriteDmaOnOff : Nat := 0
  spriteSr : Nat → SpriteSR := fun _ => {}
  isFirstDMAcycle : Nat := 0
  isSecondDMAcycle : Nat := 0

/-- The constants and side-effect free member functions of `VIC` that `VIC_memory.cpp`
uses and that are declared outside the sources. -/
structure VICDecls where
  VICUpdateRegisters : Nat
  VICReleaseIrq : Nat
  VICSetDisplayState : Nat
  rasterInterruptLine : VIC → Nat
  badLineCondition : VIC → Bool
  upperComparisonValue : VIC → Nat
  lowerComparisonValue : VIC → Nat
  leftComparisonValue : VIC → Nat
  rightComparisonValue : VIC → Nat
  hasGrayDotBug : VIC → Bool
  BApulledDownForAtLeastThreeCycles : VIC → Bool
  VM13VM12VM11VM10 : VIC → Nat
  CB13CB12CB11 : VIC → Nat
  CB13 : VIC → Nat
  BMMbit : VIC → Bool
  ECMbit : VIC → Bool
  is856x : VIC → Bool
  LO_LO_HI : Nat → Nat → Nat → Nat

/-- Modelled from the spec: `VIC::triggerDelayedIRQ` is defined outside the sources and
the specification names it only as the act of raising the delayed IRQ.  The model records
the call with its argument in `irqTriggers` and goes no further: what the helper writes
to `irr` and to `delay`, the registers through which the interrupt line is raised, is not
known from the sources and is left out.  Statements about `irr` and `delay` around a call
are therefore made about the state handed to the helper. -/
def VIC.triggerDelayedIRQ (s : VIC) (source : Nat) : VIC :=
  { s with irqTriggers := s.irqTriggers ++ [source] }

/-! ## `VIC::peek` -/

/-- The `switch` of `VIC::peek`: `some (result, state)` when a case label matches and
returns, `none` when control leaves the switch without a match. -/
def peekSwitch (s : VIC) (addr : Nat) : Option (Nat × VIC) :=
  match addr with
  | 0x00 | 0x02 | 0x04 | 0x06 | 0x08 | 0x0A | 0x0C | 0x0E =>
    some (u8 (s.reg.current.sprX (addr >>> 1)), s)
  | 0x01 | 0x03 | 0x05 | 0x07 | 0x09 | 0x0B | 0x0D | 0x0F =>
    some (u8 (s.reg.current.sprY (addr >>> 1)), s)
  | 0x10 =>
    some (u8 (
      (if s.reg.current.sprX 0 &&& 0x100 != 0 then 0b00000001 else 0) |||
      (if s.reg.current.sprX 1 &&& 0x100 != 0 then 0b00000010 else 0) |||
      (if s.reg.current.sprX 2 &&& 0x100 != 0 then 0b00000100 else 0) |||
      (if s.reg.current.sprX 3 &&& 0x100 != 0 then 0b00001000 else 0) |||
      (if s.reg.current.sprX 4 &&& 0x100 != 0 then 0b00010000 else 0) |||
      (if s.reg.current.sprX 5 &&& 0x100 != 0 then 0b00100000 else 0) |||
      (if s.reg.current.sprX 6 &&& 0x100 != 0 then 0b01000000 else 0) |||
      (if s.reg.current.sprX 7 &&& 0x100 != 0 then 0b10000000 else 0)), s)
  | 0x11 =>
    some (u8 ((s.reg.current.ctrl1 &&& 0x7f) ||| (if s.yCounter > 0xFF then 0x80 else 0)), s)
  | 0x12 => some (u8 (s.yCounter &&& 0xff), s)
  | 0x13 => some (u8 s.latchedLightPenX, s)
  | 0x14 => some (u8 s.latchedLightPenY, s)
  | 0x15 => some (u8 s.reg.current.sprEnable, s)
  | 0x16 => some (u8 ((s.reg.current.ctrl2 &&& 0xFF) ||| 0xC0), s)
  | 0x17 => some (u8 s.reg.current.sprExpandY, s)
  | 0x18 => some (u8 (s.memSelect ||| 0x01), s)
  | 0x19 => some (u8 (if s.irr &&& s.imr != 0 then s.irr ||| 0xF0 else s.irr ||| 0x70), s)
  | 0x1A => some (u8 (s.imr ||| 0xF0), s)
  | 0x1B => some (u8 s.reg.current.sprPriority, s)
  | 0x1C => some (u8 s.reg.current.sprMC, s)
  | 0x1D => some (u8 s.reg.current.sprExpandX, s)
  | 0x1E =>
    let result := u8 s.spriteSpriteCollision
    some (result, { s with spriteSpriteCollision := 0 })
  | 0x1F =>
    let result := u8 s.spriteBackgroundColllision
    some (result, { s with spriteBackgroundColllision := 0 })
  | 0x20 => some (u8 (s.reg.current.colors COLREG_BORDER ||| 0xF0), s)
  | 0x21 => some (u8 (s.reg.current.colors COLREG_BG0 ||| 0xF0), s)
  | 0x22 => some (u8 (s.reg.current.colors COLREG_BG1 ||| 0xF0), s)
  | 0x23 => some (u8 (s.reg.current.colors COLREG_BG2 ||| 0xF0), s)
  | 0x24 => some (u8 (s.reg.current.colors COLREG_BG3 ||| 0xF0), s)
  | 0x25 => some (u8 (s.reg.current.colors COLREG_SPR_EX1 ||| 0xF0), s)
  | 0x26 => some (u8 (s.reg.current.colors COLREG_SPR_EX2 ||| 0xF0), s)
  | 0x27 | 0x28 | 0x29 | 0x2A | 0x2B | 0x2C | 0x2D | 0x2E =>
    some (u8 (s.reg.current.colors (COLREG_SPR0 + addr - 0x27) ||| 0xF0), s)
  | _ => none

/-- The function `VIC::peek`: the value read and the state after the read, `none` when an
assertion fails. -/
def peek (s : VIC) (addr : Nat) : Option (Nat × VIC) :=
  if addr ≤ 0x3F then
    match peekSwitch s addr with
    | some r => some r
    | none => if addr ≥ 0x2F ∧ addr ≤ 0x3F then some (0xFF, s) else none
  else none

/-! ## `VIC::poke` -/

/-- One round of the loop of case `0x10` of `VIC::poke`, for sprite `i`. -/
def pokeSprXHighStep (value : Nat) (sprX : Nat → Nat) (i : Nat) : Nat → Nat :=
  let sprX1 := setAt sprX i (sprX i &&& 0xFF)
  setAt sprX1 i (sprX1 i ||| (if GET_BIT value i then 0x100 else 0))

/-- Case `0x11` of `VIC::poke`, first statement: the value is stored in
`reg.current.ctrl1`; when its bit 7 differs from bit 7 of `reg.delayed.ctrl1`, the raster
line is compared with the interrupt line afterwards. -/
def pokeCtrl1Store (d : VICDecls) (s : VIC) (value : Nat) : VIC :=
  if (s.reg.delayed.ctrl1 &&& 0x80) != (value &&& 0x80) then
    let s0 : VIC := { s with reg.current.ctrl1 := value }
    if s0.yCounter == d.rasterInterruptLine s0 then s0.triggerDelayedIRQ 1 else s0
  else
    { s with reg.current.ctrl1 := value }

/-- Case `0x11` of `VIC::poke`, the statements after the store: the DEN check in line
`0x30`, the bad line condition and the two vertical comparison values. -/
def pokeCtrl1Update (d : VICDecls) (s1 : VIC) (value : Nat) : VIC :=
  let s2 : VIC :=
    if s1.c64.rasterline == 0x30 && (value &&& 0x10 != 0) then
      { s1 with DENwasSetInRasterline30 := true }
    else s1
  let s3 : VIC := { s2 with badLine := d.badLineCondition s2 }
  let s4 : VIC :=
    if s3.badLine then { s3 with delay := s3.delay ||| d.VICSetDisplayState } else s3
  let s5 : VIC := { s4 with upperComparisonVal := d.upperComparisonValue s4 }
  { s5 with lowerComparisonVal := d.lowerComparisonValue s5 }

/-- The `switch` of `VIC::poke`.  The second component tells how the case is left: `true`
for `break` (and for an address without a case label), where control reaches the statement
after the switch, `false` for `return`. -/
def pokeSwitch (d : VICDecls) (s : VIC) (addr value : Nat) : VIC × Bool :=
  match addr with
  | 0x00 | 0x02 | 0x04 | 0x06 | 0x08 | 0x0A | 0x0C | 0x0E =>
    let i := addr >>> 1
    let x0 := s.reg.current.sprX
    let x1 := setAt x0 i (x0 i &&& 0x100)
    ({ s with reg.current.sprX := setAt x1 i (x1 i ||| value) }, true)
  | 0x01 | 0x03 | 0x05 | 0x07 | 0x09 | 0x0B | 0x0D | 0x0F =>
    ({ s with reg.current.sprY := setAt s.reg.current.sprY (addr >>> 1) value }, true)
  | 0x10 =>
    let x := (List.range 8).foldl (pokeSprXHighStep value) s.reg.current.sprX
    ({ s with reg.current.sprX := x }, true)
  | 0x11 => (pokeCtrl1Update d (pokeCtrl1Store d s value) value, true)
  | 0x12 =>
    if s.rasterIrqLine != value then
      let s1 : VIC := { s with rasterIrqLine := value }
      if s1.yCounter == d.rasterInterruptLine s1 then (s1.triggerDelayedIRQ 1, false)
      else (s1, false)
    else (s, false)
  | 0x13 | 0x14 => (s, false)
  | 0x15 => ({ s with reg.current.sprEnable := value }, true)
  | 0x16 =>
    let s1 : VIC := { s with reg.current.ctrl2 := value }
    let s2 : VIC := { s1 with leftComparisonVal := d.leftComparisonValue s1 }
    ({ s2 with rightComparisonVal := d.rightComparisonValue s2 }, true)
  | 0x17 =>
    let s1 : VIC := { s with reg.current.sprExpandY := value }
    let s2 : VIC :=
      { s1 with cleared_bits_in_d017 := u8 (bitNot value &&& bitNot s1.expansionFF) }
    ({ s2 with expansionFF := u8 (s2.expansionFF ||| bitNot value) }, true)
  | 0x18 =>
    if (value &&& 0x02) != (s.memSelect &&& 0x02) then
      let s1 : VIC := { s with memSelect := value }
      ({ s1 with c64 := s1.c64.putMessage Message.MSG_CHARSET }, false)
    else
      ({ s with memSelect := value }, false)
  | 0x19 =>
    let s1 : VIC := { s with irr := u8 (s.irr &&& (bitNot value &&& 0x0F)) }
    if s1.irr &&& s1.imr == 0 then
      ({ s1 with delay := s1.delay ||| d.VICReleaseIrq }, false)
    else (s1, false)
  | 0x1A =>
    let s1 : VIC := { s with imr := value &&& 0x0F }
    if s1.irr &&& s1.imr != 0 then (s1.triggerDelayedIRQ 1, false)
    else ({ s1 with delay := s1.delay ||| d.VICReleaseIrq }, false)
  | 0x1B => ({ s with reg.current.sprPriority := value }, true)
  | 0x1C => ({ s with reg.current.sprMC := value }, true)
  | 0x1D => ({ s with reg.current.sprExpandX := value }, true)
  | 0x1E | 0x1F => (s, false)
  | 0x20 | 0x21 | 0x22 | 0x23 | 0x24 | 0x25 | 0x26 | 0x27
  | 0x28 | 0x29 | 0x2A | 0x2B | 0x2C | 0x2D | 0x2E =>
    let c := setAt s.reg.current.colors (addr - 0x20) (value &&& 0xF)
    let s1 : VIC := { s with reg.current.colors := c }
    if d.hasGrayDotBug s1 && s1.emulateGrayDotBug then
      let c1 := setAt s1.reg.delayed.colors (addr - 0x20) 0xF
      ({ s1 with reg.delayed.colors := c1 }, true)
    else (s1, true)
  | _ => (s, true)

/-- The function `VIC::poke`: the state after the write, `none` when the assertion
fails. -/
def poke (d : VICDecls) (s : VIC) (addr value : Nat) : Option VIC :=
  if addr < 0x40 then
    match pokeSwitch d s addr value with
    | (s1, true) => some { s1 with delay := s1.delay ||| d.VICUpdateRegisters }
    | (s1, false) => some s1
  else none

/-! ## `VIC::memAccess` and `VIC::cAccess` -/

/-- The byte `VIC::memAccess` assigns to `dataBus`, selected by the memory mapping: `s1` is
the state with the address bus already latched. -/
def memAccessData (s1 : VIC) (addr : Nat) : Nat :=
  if !s1.c64.getUltimax then
    match s1.addrBus >>> 12 with
    | 0x9 | 0x1 => s1.c64.mem.rom (0xC000 + addr)
    | _ => s1.c64.mem.ram s1.addrBus
  else
    match s1.addrBus >>> 12 with
    | 0xF | 0xB | 0x7 | 0x3 => s1.c64.expansionport_peek (s1.addrBus ||| 0xF000)
    | 0xE | 0xD | 0x9 | 0x8 | 0x0 => s1.c64.mem.ram s1.addrBus
    | _ => s1.c64.mem.ram s1.addrBus

/-- The function `VIC::memAccess`: the byte read and the state after the access (address
and data bus latched), `none` when an assertion fails. -/
def memAccess (s : VIC) (addr : Nat) : Option (Nat × VIC) :=
  if addr &&& 0xC000 != 0 then none
  else if s.bankAddr &&& 0x3FFF != 0 then none
  else
    let s1 : VIC := { s with addrBus := s.bankAddr ||| addr }
    let s2 : VIC := { s1 with dataBus := memAccessData s1 addr }
    some (s2.dataBus, s2)

/-- The function `VIC::cAccess`, `none` when an assertion of `memAccess` fails. -/
def cAccess (d : VICDecls) (s : VIC) : Option VIC :=
  if d.BApulledDownForAtLeastThreeCycles s then
    let addr := u16 ((d.VM13VM12VM11VM10 s <<< 6) ||| s.vc)
    match memAccess s addr with
    | none => none
    | some (data, s1) =>
      let s2 : VIC := { s1 with videoMatrix := setAt s1.videoMatrix s1.vmli data }
      some { s2 with
        colorLine := setAt s2.colorLine s2.vmli (s2.c64.mem.colorRam s2.vc &&& 0x0F) }
  else
    let s1 : VIC := { s with videoMatrix := setAt s.videoMatrix s.vmli 0xFF }
    some { s1 with
      colorLine := setAt s1.colorLine s1.vmli (s1.c64.mem.ram s1.c64.cpu.getPC &&& 0x0F) }

/-- The function `VIC::memIdleAccess`. -/
def memIdleAccess (s : VIC) : Option (Nat × VIC) := memAccess s 0x3FFF

/-! ## `VIC::gAccess`, `VIC::pAccess` and the sprite data accesses -/

/-- The local `addr` of `VIC::gAccess` in display state: the bitmap or the character
generator address, with address lines 9 and 10 held low when ECM is set. -/
def gAccessDisplayAddr (d : VICDecls) (s : VIC) : Nat :=
  let addr : Nat :=
    if d.BMMbit s then
      u16 ((d.CB13 s <<< 10) ||| (s.vc <<< 3) ||| s.rc)
    else
      u16 ((d.CB13CB12CB11 s <<< 10) ||| (s.videoMatrix s.vmli <<< 3) ||| s.rc)
  if d.ECMbit s then addr &&& 0xF9FF else addr

/-- The local `addr` of `VIC::gAccess` in idle state. -/
def gAccessIdleAddr (d : VICDecls) (s : VIC) : Nat :=
  if d.ECMbit s then 0x39FF else 0x3FFF

/-- The function `VIC::gAccess`, `none` when an assertion of `memAccess` fails.  The local
`bmm` is computed as in the source; nothing reads it. -/
def gAccess (d : VICDecls) (s : VIC) : Option VIC :=
  if s.displayState then
    let bmm0 : Bool := GET_BIT s.reg.delayed.ctrl1 5
    let _bmm : Bool := if !d.is856x s then bmm0 || GET_BIT s.reg.current.ctrl1 5 else bmm0
    match memAccess s (gAccessDisplayAddr d s) with
    | none => none
    | some (data, s1) =>
      let w := d.LO_LO_HI data (s1.colorLine s1.vmli) (s1.videoMatrix s1.vmli)
      let s2 : VIC := { s1 with gAccessResult := s1.gAccessResult ++ [w] }
      let s3 : VIC := { s2 with vc := (s2.vc + 1) &&& 0x3FF }
      some { s3 with vmli := (s3.vmli + 1) &&& 0x3F }
  else
    match memAccess s (gAccessIdleAddr d s) with
    | none => none
    | some (data, s1) => some { s1 with gAccessResult := s1.gAccessResult ++ [data] }

/-- The function `VIC::pAccess`, `none` when an assertion fails. -/
def pAccess (d : VICDecls) (s : VIC) (sprite : Nat) : Option VIC :=
  if sprite < 8 then
    match memAccess s (u16 ((d.VM13VM12VM11VM10 s <<< 6) ||| 0x03F8 ||| sprite)) with
    | none => none
    | some (data, s1) => some { s1 with spritePtr := setAt s1.spritePtr sprite (data <<< 6) }
  else none

/-- The statements `mc[sprite]++; mc[sprite] &= 0x3F;` of the sprite data accesses. -/
def incMc (s : VIC) (sprite : Nat) : VIC :=
  let s1 : VIC := { s with mc := setAt s.mc sprite (s.mc sprite + 1) }
  { s1 with mc := setAt s1.mc sprite (s1.mc sprite &&& 0x3F) }

/-- The function `VIC::sFirstAccess`, `none` when an assertion fails. -/
def sFirstAccess (d : VICDecls) (s : VIC) (sprite : Nat) : Option VIC :=
  if sprite < 8 then
    let s1 : VIC := { s with isFirstDMAcycle := 1 <<< sprite }
    if s1.spriteDmaOnOff &&& (1 <<< sprite) != 0 then
      if d.BApulledDownForAtLeastThreeCycles s1 then
        match memAccess s1 (u16 (s1.spritePtr sprite ||| s1.mc sprite)) with
        | none => none
        | some (data, s2) =>
          let s3 : VIC := incMc s2 sprite
          some { s3 with
            spriteSr := setSr s3.spriteSr sprite { s3.spriteSr sprite with chunk1 := data } }
      else none
    else
      some { s1 with
        spriteSr := setSr s1.spriteSr sprite { s1.spriteSr sprite with chunk1 := 0x00 } }
  else none

/-- The function `VIC::sSecondAccess`, `none` when an assertion fails. -/
def sSecondAccess (d : VICDecls) (s : VIC) (sprite : Nat) : Option VIC :=
  if sprite < 8 then
    let s0 : VIC := { s with isFirstDMAcycle := 0 }
    let s1 : VIC := { s0 with isSecondDMAcycle := 1 <<< sprite }
    if s1.spriteDmaOnOff &&& (1 <<< sprite) != 0 then
      if d.BApulledDownForAtLeastThreeCycles s1 then
        match memAccess s1 (u16 (s1.spritePtr sprite ||| s1.mc sprite)) with
        | none => none
        | some (data, s2) =>
          let s3 : VIC := incMc s2 sprite
          some { s3 with
            spriteSr := setSr s3.spriteSr sprite { s3.spriteSr sprite with chunk2 := data } }
      else none
    else
      match memIdleAccess s1 with
      | none => none
      | some (_, s2) =>
        some { s2 with
          spriteSr := setSr s2.spriteSr sprite { s2.spriteSr sprite with chunk2 := 0x00 } }
  else none

/-- The function `VIC::sThirdAccess`, `none` when an assertion fails. -/
def sThirdAccess (d : VICDecls) (s : VIC) (sprite : Nat) : Option VIC :=
  if sprite < 8 then
    if s.spriteDmaOnOff &&& (1 <<< sprite) != 0 then
      if d.BApulledDownForAtLeastThreeCycles s then
        match memAccess s (u16 (s.spritePtr sprite ||| s.mc sprite)) with
        | none => none
        | some (data, s2) =>
          let s3 : VIC := incMc s2 sprite
          some { s3 with
            spriteSr := setSr s3.spriteSr sprite { s3.spriteSr sprite with chunk3 := data } }
      else none
    else
      some { s with
        spriteSr := setSr s.spriteSr sprite { s.spriteSr sprite with chunk3 := 0x00 } }
  else none

/-- The function `VIC::sFinalize`, `none` when the assertion fails. -/
def sFinalize (s : VIC) (sprite : Nat) : Option VIC :=
  if sprite < 8 then some { s with isSecondDMAcycle := 0 } else none

/-! ## Sequences of register accesses -/

/-- One access of the CPU to the register window: a read of `addr` or a write of `value`
to `addr`. -/
inductive RegAccess where
  | read (addr : Nat)
  | write (addr value : Nat)
  deriving DecidableEq, Repr

/-- The register address of an access. -/
def RegAccess.addr : RegAccess → Nat
  | .read a => a
  | .write a _ => a

/-- The state after one access: `peek` for a read (the value is dropped), `poke` for a
write. -/
def access (d : VICDecls) (s : VIC) : RegAccess → Option VIC
  | .read a => (peek s a).map Prod.snd
  | .write a v => poke d s a v

/-- The state after a sequence of accesses performed in order. -/
def accesses (d : VICDecls) (s : VIC) : List RegAccess → Option VIC
  | [] => some s
  | x :: xs =>
    match access d s x with
    | none => none
    | some s1 => accesses d s1 xs

/-! ## Auxiliary states -/

/-- The state in which `hasGrayDotBug()` is evaluated by a write to colour register `j`:
the new colour is already in `reg.current`. -/
def colorWritten (s : VIC) (j v : Nat) : VIC :=
  { s with reg.current.colors := setAt s.reg.current.colors j (v &&& 0xF) }

/-- The state after `peek`: the collision register read is cleared, nothing else. -/
def peekState (s : VIC) (a : Nat) : VIC :=
  if a = 0x1E then { s with spriteSpriteCollision := 0 }
  else if a = 0x1F then { s with spriteBackgroundColllision := 0 }
  else s

/-! ## Sample inputs -/

/-- A sample instance of the externally declared members, used to run the model on
concrete inputs: the delay flags are distinct bits, the raster compare line is RST8
(bit 7 of control register 1) above the `$D012` latch, the bad line condition follows
the per-cycle procedure of the specification, and the video matrix bank is the high
nibble of `memSelect`. -/
def sampleDecls : VICDecls where
  VICUpdateRegisters := 0x40
  VICReleaseIrq := 0x04
  VICSetDisplayState := 0x100
  rasterInterruptLine := fun s => ((s.reg.current.ctrl1 &&& 0x80) <<< 1) ||| s.rasterIrqLine
  badLineCondition := fun s =>
    decide (s.yCounter ≥ 0x30) && decide (s.yCounter ≤ 0xF7) &&
      (s.yCounter &&& 0x07 == s.reg.current.ctrl1 &&& 0x07) && s.DENwasSetInRasterline30
  upperComparisonValue := fun s => if s.reg.current.ctrl1 &&& 0x08 != 0 then 51 else 55
  lowerComparisonValue := fun s => if s.reg.current.ctrl1 &&& 0x08 != 0 then 251 else 247
  leftComparisonValue := fun s => if s.reg.current.ctrl2 &&& 0x08 != 0 then 24 else 31
  rightComparisonValue := fun s => if s.reg.current.ctrl2 &&& 0x08 != 0 then 344 else 335
  hasGrayDotBug := fun _ => true
  BApulledDownForAtLeastThreeCycles := fun s => s.badLine
  VM13VM12VM11VM10 := fun s => s.memSelect &&& 0xF0
  CB13CB12CB11 := fun s => s.memSelect &&& 0x0E
  CB13 := fun s => s.memSelect &&& 0x08
  BMMbit := fun s => GET_BIT s.reg.delayed.ctrl1 5
  ECMbit := fun s => GET_BIT s.reg.delayed.ctrl1 6
  is856x := fun _ => false
  LO_LO_HI := fun x y z => (z <<< 16) ||| (y <<< 8) ||| x

/-- Both collision registers loaded: sprites 0 and 1 have collided with each other, and
sprite 2 with the background. -/
def collisionState : VIC := { spriteSpriteCollision := 0x03, spriteBackgroundColllision := 0x04 }

/-- All four interrupt sources pending, the raster interrupt enabled. -/
def irqPendingState : VIC := { irr := 0x0F, imr := 0x01, delay := 0x40 }

/-- The gray-dot bug is emulated; every colour register of the delayed copy holds 6. -/
def grayDotState : VIC :=
  { emulateGrayDotBug := true, reg := { delayed := { colors := fun _ => 6 } } }

/-- A state on a bad line in which BA has been low long enough, with screen memory at
`$0400` holding character `$2A` in its first cell and colour RAM holding `$F5` there. -/
def badLineState : VIC :=
  { badLine := true, memSelect := 0x10, vmli := 3,
    c64 := { mem := { ram := fun a => if a = 0x0400 then 0x2A else 0,
                      colorRam := fun _ => 0xF5 } } }

/-- A CPU in the middle of an instruction at `$C000`: the real program counter is two
bytes ahead of the frozen one; N and C are set in the status register. -/
def midInstructionCPU : CPU := { pc := 0xC000, regPC := 0xC002, regP := 0x81, next := 7 }

/-- Ultimax mode, VIC bank 1: the cartridge delivers `$C3` everywhere and RAM holds `$11`
everywhere. -/
def ultimaxState : VIC :=
  { bankAddr := 0x4000,
    c64 := { ultimax := true, expansionport_peek := fun _ => 0xC3,
             mem := { ram := fun _ => 0x11 } } }

/-- What every fetch operation leaves alone: the machine behind `c64` (memory included),
the bank address, the sprite DMA mask and the row counter. -/
def FetchFrame (s s1 : VIC) : Prop :=
  s1.c64 = s.c64 ∧ s1.bankAddr = s.bankAddr ∧ s1.spriteDmaOnOff = s.spriteDmaOnOff ∧
  s1.rc = s.rc

/-- One call of a function of `VIC_memory.cpp`, with its arguments. -/
inductive VICOp where
  | peek (addr : Nat)
  | poke (addr value : Nat)
  | memAccess (addr : Nat)
  | memIdleAccess
  | cAccess
  | gAccess
  | pAccess (sprite : Nat)
  | sFirstAccess (sprite : Nat)
  | sSecondAccess (sprite : Nat)
  | sThirdAccess (sprite : Nat)
  | sFinalize (sprite : Nat)
  deriving DecidableEq, Repr

/-- The fetch operations: the calls that read memory on behalf of the VIC. -/
def VICOp.isFetch : VICOp → Bool
  | .peek _ => false
  | .poke _ _ => false
  | .sFinalize _ => false
  | _ => true

/-- The state after one call; a value returned by the call is dropped. -/
def runOp (d : VICDecls) (s : VIC) : VICOp → Option VIC
  | .peek a => (peek s a).map Prod.snd
  | .poke a v => poke d s a v
  | .memAccess a => (memAccess s a).map Prod.snd
  | .memIdleAccess => (memIdleAccess s).map Prod.snd
  | .cAccess => cAccess d s
  | .gAccess => gAccess d s
  | .pAccess i => pAccess d s i
  | .sFirstAccess i => sFirstAccess d s i
  | .sSecondAccess i => sSecondAccess d s i
  | .sThirdAccess i => sThirdAccess d s i
  | .sFinalize i => sFinalize s i

/-- The state after a sequence of calls performed in order. -/
def runOps (d : VICDecls) (s : VIC) : List VICOp → Option VIC
  | [] => some s
  | op :: ops =>
    match runOp d s op with
    | none => none
    | some s1 => runOps d s1 ops

/-- Sprite 2 has its DMA switched on, its data pointer at `$0340` and its counter at the
last position of a 64 byte block; RAM holds the low byte of each address.  The line is a
bad line, which is when the sample helper reports BA low for three cycles. -/
def spriteDmaState : VIC :=
  { spriteDmaOnOff := 0x04, spritePtr := fun _ => 0x0340, mc := fun _ => 63, badLine := true,
    c64 := { mem := { ram := fun a => a % 256 } } }

/-- No sprite has its DMA switched on; the address bus still holds `$1234` from an
earlier access. -/
def spriteIdleState : VIC := { spriteDmaOnOff := 0x00, addrBus := 0x1234 }

/-- Display state in text mode: the character `$2A` sits in the line buffer at `vmli = 39`,
the character generator is at `$1000` and the row counter is 5. -/
def displayTextState : VIC :=
  { displayState := true, vc := 1023, vmli := 39, rc := 5, memSelect := 0x14,
    videoMatrix := fun _ => 0x2A }

/-- The address a g-access in display state is said to read before ECM is applied: the
bitmap address when BMM is set, the character generator address when it is clear. -/
def gAccessRawAddr (d : VICDecls) (s : VIC) : Nat :=
  if d.BMMbit s then (d.CB13 s <<< 10) ||| (s.vc <<< 3) ||| s.rc
  else (d.CB13CB12CB11 s <<< 10) ||| (s.videoMatrix s.vmli <<< 3) ||| s.rc

/-- The video matrix is at `$0400`; its sprite pointer for sprite 2, at `$07FA`, holds
`$0D`. -/
def spritePointerState : VIC :=
  { memSelect := 0x10, c64 := { mem := { ram := fun a => if a = 0x07FA then 0x0D else 0 } } }

/-- An instance of the externally declared members in which BA has been low for three
cycles whatever the state, as during the sprite data accesses of a sprite with DMA. -/
def baLowDecls : VICDecls :=
  { sampleDecls with BApulledDownForAtLeastThreeCycles := fun _ => true }

/-! ## `VIC::spypeek` -/

/-- The function `VIC::spypeek`: the value read and the state after the read, `none` when
an assertion fails. -/
def spypeek (s : VIC) (addr : Nat) : Option (Nat × VIC) :=
  if addr ≤ 0x003F then
    match addr with
    | 0x1E => some (u8 s.spriteSpriteCollision, s)
    | 0x1F => some (u8 s.spriteBackgroundColllision, s)
    | _ => peek s addr
  else none

/-! ## `PixelEngine` -/

/-- The data members of `PixelEngine` behind `screenBuffer()` and the per-cycle source
masks.  A pointer is the address it holds; `pixelSource` is declared
`uint8_t pixelSource[8]`. -/
structure PixelEngine where
  screenBuffer1 : Nat := 0
  screenBuffer2 : Nat := 0
  currentScreenBuffer : Nat := 0
  pixelSource : Nat → Nat := fun _ => 0

/-- The function `PixelEngine::screenBuffer`. -/
def PixelEngine.screenBuffer (p : PixelEngine) : Nat :=
  if p.currentScreenBuffer == p.screenBuffer1 then p.screenBuffer2 else p.screenBuffer1

/-- The assignment `pixelSource[i] = m`: the cell is a `uint8_t`, the value is converted
to 8 bits. -/
def PixelEngine.storePixelSource (p : PixelEngine) (i m : Nat) : PixelEngine :=
  { p with pixelSource := setAt p.pixelSource i (u8 m) }

/-- Modelled from the spec: the renderer that marks pixels is outside the sources; the
specification gives its statement `pixelSource[i] |= m`, which on a `uint8_t` cell stores
the low 8 bits of the disjunction. -/
def PixelEngine.orPixelSource (p : PixelEngine) (i m : Nat) : PixelEngine :=
  { p with pixelSource := setAt p.pixelSource i (u8 (p.pixelSource i ||| m)) }

/-! ## `AnyC64File` -/

/-- Modelled from the spec: the class declaration of `AnyC64File` is outside the sources.
`data` is the heap buffer (`none` for `NULL`), `size` its length in bytes (a `size_t`),
`fp` the read pointer and `eof` the end-of-file position (both `long`, `-1` for none). -/
structure AnyC64File where
  data : Option (List Nat) := none
  size : Nat := 0
  fp : Int := -1
  eof : Int := -1

/-- Conversion of a `long` to `size_t`, as applied to the signed operand of a comparison
with a `size_t`. -/
def toSizeT (x : Int) : Nat := (x % 2 ^ 64).toNat

/-- The function `AnyC64File::dealloc`, `none` when the assertion fails. -/
def AnyC64File.dealloc (f : AnyC64File) : Option AnyC64File :=
  match f.data with
  | none => if f.size == 0 then some f else none
  | some _ =>
    let f1 : AnyC64File := { f with data := none }
    some { f1 with size := 0 }

/-- The function `AnyC64File::seek`. -/
def AnyC64File.seek (f : AnyC64File) (offset : Int) : AnyC64File :=
  { f with fp := if toSizeT offset < f.size then (f.size : Int) else -1 }

/-- The function `AnyC64File::getByte`: the value returned and the state after the call;
`none` when the assertion fails or `data[fp]` lies outside the buffer. -/
def AnyC64File.getByte (f : AnyC64File) : Option (Int × AnyC64File) :=
  if toSizeT f.eof ≤ f.size then
    if f.fp < 0 then some (-1, f)
    else
      match f.data with
      | none => none
      | some bytes =>
        match bytes[f.fp.toNat]? with
        | none => none
        | some b =>
          let result : Int := (b : Int)
          if f.fp == f.eof then some (result, { f with fp := -1 })
          else some (result, { f with fp := f.fp + 1 })
  else none

/-- The function `AnyC64File::readFromBuffer`: the value returned and the state after the
call; `none` when an assertion fails or `length` exceeds the bytes behind `buffer`. -/
def AnyC64File.readFromBuffer (f : AnyC64File) (buffer : List Nat) (length : Nat) :
    Option (Bool × AnyC64File) :=
  match f.dealloc with
  | none => none
  | some f1 =>
    if length ≤ buffer.length then
      let f2 : AnyC64File := { f1 with data := some (buffer.take length) }
      let f3 : AnyC64File := { f2 with size := length }
      let f4 : AnyC64File := { f3 with eof := (length : Int) }
      some (true, f4.seek 0)
    else none

/-! ## `Guard`, `Guards` and `CPUDebugger` -/

/-- Modelled from the spec: the class `Guard` is declared outside the sources.  A guard
has an address (`u32`), an enable flag, and the counters `hits` and `skip` (`long`). -/
structure Guard where
  addr : Nat := 0
  enabled : Bool := false
  hits : Int := 0
  skip : Int := 0
  deriving DecidableEq, Repr

/-- The function `Guard::eval`: the value returned and the guard after the call. -/
def Guard.eval (g : Guard) (addr : Nat) : Bool × Guard :=
  if g.addr == addr && g.enabled then
    let g1 : Guard := { g with hits := g.hits + 1 }
    if g1.hits > g1.skip then (true, g1) else (false, g1)
  else (false, g)

/-- Modelled from the spec: the class `Guards` is declared outside the sources.  `guards`
is the array of guards, `count` the number of cells in use and `capacity` the number of
cells allocated (both `long`).  `needsCheck` collects the arguments of the calls of the
virtual function `setNeedsCheck`, oldest first. -/
structure Guards where
  guards : Nat → Guard := fun _ => {}
  count : Int := 0
  capacity : Int := 1
  needsCheck : List Bool := []

/-- Element assignment on the array of guards. -/
def setGuard (a : Nat → Guard) (i : Nat) (v : Guard) : Nat → Guard :=
  fun j => if j = i then v else a j

/-- The loop of `Guards::eval` from index `i` on, with `n` rounds left before `i` reaches
`count`. -/
def Guards.evalLoop (addr : Nat) : Nat → Nat → Guards → Bool × Guards
  | 0, _, g => (false, g)
  | n + 1, i, g =>
    let r := (g.guards i).eval addr
    let g1 : Guards := { g with guards := setGuard g.guards i r.2 }
    if r.1 then (true, g1) else Guards.evalLoop addr n (i + 1) g1

/-- The function `Guards::eval`: the value returned and the guards after the call. -/
def Guards.eval (g : Guards) (addr : Nat) : Bool × Guards :=
  Guards.evalLoop addr g.count.toNat 0 g

/-- Modelled from the spec: `Guards::elements` is declared outside the sources; it is the
number of guards stored. -/
def Guards.elements (g : Guards) : Int := g.count

/-- The value of `UINT64_MAX`. -/
def UINT64_MAX : Nat := 2 ^ 64 - 1

/-- Modelled from the spec: the type `RecordedInstruction` is declared outside the
sources; a record has the fields `logInstruction` fills in. -/
structure RecordedInstruction where
  cycle : Nat := 0
  pc : Nat := 0
  sp : Nat := 0
  byte1 : Nat := 0
  byte2 : Nat := 0
  byte3 : Nat := 0
  a : Nat := 0
  x : Nat := 0
  y : Nat := 0
  flags : Nat := 0
  deriving DecidableEq, Repr

/-- Modelled from the spec: the enumeration `AddressingMode` is declared outside the
sources; its members are the ones named by the `switch` statements of
`CPUDebugger.cpp`. -/
inductive AddressingMode where
  | ADDR_IMPLIED
  | ADDR_ACCUMULATOR
  | ADDR_IMMEDIATE
  | ADDR_ZERO_PAGE
  | ADDR_ZERO_PAGE_X
  | ADDR_ZERO_PAGE_Y
  | ADDR_INDIRECT_X
  | ADDR_INDIRECT_Y
  | ADDR_RELATIVE
  | ADDR_ABSOLUTE
  | ADDR_ABSOLUTE_X
  | ADDR_ABSOLUTE_Y
  | ADDR_DIRECT
  | ADDR_INDIRECT
  deriving DecidableEq, Repr

/-- The part of the machine behind `CPUDebugger::breakpointMatches`: the soft breakpoint
(`u64`), the breakpoints, the flag `cpu.debugMode` and the value of
`cpu.c64.inDebugMode()`; and the members behind the instruction log and the disassembler:
the ring `logBuffer`, the counter `logCnt`, the number format `hex` and the tables
`addressingMode` and `mnemonic` indexed by opcode (a mnemonic is the characters of a C
string, without the terminating NUL). -/
structure CPUDebugger where
  softStop : Nat := UINT64_MAX - 1
  breakpoints : Guards := {}
  debugMode : Bool := false
  inDebugMode : Bool := false
  logBuffer : Nat → RecordedInstruction := fun _ => {}
  logCnt : Nat := 0
  hex : Bool := true
  addressingMode : Nat → AddressingMode := fun _ => AddressingMode.ADDR_IMPLIED
  mnemonic : Nat → List Char := fun _ => []

/-- The function `Breakpoints::setNeedsCheck`. -/
def CPUDebugger.breakpointsSetNeedsCheck (s : CPUDebugger) (value : Bool) : CPUDebugger :=
  if value || s.inDebugMode then { s with debugMode := true }
  else { s with debugMode := false }

/-- The function `CPUDebugger::setSoftStop`. -/
def CPUDebugger.setSoftStop (s : CPUDebugger) (addr : Nat) : CPUDebugger :=
  let s1 : CPUDebugger := { s with softStop := addr }
  s1.breakpointsSetNeedsCheck true

/-- The function `CPUDebugger::breakpointMatches`: the value returned and the state after
the call. -/
def CPUDebugger.breakpointMatches (s : CPUDebugger) (addr : Nat) : Bool × CPUDebugger :=
  if addr == s.softStop || s.softStop == UINT64_MAX then
    let s1 : CPUDebugger := { s with softStop := UINT64_MAX - 1 }
    (true, s1.breakpointsSetNeedsCheck (s1.breakpoints.elements != 0))
  else
    let r := s.breakpoints.eval addr
    (r.1, { s with breakpoints := r.2 })

/-! ## Further sample inputs -/

/-- Sprite 3 sits at X position `$1A5`, the other sprites at `$20`. -/
def spriteXState : VIC :=
  { reg := { current := { sprX := fun j => if j = 3 then 0x1A5 else 0x20 } } }

/-- Standard (non-Ultimax) mode, VIC bank 2: the ROM holds `$C3` everywhere and RAM `$11`
everywhere. -/
def charRomState : VIC :=
  { bankAddr := 0x8000, c64 := { mem := { rom := fun _ => 0xC3, ram := fun _ => 0x11 } } }

/-- The expansion flip-flops of sprites 0 and 1 are set, the others clear. -/
def expansionState : VIC := { expansionFF := 0x03 }

/-- A pixel engine rendering into the first of its two buffers, at addresses `$1000` and
`$2000`; sprite 0 has drawn pixel 0 of the current cycle. -/
def samplePixelEngine : PixelEngine :=
  { screenBuffer1 := 0x1000, screenBuffer2 := 0x2000, currentScreenBuffer := 0x1000,
    pixelSource := fun i => if i = 0 then 0x01 else 0 }

/-- A debugger with a soft breakpoint at `$C000` and one enabled breakpoint at `$C010`. -/
def softStopDebugger : CPUDebugger :=
  { softStop := 0xC000,
    breakpoints := { guards := fun _ => { addr := 0xC010, enabled := true }, count := 1 } }

/-! ## The operations of `Guards` -/

/-- The virtual function `Guards::setNeedsCheck`, seen from `Guards`: the call is recorded
with its argument. -/
def Guards.setNeedsCheck (g : Guards) (value : Bool) : Guards :=
  { g with needsCheck := g.needsCheck ++ [value] }

/-- The cell `guards[nr]` for a signed index: `none` for an index before the array. -/
def Guards.cell (g : Guards) (nr : Int) : Option Guard :=
  if 0 ≤ nr then some (g.guards nr.toNat) else none

/-- The function `Guards::guardWithNr`.  The pointer `&guards[nr]` is the index `nr` it
points to, `NULL` is `none`. -/
def Guards.guardWithNr (g : Guards) (nr : Int) : Option Int :=
  if nr < g.count then some nr else none

/-- The loop of `Guards::guardAtAddr` from index `i` on, with `n` rounds left before `i`
reaches `count`. -/
def Guards.guardAtAddrLoop (g : Guards) (addr : Nat) : Nat → Nat → Option Int
  | 0, _ => none
  | n + 1, i =>
    if (g.guards i).addr == addr then some (i : Int)
    else Guards.guardAtAddrLoop g addr n (i + 1)

/-- The function `Guards::guardAtAddr`: the index of the guard found, `none` for `NULL`. -/
def Guards.guardAtAddr (g : Guards) (addr : Nat) : Option Int :=
  g.guardAtAddrLoop addr g.count.toNat 0

/-- The function `Guards::isSetAt`. -/
def Guards.isSetAt (g : Guards) (addr : Nat) : Bool :=
  let guard := g.guardAtAddr addr
  guard != none

/-- The reallocation in `Guards::addAt`: a new array of `2 * capacity` cells receives the
first `capacity` guards and replaces the old one. -/
def Guards.grow (g : Guards) : Guards :=
  let newguards : Nat → Guard :=
    (List.range g.capacity.toNat).foldl (fun a i => setGuard a i (g.guards i)) (fun _ => {})
  let g1 : Guards := { g with guards := newguards }
  { g1 with capacity := g1.capacity * 2 }

/-- The function `Guards::addAt`. -/
def Guards.addAt (g : Guards) (addr : Nat) (skip : Int) : Guards :=
  if g.isSetAt addr then g
  else
    let g1 : Guards := if g.count ≥ g.capacity then g.grow else g
    let i := g1.count.toNat
    let c : Guard := { g1.guards i with addr := addr, enabled := true, hits := 0, skip := skip }
    let g2 : Guards := { g1 with guards := setGuard g1.guards i c }
    let g3 : Guards := { g2 with count := g2.count + 1 }
    g3.setNeedsCheck true

/-- The inner loop of `Guards::removeAt`, `guards[j] = guards[j + 1]`, from index `j` on
with `n` rounds left before `j + 1` reaches `count`. -/
def shiftGuards : Nat → Nat → (Nat → Guard) → Nat → Guard
  | 0, _, a => a
  | n + 1, j, a => shiftGuards n (j + 1) (setGuard a j (a (j + 1)))

/-- The outer loop of `Guards::removeAt` from index `i` on, with `n` rounds left before
`i` reaches `count`. -/
def Guards.removeAtLoop (addr : Nat) : Nat → Nat → Guards → Guards
  | 0, _, g => g
  | n + 1, i, g =>
    if (g.guards i).addr == addr then
      let g1 : Guards := { g with guards := shiftGuards (g.count.toNat - (i + 1)) i g.guards }
      { g1 with count := g1.count - 1 }
    else Guards.removeAtLoop addr n (i + 1) g

/-- The function `Guards::removeAt`. -/
def Guards.removeAt (g : Guards) (addr : Nat) : Guards :=
  let g1 := Guards.removeAtLoop addr g.count.toNat 0 g
  g1.setNeedsCheck (g1.count != 0)

/-- The function `Guards::remove`, `none` when `guards[nr]` lies before the array. -/
def Guards.remove (g : Guards) (nr : Int) : Option Guards :=
  if nr < g.count then
    match g.cell nr with
    | none => none
    | some c => some (g.removeAt c.addr)
  else some g

/-- The function `Guards::replace`, `none` when `guards[nr]` lies before the array. -/
def Guards.replace (g : Guards) (nr : Int) (addr : Nat) : Option Guards :=
  if nr ≥ g.count || g.isSetAt addr then some g
  else
    match g.cell nr with
    | none => none
    | some c =>
      some { g with guards := setGuard g.guards nr.toNat { c with addr := addr, hits := 0 } }

/-- The function `Guards::isEnabled`, `none` when `guards[nr]` lies before the array. -/
def Guards.isEnabled (g : Guards) (nr : Int) : Option Bool :=
  if nr < g.count then
    match g.cell nr with
    | none => none
    | some c => some c.enabled
  else some false

/-- The function `Guards::setEnable`, `none` when `guards[nr]` lies before the array. -/
def Guards.setEnable (g : Guards) (nr : Int) (val : Bool) : Option Guards :=
  if nr < g.count then
    match g.cell nr with
    | none => none
    | some c => some { g with guards := setGuard g.guards nr.toNat { c with enabled := val } }
  else some g

/-- The guards in use, in array order. -/
def Guards.toList (g : Guards) : List Guard := (List.range g.count.toNat).map g.guards

/-- The state of a guard after `n` calls of `Guard::eval` with the same address. -/
def Guard.evalTimes (g : Guard) (addr : Nat) : Nat → Guard
  | 0 => g
  | n + 1 => ((Guard.evalTimes g addr n).eval addr).2

/-! ## The instruction log -/

/-- Modelled from the spec: the class `CPU` seen by the debugger is declared outside the
sources.  These are the values `logInstruction` reads from `cpu`: `getPC0()`, `cycle`,
`reg.sp`, `reg.a`, `reg.x`, `reg.y`, `getP()` and the memory behind `mem.spypeek`. -/
structure DebuggedCPU where
  pc0 : Nat := 0
  cycle : Nat := 0
  sp : Nat := 0
  a : Nat := 0
  x : Nat := 0
  y : Nat := 0
  p : Nat := 0
  spypeek : Nat → Nat := fun _ => 0

/-- The function `CPUDebugger::getLengthOfInstruction`. -/
def CPUDebugger.getLengthOfInstruction (s : CPUDebugger) (opcode : Nat) : Nat :=
  match s.addressingMode opcode with
  | .ADDR_IMPLIED | .ADDR_ACCUMULATOR => 1
  | .ADDR_IMMEDIATE | .ADDR_ZERO_PAGE | .ADDR_ZERO_PAGE_X | .ADDR_ZERO_PAGE_Y
  | .ADDR_INDIRECT_X | .ADDR_INDIRECT_Y | .ADDR_RELATIVE => 2
  | .ADDR_ABSOLUTE | .ADDR_ABSOLUTE_X | .ADDR_ABSOLUTE_Y | .ADDR_DIRECT
  | .ADDR_INDIRECT => 3

/-- The function `CPUDebugger::loggedInstructions`; `cap` is the constant
`LOG_BUFFER_CAPACITY`, declared outside the sources. -/
def CPUDebugger.loggedInstructions (cap : Nat) (s : CPUDebugger) : Int :=
  if s.logCnt < cap then (s.logCnt : Int) else (cap : Int)

/-- The record `CPUDebugger::logInstruction` writes for the CPU state `cpu`. -/
def CPUDebugger.recordOf (s : CPUDebugger) (cpu : DebuggedCPU) : RecordedInstruction :=
  let pc := u16 cpu.pc0
  let opcode := u8 (cpu.spypeek pc)
  let length := s.getLengthOfInstruction opcode
  { cycle := cpu.cycle
    pc := pc
    sp := cpu.sp
    byte1 := opcode
    byte2 := if length > 1 then u8 (cpu.spypeek (u16 (pc + 1))) else 0
    byte3 := if length > 2 then u8 (cpu.spypeek (u16 (pc + 2))) else 0
    a := cpu.a
    x := cpu.x
    y := cpu.y
    flags := cpu.p }

/-- The function `CPUDebugger::logInstruction`: the record goes to cell
`logCnt % LOG_BUFFER_CAPACITY` and `logCnt` is incremented. -/
def CPUDebugger.logInstruction (cap : Nat) (s : CPUDebugger) (cpu : DebuggedCPU) :
    CPUDebugger :=
  let i := s.logCnt % cap
  let s1 : CPUDebugger := { s with logCnt := s.logCnt + 1 }
  { s1 with logBuffer := fun j => if j = i then s.recordOf cpu else s1.logBuffer j }

/-- The function `CPUDebugger::logEntryRel`, `none` when the assertion fails. -/
def CPUDebugger.logEntryRel (cap : Nat) (s : CPUDebugger) (n : Int) :
    Option RecordedInstruction :=
  if n < s.loggedInstructions cap then
    some (s.logBuffer (Int.tmod ((s.logCnt : Int) - 1 - n) (cap : Int)).toNat)
  else none

/-- The function `CPUDebugger::logEntryAbs`, `none` when an assertion fails. -/
def CPUDebugger.logEntryAbs (cap : Nat) (s : CPUDebugger) (n : Int) :
    Option RecordedInstruction :=
  if n < s.loggedInstructions cap then
    s.logEntryRel cap (s.loggedInstructions cap - n - 1)
  else none

/-- The function `CPUDebugger::loggedPC0Rel`, `none` when the assertion fails. -/
def CPUDebugger.loggedPC0Rel (cap : Nat) (s : CPUDebugger) (n : Int) : Option Nat :=
  if n < s.loggedInstructions cap then
    some (s.logBuffer (Int.tmod ((s.logCnt : Int) - 1 - n) (cap : Int)).toNat).pc
  else none

/-- The function `CPUDebugger::loggedPC0Abs`, `none` when an assertion fails. -/
def CPUDebugger.loggedPC0Abs (cap : Nat) (s : CPUDebugger) (n : Int) : Option Nat :=
  if n < s.loggedInstructions cap then
    s.loggedPC0Rel cap (s.loggedInstructions cap - n - 1)
  else none

/-! ## The disassembler -/

/-- The terminating character of a C string. -/
def NUL : Char := Char.ofNat 0

/-- The call `strcpy(dst, src)` on a `char` array `dst`: the characters of `src` and a
terminating NUL go to the start of `dst`; `none` when they do not fit. -/
def strcpy (dst src : List Char) : Option (List Char) :=
  if src.length + 1 ≤ dst.length then some (src ++ [NUL] ++ dst.drop (src.length + 1))
  else none

/-- The call `memcpy(&dst[off], src, n)` on `char` arrays: `none` when the `n` bytes lie
outside `dst` or outside `src`. -/
def memcpy (dst : List Char) (off : Nat) (src : List Char) (n : Nat) : Option (List Char) :=
  if off + n ≤ dst.length ∧ n ≤ src.length then
    some (dst.take off ++ src.take n ++ dst.drop (off + n))
  else none

/-- The call `strncpy(dst, src, n)` for a C string `src`: the first `n` characters of
`src`, padded with NUL up to `n` when `src` is shorter; `none` when `n` exceeds `dst`. -/
def strncpy (dst src : List Char) (n : Nat) : Option (List Char) :=
  if n ≤ dst.length then
    some (src.take n ++ List.replicate (n - src.length) NUL ++ dst.drop n)
  else none

/-- The C string a `char` array holds: its characters before the first NUL. -/
def cstr (buf : List Char) : List Char := buf.takeWhile (fun c => c != NUL)

/-- The number formatters used by the disassembler, defined outside the sources: each
yields the characters it writes before the terminating NUL. -/
structure SprintDecls where
  sprint8x : Nat → List Char
  sprint8d : Nat → List Char
  sprint16x : Nat → List Char
  sprint16d : Nat → List Char

/-- Modelled from the spec: the macro `LO_HI` is defined outside the sources; it combines
a low and a high byte to a 16 bit value. -/
def LO_HI (x y : Nat) : Nat := u16 ((y <<< 8) ||| x)

/-- The conversion `(i8)b` of a byte.  `i8` is `char`, whose signedness is fixed by the
platform: where `char` is signed the value is `b - 256` for `b ≥ 128`, where it is
unsigned the value is `b`. -/
def castI8 (charIsSigned : Bool) (b : Nat) : Int :=
  if charIsSigned && decide (u8 b ≥ 128) then (u8 b : Int) - 256 else (u8 b : Int)

/-- Conversion of an `int` to `u16`. -/
def toU16 (x : Int) : Nat := (x % 65536).toNat

/-- The value `instr.pc + 2 + (i8)instr.byte2` of case `ADDR_RELATIVE`, as a `u16`. -/
def relativeTarget (charIsSigned : Bool) (instr : RecordedInstruction) : Nat :=
  toU16 ((instr.pc : Int) + 2 + castI8 charIsSigned instr.byte2)

/-- The first `switch` of `CPUDebugger::disassembleInstr`: the characters written to
`operand`, `none` in the cases that leave `operand` alone. -/
def CPUDebugger.operandText (f : SprintDecls) (charIsSigned : Bool) (s : CPUDebugger)
    (instr : RecordedInstruction) : Option (List Char) :=
  match s.addressingMode instr.byte1 with
  | .ADDR_IMMEDIATE | .ADDR_ZERO_PAGE | .ADDR_ZERO_PAGE_X | .ADDR_ZERO_PAGE_Y
  | .ADDR_INDIRECT_X | .ADDR_INDIRECT_Y =>
    let value := u8 instr.byte2
    some (if s.hex then f.sprint8x value else f.sprint8d value)
  | .ADDR_DIRECT | .ADDR_INDIRECT | .ADDR_ABSOLUTE | .ADDR_ABSOLUTE_X | .ADDR_ABSOLUTE_Y =>
    let value := LO_HI instr.byte2 instr.byte3
    some (if s.hex then f.sprint16x value else f.sprint16d value)
  | .ADDR_RELATIVE =>
    let value := relativeTarget charIsSigned instr
    some (if s.hex then f.sprint16x value else f.sprint16d value)
  | _ => none

/-- The second `switch` of `CPUDebugger::disassembleInstr` as a table: the template copied
to `result` and, where an operand is shown, the offset and the length of the `memcpy`. -/
def instrFormat (mode : AddressingMode) (hex : Bool) : String × Option (Nat × Nat) :=
  match mode with
  | .ADDR_IMPLIED | .ADDR_ACCUMULATOR => ("xxx", none)
  | .ADDR_IMMEDIATE => (if hex then "xxx #hh" else "xxx #ddd", some (5, if hex then 2 else 3))
  | .ADDR_ZERO_PAGE => (if hex then "xxx hh" else "xxx ddd", some (4, if hex then 2 else 3))
  | .ADDR_ZERO_PAGE_X =>
    (if hex then "xxx hh,X" else "xxx ddd,X", some (4, if hex then 2 else 3))
  | .ADDR_ZERO_PAGE_Y =>
    (if hex then "xxx hh,Y" else "xxx ddd,Y", some (4, if hex then 2 else 3))
  | .ADDR_ABSOLUTE | .ADDR_DIRECT =>
    (if hex then "xxx hhhh" else "xxx ddddd", some (4, if hex then 4 else 5))
  | .ADDR_ABSOLUTE_X =>
    (if hex then "xxx hhhh,X" else "xxx ddddd,X", some (4, if hex then 4 else 5))
  | .ADDR_ABSOLUTE_Y =>
    (if hex then "xxx hhhh,Y" else "xxx ddddd,Y", some (4, if hex then 4 else 5))
  | .ADDR_INDIRECT =>
    (if hex then "xxx (hhhh)" else "xxx (ddddd)", some (5, if hex then 4 else 5))
  | .ADDR_INDIRECT_X =>
    (if hex then "xxx (hh,X)" else "xxx (ddd,X)", some (5, if hex then 2 else 3))
  | .ADDR_INDIRECT_Y =>
    (if hex then "xxx (hh),Y" else "xxx (ddd),Y", some (5, if hex then 2 else 3))
  | .ADDR_RELATIVE =>
    (if hex then "xxx hhhh" else "xxx ddddd", some (4, if hex then 4 else 5))

/-- The function `CPUDebugger::disassembleInstr(RecordedInstruction &, long *)`: the
length stored through `len` and the contents of the static array `result` after the call;
`result` and `operand` are the two arrays as they are found on entry.  The outcome is
`none` when a write leaves one of the arrays. -/
def CPUDebugger.disassembleInstr (f : SprintDecls) (charIsSigned : Bool) (s : CPUDebugger)
    (result operand : List Char) (instr : RecordedInstruction) : Option (Nat × List Char) :=
  let opcode := instr.byte1
  let len := s.getLengthOfInstruction opcode
  let operand1 : Option (List Char) :=
    match s.operandText f charIsSigned instr with
    | some digits => strcpy operand digits
    | none => some operand
  match operand1 with
  | none => none
  | some op =>
    let fmt := instrFormat (s.addressingMode opcode) s.hex
    let result1 : Option (List Char) :=
      match strcpy result fmt.1.toList with
      | none => none
      | some r =>
        match fmt.2 with
        | none => some r
        | some (off, n) => memcpy r off op n
    match result1 with
    | none => none
    | some r => (strncpy r (s.mnemonic opcode) 3).map (fun r1 => (len, r1))

/-! ## `AnyC64File::checkBufferHeader` -/

/-- The loop of `AnyC64File::checkBufferHeader` from index `i` on, with `n` rounds left
before `i` reaches `length`, and the `return` after it; `none` when `buffer[i]` lies
outside the buffer. -/
def checkBufferHeaderLoop (buffer : List Nat) (header : Nat → Nat) : Nat → Nat → Option Bool
  | 0, i => some (header i == 0)
  | n + 1, i =>
    if header i != 0 then
      match buffer[i]? with
      | none => none
      | some b =>
        if header i != b then some false
        else checkBufferHeaderLoop buffer header n (i + 1)
    else some (header i == 0)

/-- The function `AnyC64File::checkBufferHeader`; `header` is the memory from the pointer
`header` on. -/
def AnyC64File.checkBufferHeader (buffer : List Nat) (length : Nat) (header : Nat → Nat) :
    Option Bool :=
  checkBufferHeaderLoop buffer header length 0

/-! ## The FreezeFrame cartridge -/

/-- Modelled from the spec: the cartridge modes of the expansion port, declared outside
the sources. -/
inductive CartridgeMode where
  | CRT_8K
  | CRT_16K
  | CRT_ULTIMAX
  | CRT_OFF
  deriving DecidableEq, Repr

/-- Modelled from the spec: the interrupt sources, declared outside the sources. -/
inductive IntSource where
  | INTSRC_EXP
  | INTSRC_CIA1
  | INTSRC_CIA2
  | INTSRC_VIC
  | INTSRC_KEYBOARD
  | INTSRC_TOD
  deriving DecidableEq, Repr

/-- The calls a cartridge makes into the rest of the machine through functions defined
outside the sources. -/
inductive CartridgeCall where
  | suspend
  | resume
  | pullDownNmiLine (source : IntSource)
  | releaseNmiLine (source : IntSource)
  deriving DecidableEq, Repr

/-- The part of the machine a `FreezeFrame` cartridge acts on: the mode of the expansion
port and the calls made so far, oldest first. -/
structure FreezeFrame where
  cartridgeMode : CartridgeMode := CartridgeMode.CRT_OFF
  calls : List CartridgeCall := []
  deriving DecidableEq, Repr

/-- Modelled from the spec: `ExpansionPort::setCartridgeMode` is defined outside the
sources; it is the setter of the cartridge mode. -/
def FreezeFrame.setCartridgeMode (c : FreezeFrame) (mode : CartridgeMode) : FreezeFrame :=
  { c with cartridgeMode := mode }

/-- Modelled from the spec: `suspend`, `resume`, `CPU::pullDownNmiLine` and
`CPU::releaseNmiLine` are defined outside the sources; a call is recorded. -/
def FreezeFrame.call (c : FreezeFrame) (x : CartridgeCall) : FreezeFrame :=
  { c with calls := c.calls ++ [x] }

/-- The function `FreezeFrame::peekIO1`: the value returned and the state after the
call. -/
def FreezeFrame.peekIO1 (c : FreezeFrame) (_addr : Nat) : Nat × FreezeFrame :=
  (0, c.setCartridgeMode CartridgeMode.CRT_8K)

/-- The function `FreezeFrame::peekIO2`: the value returned and the state after the
call. -/
def FreezeFrame.peekIO2 (c : FreezeFrame) (_addr : Nat) : Nat × FreezeFrame :=
  (0, c.setCartridgeMode CartridgeMode.CRT_OFF)

/-- The function `FreezeFrame::getButtonTitle`, `none` for `NULL`. -/
def FreezeFrame.getButtonTitle (nr : Nat) : Option String :=
  if nr == 1 then some "Freeze" else none

/-- The function `FreezeFrame::pressButton`. -/
def FreezeFrame.pressButton (c : FreezeFrame) (nr : Nat) : FreezeFrame :=
  if nr == 1 then
    let c1 := c.call CartridgeCall.suspend
    let c2 := c1.setCartridgeMode CartridgeMode.CRT_ULTIMAX
    let c3 := c2.call (CartridgeCall.pullDownNmiLine IntSource.INTSRC_EXP)
    c3.call CartridgeCall.resume
  else c

/-- The function `FreezeFrame::releaseButton`. -/
def FreezeFrame.releaseButton (c : FreezeFrame) (nr : Nat) : FreezeFrame :=
  if nr == 1 then
    let c1 := c.call CartridgeCall.suspend
    let c2 := c1.call (CartridgeCall.releaseNmiLine IntSource.INTSRC_EXP)
    c2.call CartridgeCall.resume
  else c

/-! ## Sample inputs for the debugger -/

/-- Two breakpoints, at `$C000` (to be skipped once) and at `$C010` (disabled), in an
array of two cells. -/
def sampleGuards : Guards :=
  { guards := fun i =>
      if i = 0 then { addr := 0xC000, enabled := true, hits := 0, skip := 1 }
      else { addr := 0xC010, enabled := false, hits := 0, skip := 0 },
    count := 2, capacity := 2 }

/-- The digit character of a value below 16. -/
def digitChar (v : Nat) : Char :=
  if v < 10 then Char.ofNat (48 + v) else Char.ofNat (55 + v)

/-- A sample instance of the number formatters: upper-case hexadecimal and decimal digits
of fixed width, two and four hexadecimal or three and five decimal digits. -/
def sampleSprint : SprintDecls where
  sprint8x := fun v => [digitChar (v / 16 % 16), digitChar (v % 16)]
  sprint8d := fun v => [digitChar (v / 100 % 10), digitChar (v / 10 % 10), digitChar (v % 10)]
  sprint16x := fun v =>
    [digitChar (v / 4096 % 16), digitChar (v / 256 % 16), digitChar (v / 16 % 16),
      digitChar (v % 16)]
  sprint16d := fun v =>
    [digitChar (v / 10000 % 10), digitChar (v / 1000 % 10), digitChar (v / 100 % 10),
      digitChar (v / 10 % 10), digitChar (v % 10)]

/-- A debugger in hexadecimal mode that knows two instructions: `$A9` is `LDA` with
immediate addressing and `$D0` is `BNE` with relative addressing. -/
def sampleDebugger : CPUDebugger :=
  { hex := true,
    addressingMode := fun op =>
      if op = 0xA9 then AddressingMode.ADDR_IMMEDIATE
      else if op = 0xD0 then AddressingMode.ADDR_RELATIVE
      else AddressingMode.ADDR_IMPLIED,
    mnemonic := fun op =>
      if op = 0xA9 then "LDA".toList else if op = 0xD0 then "BNE".toList else "NOP".toList }

/-- A debugger in hexadecimal mode that knows two instructions: `$AD` is `LDA` with
absolute addressing and every other opcode is `NOP` with implied addressing. -/
def absoluteDebugger : CPUDebugger :=
  { hex := true,
    addressingMode := fun op =>
      if op = 0xAD then AddressingMode.ADDR_ABSOLUTE else AddressingMode.ADDR_IMPLIED,
    mnemonic := fun op => if op = 0xAD then "LDA".toList else "NOP".toList }

/-- The instruction `BNE` at `$1000` with operand byte `$FE`: a branch to itself. -/
def branchInstr : RecordedInstruction := { pc := 0x1000, byte1 := 0xD0, byte2 := 0xFE }

/-- The CPU about to execute the instruction at `pc0`, with the accumulator holding the
number of the call; memory holds `LDA #$01` everywhere. -/
def cpuAt (pc0 : Nat) : DebuggedCPU :=
  { pc0 := pc0, a := pc0 % 256, spypeek := fun a => if a % 2 = 0 then 0xA9 else 0x01 }

/-- The header `C64` of a file, followed by NUL. -/
def sampleHeader : Nat → Nat := fun i => if i = 0 then 0x43 else if i = 1 then 0x36
  else if i = 2 then 0x34 else 0

/-! ## Bit-level lemmas -/

theorem testBit_u8 (x k : Nat) : (u8 x).testBit k = (decide (k < 8) && x.testBit k) := by
  have h : u8 x = x % 2 ^ 8 := rfl
  rw [h, Nat.testBit_mod_two_pow]

theorem testBit_bitNot (x k : Nat) :
    (bitNot x).testBit k = (decide (k < 32) != x.testBit k) := by
  have h : bitNot x = (2 ^ 32 - 1) ^^^ x := rfl
  rw [h, Nat.testBit_xor, Nat.testBit_two_pow_sub_one]

theorem testBit_0x0F (k : Nat) : Nat.testBit 0x0F k = decide (k < 4) := by
  have h : (0x0F : Nat) = 2 ^ 4 - 1 := rfl
  rw [h, Nat.testBit_two_pow_sub_one]

theorem testBit_0xFF (k : Nat) : Nat.testBit 0xFF k = decide (k < 8) := by
  have h : (0xFF : Nat) = 2 ^ 8 - 1 := rfl
  rw [h, Nat.testBit_two_pow_sub_one]

theorem testBit_0x80 (k : Nat) : Nat.testBit 0x80 k = decide (k = 7) := by
  have h : (0x80 : Nat) = 2 ^ 7 := rfl
  rw [h, Nat.testBit_two_pow]
  simp [eq_comm]

theorem testBit_0xF0 (k : Nat) :
    Nat.testBit 0xF0 k = (decide (4 ≤ k) && decide (k < 8)) := by
  have h : (0xF0 : Nat) = 0xFF ^^^ 0x0F := rfl
  rw [h, Nat.testBit_xor, testBit_0xFF, testBit_0x0F]
  by_cases h1 : k < 4 <;> by_cases h2 : k < 8 <;> simp [h1, h2] <;> omega

theorem u8_of_lt {x : Nat} (h : x < 256) : u8 x = x := Nat.mod_eq_of_lt h

/-- The write `irr &= (~value) & 0x0F` clears exactly the low-nibble bits written as 1 and
the whole high nibble. -/
theorem testBit_irr_ack (irr v k : Nat) :
    (u8 (irr &&& (bitNot v &&& 0x0F))).testBit k =
      (decide (k < 4) && irr.testBit k && !v.testBit k) := by
  simp only [testBit_u8, Nat.testBit_and, testBit_bitNot, testBit_0x0F]
  by_cases h1 : k < 4
  · have h2 : k < 8 := by omega
    have h3 : k < 32 := by omega
    simp [h1, h2, h3]
  · simp [h1]

theorem and_two_pow_eq_zero_iff (x i : Nat) : x &&& 2 ^ i = 0 ↔ x.testBit i = false := by
  constructor
  · intro h
    have h1 := congrArg (fun y => Nat.testBit y i) h
    simpa [Nat.testBit_and, Nat.testBit_two_pow] using h1
  · intro h
    apply Nat.eq_of_testBit_eq
    intro k
    by_cases hk : i = k
    · subst hk
      simp [Nat.testBit_and, h]
    · simp [Nat.testBit_and, Nat.testBit_two_pow, hk]

/-- A mask test `x & (1 << i)` used as a truth value reads bit `i`. -/
theorem and_two_pow_bne_zero (x i : Nat) : (x &&& 2 ^ i != 0) = x.testBit i := by
  cases h : x.testBit i
  · simp [(and_two_pow_eq_zero_iff x i).2 h]
  · have h1 : x &&& 2 ^ i ≠ 0 := fun h0 => by
      rw [(and_two_pow_eq_zero_iff x i).1 h0] at h
      exact Bool.noConfusion h
    simp [h1]

theorem GET_BIT_eq_testBit (x nr : Nat) : GET_BIT x nr = x.testBit nr := by
  unfold GET_BIT
  rw [Nat.one_shiftLeft]
  exact and_two_pow_bne_zero x nr

theorem testBit_0x100 (k : Nat) : Nat.testBit 0x100 k = decide (k = 8) := by
  have h : (0x100 : Nat) = 2 ^ 8 := rfl
  rw [h, Nat.testBit_two_pow]
  simp [eq_comm]

/-- The loop of case `0x10` of `VIC::poke` rewrites each of the eight cells once. -/
theorem pokeSprXHigh_apply (v : Nat) (x : Nat → Nat) (i : Nat) :
    (List.range 8).foldl (pokeSprXHighStep v) x i =
      if i < 8 then (x i &&& 0xFF) ||| (if GET_BIT v i then 0x100 else 0) else x i := by
  have hr : List.range 8 = [0, 1, 2, 3, 4, 5, 6, 7] := by decide
  rw [hr]
  by_cases hi : i < 8
  · interval_cases i <;> simp [List.foldl, pokeSprXHighStep, setAt]
  · have h0 : i ≠ 0 := by omega
    have h1 : i ≠ 1 := by omega
    have h2 : i ≠ 2 := by omega
    have h3 : i ≠ 3 := by omega
    have h4 : i ≠ 4 := by omega
    have h5 : i ≠ 5 := by omega
    have h6 : i ≠ 6 := by omega
    have h7 : i ≠ 7 := by omega
    simp [List.foldl, pokeSprXHighStep, setAt, hi, h0, h1, h2, h3, h4, h5, h6, h7]

/-- After the loop of case `0x10`, bit 8 of cell `i` is bit `i` of the value written and
the low byte of the cell is as before. -/
theorem pokeSprXHigh_bits (v : Nat) (x : Nat → Nat) (i : Nat) (hi : i < 8) :
    ((List.range 8).foldl (pokeSprXHighStep v) x i).testBit 8 = v.testBit i ∧
    (List.range 8).foldl (pokeSprXHighStep v) x i % 256 = x i % 256 := by
  rw [pokeSprXHigh_apply, if_pos hi, GET_BIT_eq_testBit]
  constructor
  · rw [Nat.testBit_or, Nat.testBit_and, testBit_0xFF]
    cases v.testBit i <;> simp [testBit_0x100]
  · apply Nat.eq_of_testBit_eq
    intro k
    have e : ∀ y : Nat, y % 256 = u8 y := fun _ => rfl
    rw [e, e, testBit_u8, testBit_u8, Nat.testBit_or, Nat.testBit_and, testBit_0xFF]
    by_cases hk : k < 8
    · have hk8 : k ≠ 8 := by omega
      cases v.testBit i <;> simp [hk, hk8, testBit_0x100]
    · simp [hk]

/-- Writing the low byte of a 9 bit cell: `(x & 0x100) | v` has low byte `v` and keeps
bit 8. -/
theorem sprX_low_write (x v : Nat) (hv : v < 256) :
    ((x &&& 0x100) ||| v) % 256 = v ∧ ((x &&& 0x100) ||| v).testBit 8 = x.testBit 8 := by
  constructor
  · apply Nat.eq_of_testBit_eq
    intro k
    have e : ∀ y : Nat, y % 256 = u8 y := fun _ => rfl
    rw [e, testBit_u8, Nat.testBit_or, Nat.testBit_and, testBit_0x100]
    by_cases hk : k < 8
    · have hk8 : k ≠ 8 := by omega
      simp [hk, hk8]
    · have h2 : v < 2 ^ k := by
        calc v < 2 ^ 8 := hv
          _ ≤ 2 ^ k := Nat.pow_le_pow_right (by decide) (by omega)
      simp [hk, Nat.testBit_lt_two_pow h2]
  · have h2 : v < 2 ^ 8 := hv
    rw [Nat.testBit_or, Nat.testBit_and, testBit_0x100, Nat.testBit_lt_two_pow h2]
    simp

theorem testBit_0xC0 (k : Nat) : Nat.testBit 0xC0 k = (decide (k = 6) || decide (k = 7)) := by
  have h : (0xC0 : Nat) = 2 ^ 6 ||| 2 ^ 7 := rfl
  rw [h, Nat.testBit_or, Nat.testBit_two_pow, Nat.testBit_two_pow]
  simp [eq_comm]

theorem testBit_0x70 (k : Nat) :
    Nat.testBit 0x70 k = (decide (4 ≤ k) && decide (k < 7)) := by
  have h : (0x70 : Nat) = 0xF0 ^^^ 0x80 := rfl
  rw [h, Nat.testBit_xor, testBit_0xF0, testBit_0x80]
  by_cases h1 : 4 ≤ k <;> by_cases h2 : k < 7 <;> by_cases h3 : k = 7 <;>
    simp [h1, h2, h3] <;> omega

theorem testBit_0x01 (k : Nat) : Nat.testBit 0x01 k = decide (k = 0) := by
  have h : (0x01 : Nat) = 2 ^ 0 := rfl
  rw [h, Nat.testBit_two_pow]
  simp [eq_comm]

/-! ## The result of `poke` by register class -/

theorem setAt_same (a : Nat → Nat) (i v : Nat) : setAt a i v i = v := by
  simp [setAt]

theorem setAt_other (a : Nat → Nat) (i v j : Nat) (h : j ≠ i) : setAt a i v j = a j := by
  simp [setAt, h]

theorem setAt_setAt (a : Nat → Nat) (i v w : Nat) : setAt (setAt a i v) i w = setAt a i w := by
  funext j
  by_cases h : j = i <;> simp [setAt, h]

theorem poke_sprX_low (d : VICDecls) (s : VIC) (i v : Nat) (hi : i < 8) :
    poke d s (2 * i) v = some { s with
      reg.current.sprX := setAt s.reg.current.sprX i ((s.reg.current.sprX i &&& 0x100) ||| v),
      delay := s.delay ||| d.VICUpdateRegisters } := by
  interval_cases i <;> simp [poke, pokeSwitch, setAt_same, setAt_setAt]

theorem poke_sprY (d : VICDecls) (s : VIC) (i v : Nat) (hi : i < 8) :
    poke d s (2 * i + 1) v = some { s with
      reg.current.sprY := setAt s.reg.current.sprY i v,
      delay := s.delay ||| d.VICUpdateRegisters } := by
  interval_cases i <;> simp [poke, pokeSwitch]

theorem poke_sprX_high (d : VICDecls) (s : VIC) (v : Nat) :
    poke d s 0x10 v = some { s with
      reg.current.sprX := (List.range 8).foldl (pokeSprXHighStep v) s.reg.current.sprX,
      delay := s.delay ||| d.VICUpdateRegisters } := by
  simp [poke, pokeSwitch]

theorem poke_sprEnable (d : VICDecls) (s : VIC) (v : Nat) :
    poke d s 0x15 v = some { s with
      reg.current.sprEnable := v, delay := s.delay ||| d.VICUpdateRegisters } := by
  simp [poke, pokeSwitch]

theorem poke_sprExpandY (d : VICDecls) (s : VIC) (v : Nat) :
    poke d s 0x17 v = some { s with
      reg.current.sprExpandY := v,
      cleared_bits_in_d017 := u8 (bitNot v &&& bitNot s.expansionFF),
      expansionFF := u8 (s.expansionFF ||| bitNot v),
      delay := s.delay ||| d.VICUpdateRegisters } := by
  simp [poke, pokeSwitch]

theorem poke_sprPriority (d : VICDecls) (s : VIC) (v : Nat) :
    poke d s 0x1B v = some { s with
      reg.current.sprPriority := v, delay := s.delay ||| d.VICUpdateRegisters } := by
  simp [poke, pokeSwitch]

theorem poke_sprMC (d : VICDecls) (s : VIC) (v : Nat) :
    poke d s 0x1C v = some { s with
      reg.current.sprMC := v, delay := s.delay ||| d.VICUpdateRegisters } := by
  simp [poke, pokeSwitch]

theorem poke_sprExpandX (d : VICDecls) (s : VIC) (v : Nat) :
    poke d s 0x1D v = some { s with
      reg.current.sprExpandX := v, delay := s.delay ||| d.VICUpdateRegisters } := by
  simp [poke, pokeSwitch]

theorem poke_color (d : VICDecls) (s : VIC) (j v : Nat) (hj : j < 15) :
    poke d s (0x20 + j) v = some
      (if d.hasGrayDotBug (colorWritten s j v) && s.emulateGrayDotBug then
        { colorWritten s j v with
          reg.delayed.colors := setAt s.reg.delayed.colors j 0xF,
          delay := s.delay ||| d.VICUpdateRegisters }
      else
        { colorWritten s j v with delay := s.delay ||| d.VICUpdateRegisters }) := by
  cases hg : (d.hasGrayDotBug (colorWritten s j v) && s.emulateGrayDotBug) <;>
    simp only [colorWritten] at hg <;>
    interval_cases j <;>
    simp only [poke, pokeSwitch, colorWritten] <;>
    rw [hg] <;>
    simp

/-! ## Reading the collision registers -/

/-- C1: reading `$D01E` returns the sprite-sprite collision register and leaves it 0, so
that an immediately following read returns 0; likewise `$D01F` and the sprite-background
collision register; each read changes nothing but its own register. -/
theorem peek_collision_clears (s : VIC)
    (hss : s.spriteSpriteCollision < 256) (hsb : s.spriteBackgroundColllision < 256) :
    peek s 0x1E = some (s.spriteSpriteCollision, { s with spriteSpriteCollision := 0 }) ∧
    peek { s with spriteSpriteCollision := 0 } 0x1E =
      some (0, { s with spriteSpriteCollision := 0 }) ∧
    peek s 0x1F =
      some (s.spriteBackgroundColllision, { s with spriteBackgroundColllision := 0 }) ∧
    peek { s with spriteBackgroundColllision := 0 } 0x1F =
      some (0, { s with spriteBackgroundColllision := 0 }) ∧
    ({ s with spriteSpriteCollision := 0 } : VIC).spriteBackgroundColllision =
      s.spriteBackgroundColllision ∧
    ({ s with spriteBackgroundColllision := 0 } : VIC).spriteSpriteCollision =
      s.spriteSpriteCollision := by
  refine ⟨?_, ?_, ?_, ?_, rfl, rfl⟩
  · simp [peek, peekSwitch, u8_of_lt hss]
  · simp [peek, peekSwitch, u8]
  · simp [peek, peekSwitch, u8_of_lt hsb]
  · simp [peek, peekSwitch, u8]

/-- Witness for C1: the register holds `$03`; the first read returns `$03`, the second
`$00`. -/
theorem peek_collision_clears_witness :
    collisionState.spriteSpriteCollision < 256 ∧
    collisionState.spriteBackgroundColllision < 256 ∧
    peek collisionState 0x1E = some (0x03, { collisionState with spriteSpriteCollision := 0 }) ∧
    peek { collisionState with spriteSpriteCollision := 0 } 0x1E =
      some (0x00, { collisionState with spriteSpriteCollision := 0 }) :=
  have h := peek_collision_clears collisionState (by decide) (by decide)
  ⟨by decide, by decide, h.1, h.2.1⟩

/-! ## Interrupt registers -/

/-- C2: a write of `v` to `$D019` sets `irr` to `irr AND NOT v AND 0x0F` (bit `k` of the
result is set exactly when `k < 4`, the bit was set before and bit `k` of `v` is 0),
leaves `imr` unchanged, ORs `VICReleaseIrq` into `delay` exactly when the new
`irr AND imr` is 0 and changes `delay` in no other way; in particular the
`VICUpdateRegisters` bits of `delay` keep their value when the two flags are disjoint. -/
theorem poke_irr_acknowledge (d : VICDecls) (s : VIC) (v : Nat) :
    ∃ s1, poke d s 0x19 v = some s1 ∧
      s1.irr = s.irr &&& (0xFF ^^^ v) &&& 0x0F ∧
      (∀ k, s1.irr.testBit k = (decide (k < 4) && s.irr.testBit k && !v.testBit k)) ∧
      s1.imr = s.imr ∧
      s1.delay = (if s1.irr &&& s1.imr = 0 then s.delay ||| d.VICReleaseIrq else s.delay) ∧
      (d.VICReleaseIrq &&& d.VICUpdateRegisters = 0 →
        s1.delay &&& d.VICUpdateRegisters = s.delay &&& d.VICUpdateRegisters) := by
  have hbit : ∀ k, (u8 (s.irr &&& (bitNot v &&& 0x0F))).testBit k =
      (decide (k < 4) && s.irr.testBit k && !v.testBit k) := testBit_irr_ack s.irr v
  have hval : u8 (s.irr &&& (bitNot v &&& 0x0F)) = s.irr &&& (0xFF ^^^ v) &&& 0x0F := by
    apply Nat.eq_of_testBit_eq
    intro k
    rw [hbit]
    simp only [Nat.testBit_and, Nat.testBit_xor, testBit_0x0F, testBit_0xFF]
    by_cases h1 : k < 4
    · have h2 : k < 8 := by omega
      simp [h1, h2]
    · simp [h1]
  by_cases hc : u8 (s.irr &&& (bitNot v &&& 0x0F)) &&& s.imr = 0
  · refine ⟨{ s with irr := u8 (s.irr &&& (bitNot v &&& 0x0F)),
                     delay := s.delay ||| d.VICReleaseIrq }, ?_, hval, hbit, rfl, ?_, ?_⟩
    · simp [poke, pokeSwitch, hc]
    · simp [hc]
    · intro hdis
      show (s.delay ||| d.VICReleaseIrq) &&& d.VICUpdateRegisters = _
      rw [Nat.and_distrib_right, hdis, Nat.or_zero]
  · refine ⟨{ s with irr := u8 (s.irr &&& (bitNot v &&& 0x0F)) }, ?_, hval, hbit, rfl, ?_, ?_⟩
    · simp [poke, pokeSwitch, hc]
    · simp [hc]
    · intro _
      rfl

/-- Witness for C2: with `VICReleaseIrq = 0x04` and `VICUpdateRegisters = 0x40`,
acknowledging a raster interrupt that is the only enabled source. -/
theorem poke_irr_acknowledge_witness :
    sampleDecls.VICReleaseIrq &&& sampleDecls.VICUpdateRegisters = 0 ∧
    ∃ s1, poke sampleDecls irqPendingState 0x19 0x01 = some s1 ∧
      s1.irr = 0x0E ∧ s1.imr = 0x01 ∧ s1.delay = 0x44 :=
  ⟨by decide, by
    obtain ⟨s1, h1, h2, _, h4, h5, _⟩ := poke_irr_acknowledge sampleDecls irqPendingState 0x01
    refine ⟨s1, h1, ?_, h4, ?_⟩
    · rw [h2]; decide
    · rw [h5, h2, h4]; decide⟩

/-- C4: for a register address `a` in `0x00..0x10`, `0x15`, `0x17`, `0x1B`, `0x1C`, `0x1D`
or `0x20..0x2E` and a byte `v`, `poke(a, v)` stores the value into the addressed field of
`reg.current` (the low byte of a sprite X cell, a sprite Y cell, bit 8 of all eight X
cells, one of the sprite masks, or the low nibble into a colour register), ORs
`VICUpdateRegisters` into `delay`, and leaves `reg.delayed` as it was unless the write
goes to a colour register while the gray-dot bug is emulated. -/
theorem poke_stores_in_current (d : VICDecls) (s : VIC) (a v : Nat) (hv : v < 256)
    (ha : a ≤ 0x10 ∨ a = 0x15 ∨ a = 0x17 ∨ a = 0x1B ∨ a = 0x1C ∨ a = 0x1D ∨
      (0x20 ≤ a ∧ a ≤ 0x2E)) :
    ∃ s1, poke d s a v = some s1 ∧
      s1.delay = s.delay ||| d.VICUpdateRegisters ∧
      ((a < 0x20 ∨ s.emulateGrayDotBug = false ∨ ∀ t, d.hasGrayDotBug t = false) →
        s1.reg.delayed = s.reg.delayed) ∧
      (a ≤ 0x0F → a % 2 = 0 →
        s1.reg.current.sprX (a / 2) % 256 = v ∧
        (s1.reg.current.sprX (a / 2)).testBit 8 = (s.reg.current.sprX (a / 2)).testBit 8) ∧
      (a ≤ 0x0F → a % 2 = 1 → s1.reg.current.sprY (a / 2) = v) ∧
      (a = 0x10 → ∀ i, i < 8 →
        (s1.reg.current.sprX i).testBit 8 = v.testBit i ∧
        s1.reg.current.sprX i % 256 = s.reg.current.sprX i % 256) ∧
      (a = 0x15 → s1.reg.current.sprEnable = v) ∧
      (a = 0x17 → s1.reg.current.sprExpandY = v) ∧
      (a = 0x1B → s1.reg.current.sprPriority = v) ∧
      (a = 0x1C → s1.reg.current.sprMC = v) ∧
      (a = 0x1D → s1.reg.current.sprExpandX = v) ∧
      (0x20 ≤ a → s1.reg.current.colors (a - 0x20) = v &&& 0x0F) := by
  rcases ha with h | rfl | rfl | rfl | rfl | rfl | ⟨h1, h2⟩
  · by_cases h10 : a = 0x10
    · subst h10
      refine ⟨_, poke_sprX_high d s v, rfl, fun _ => rfl, ?_, ?_, ?_, ?_, ?_, ?_, ?_, ?_, ?_⟩
      all_goals first
        | (intros; omega)
        | (intro _ i hi; exact pokeSprXHigh_bits v s.reg.current.sprX i hi)
    · by_cases hev : a % 2 = 0
      · obtain ⟨i, rfl⟩ : ∃ i, a = 2 * i := ⟨a / 2, by omega⟩
        have hi : i < 8 := by omega
        have hdiv : 2 * i / 2 = i := by omega
        refine ⟨_, poke_sprX_low d s i v hi, rfl, fun _ => rfl, ?_, ?_, ?_, ?_, ?_, ?_, ?_,
          ?_, ?_⟩
        all_goals first
          | (intros; omega)
          | (intro _ _
             rw [hdiv]
             simp only [setAt_same]
             exact sprX_low_write _ v hv)
      · obtain ⟨i, rfl⟩ : ∃ i, a = 2 * i + 1 := ⟨a / 2, by omega⟩
        have hi : i < 8 := by omega
        have hdiv : (2 * i + 1) / 2 = i := by omega
        refine ⟨_, poke_sprY d s i v hi, rfl, fun _ => rfl, ?_, ?_, ?_, ?_, ?_, ?_, ?_,
          ?_, ?_⟩
        all_goals first
          | (intros; omega)
          | (intro _ _
             rw [hdiv]
             simp only [setAt_same])
  · refine ⟨_, poke_sprEnable d s v, rfl, fun _ => rfl, ?_, ?_, ?_, ?_, ?_, ?_, ?_, ?_, ?_⟩
    all_goals first
      | (intros; omega)
      | (intro _; rfl)
  · refine ⟨_, poke_sprExpandY d s v, rfl, fun _ => rfl, ?_, ?_, ?_, ?_, ?_, ?_, ?_, ?_, ?_⟩
    all_goals first
      | (intros; omega)
      | (intro _; rfl)
  · refine ⟨_, poke_sprPriority d s v, rfl, fun _ => rfl, ?_, ?_, ?_, ?_, ?_, ?_, ?_, ?_, ?_⟩
    all_goals first
      | (intros; omega)
      | (intro _; rfl)
  · refine ⟨_, poke_sprMC d s v, rfl, fun _ => rfl, ?_, ?_, ?_, ?_, ?_, ?_, ?_, ?_, ?_⟩
    all_goals first
      | (intros; omega)
      | (intro _; rfl)
  · refine ⟨_, poke_sprExpandX d s v, rfl, fun _ => rfl, ?_, ?_, ?_, ?_, ?_, ?_, ?_, ?_, ?_⟩
    all_goals first
      | (intros; omega)
      | (intro _; rfl)
  · obtain ⟨j, rfl⟩ : ∃ j, a = 0x20 + j := ⟨a - 0x20, by omega⟩
    have hj : j < 15 := by omega
    have hsub : 0x20 + j - 0x20 = j := by omega
    rw [poke_color d s j v hj, hsub]
    cases hg : (d.hasGrayDotBug (colorWritten s j v) && s.emulateGrayDotBug)
    · refine ⟨_, rfl, rfl, fun _ => rfl, ?_, ?_, ?_, ?_, ?_, ?_, ?_, ?_, ?_⟩
      all_goals first
        | (intros; omega)
        | (intro _; simp [colorWritten, setAt_same])
    · refine ⟨_, rfl, rfl, ?_, ?_, ?_, ?_, ?_, ?_, ?_, ?_, ?_, ?_⟩
      all_goals first
        | (intros; omega)
        | (intro _; simp [colorWritten, setAt_same]; done)
        | (intro hno
           exfalso
           rw [Bool.and_eq_true] at hg
           rcases hno with hlt | hoff | hnone
           · omega
           · rw [hoff] at hg
             exact Bool.noConfusion hg.2
           · rw [hnone] at hg
             exact Bool.noConfusion hg.1)

/-- Witness for C4: the low byte of sprite 0's X coordinate is set to 100. -/
theorem poke_stores_in_current_witness :
    (100 : Nat) < 256 ∧
    ∃ s1, poke sampleDecls collisionState 0x00 100 = some s1 ∧
      s1.delay = 0x40 ∧ s1.reg.current.sprX 0 % 256 = 100 :=
  ⟨by decide, by
    obtain ⟨s1, h1, h2, _, h4, _⟩ :=
      poke_stores_in_current sampleDecls collisionState 0x00 100 (by decide) (Or.inl (by decide))
    exact ⟨s1, h1, h2.trans (by decide), (h4 (by decide) (by decide)).1⟩⟩

/-- C5: a write of `v` to colour register `a` in `0x20..0x2E` sets
`reg.current.colors[a-0x20]` to `v AND 0x0F`; `reg.delayed.colors[a-0x20]` becomes `0xF`
when `hasGrayDotBug()` and `emulateGrayDotBug` both hold and keeps its value otherwise;
no other colour register changes in either copy. -/
theorem poke_color_gray_dot (d : VICDecls) (s : VIC) (a v : Nat)
    (ha : 0x20 ≤ a ∧ a ≤ 0x2E) :
    ∃ s1, poke d s a v = some s1 ∧
      s1.reg.current.colors (a - 0x20) = v &&& 0x0F ∧
      s1.reg.delayed.colors (a - 0x20) =
        (if d.hasGrayDotBug (colorWritten s (a - 0x20) v) && s.emulateGrayDotBug then 0xF
         else s.reg.delayed.colors (a - 0x20)) ∧
      (∀ j, j ≠ a - 0x20 → s1.reg.current.colors j = s.reg.current.colors j) ∧
      (∀ j, j ≠ a - 0x20 → s1.reg.delayed.colors j = s.reg.delayed.colors j) := by
  obtain ⟨h1, h2⟩ := ha
  obtain ⟨j, rfl⟩ : ∃ j, a = 0x20 + j := ⟨a - 0x20, by omega⟩
  have hj : j < 15 := by omega
  have hsub : 0x20 + j - 0x20 = j := by omega
  rw [poke_color d s j v hj, hsub]
  cases hg : (d.hasGrayDotBug (colorWritten s j v) && s.emulateGrayDotBug)
  · refine ⟨_, rfl, ?_, ?_, ?_, ?_⟩
    · simp [colorWritten, setAt_same]
    · simp [colorWritten]
    · intro k hk
      simp [colorWritten, setAt_other _ _ _ _ hk]
    · intro k _
      simp [colorWritten]
  · refine ⟨_, rfl, ?_, ?_, ?_, ?_⟩
    · simp [colorWritten, setAt_same]
    · simp [colorWritten, setAt_same]
    · intro k hk
      simp [colorWritten, setAt_other _ _ _ _ hk]
    · intro k hk
      simp [colorWritten, setAt_other _ _ _ _ hk]

/-- Witness for C5: with the gray-dot bug emulated, writing `$35` to background colour 0
puts 5 into the current copy and `$F` into the delayed copy. -/
theorem poke_color_gray_dot_witness :
    ((0x20 : Nat) ≤ 0x21 ∧ (0x21 : Nat) ≤ 0x2E) ∧
    ∃ s1, poke sampleDecls grayDotState 0x21 0x35 = some s1 ∧
      s1.reg.current.colors 1 = 5 ∧ s1.reg.delayed.colors 1 = 0xF ∧
      s1.reg.delayed.colors 0 = 6 :=
  ⟨by decide, by
    obtain ⟨s1, h1, h2, h3, _, h5⟩ :=
      poke_color_gray_dot sampleDecls grayDotState 0x21 0x35 (by decide)
    exact ⟨s1, h1, h2.trans (by decide), h3.trans (by decide),
      (h5 0 (by decide)).trans (by decide)⟩⟩

/-! ## Control register 1 -/

/-- The statements of case `0x11` after the store leave `reg` and the record of IRQ calls
alone, and change the DEN latch only by setting it in raster line `0x30`. -/
theorem pokeCtrl1Update_frame (d : VICDecls) (s : VIC) (v : Nat) :
    (pokeCtrl1Update d s v).reg = s.reg ∧
    (pokeCtrl1Update d s v).irqTriggers = s.irqTriggers ∧
    (pokeCtrl1Update d s v).DENwasSetInRasterline30 =
      (s.DENwasSetInRasterline30 || (s.c64.rasterline == 0x30 && (v &&& 0x10 != 0))) := by
  unfold pokeCtrl1Update
  dsimp only
  split_ifs <;> simp_all

theorem poke_ctrl1 (d : VICDecls) (s : VIC) (v : Nat) :
    poke d s 0x11 v = some { pokeCtrl1Update d (pokeCtrl1Store d s v) v with
      delay := (pokeCtrl1Update d (pokeCtrl1Store d s v) v).delay ||| d.VICUpdateRegisters } := by
  simp [poke, pokeSwitch]

theorem pokeCtrl1Store_frame (d : VICDecls) (s : VIC) (v : Nat) :
    (pokeCtrl1Store d s v).DENwasSetInRasterline30 = s.DENwasSetInRasterline30 ∧
    (pokeCtrl1Store d s v).c64 = s.c64 := by
  unfold pokeCtrl1Store
  dsimp only
  split_ifs <;> exact ⟨rfl, rfl⟩

/-- The result of `poke` in terms of the switch: the state the switch leaves, with
`VICUpdateRegisters` ORed into `delay` when the case ends in `break`. -/
theorem poke_eq (d : VICDecls) (s : VIC) (a v : Nat) (ha : a < 0x40) :
    poke d s a v = some
      (if (pokeSwitch d s a v).2 then
        { (pokeSwitch d s a v).1 with
          delay := (pokeSwitch d s a v).1.delay ||| d.VICUpdateRegisters }
      else (pokeSwitch d s a v).1) := by
  unfold poke
  rw [if_pos ha]
  rcases pokeSwitch d s a v with ⟨s1, b⟩
  cases b <;> rfl

/-- No case of the switch of `poke` clears the DEN latch. -/
theorem pokeSwitch_DEN (d : VICDecls) (s : VIC) (a v : Nat)
    (h : s.DENwasSetInRasterline30 = true) :
    (pokeSwitch d s a v).1.DENwasSetInRasterline30 = true := by
  unfold pokeSwitch
  split
  all_goals try dsimp only
  all_goals try split_ifs
  all_goals first
    | exact h
    | (rw [(pokeCtrl1Update_frame d _ v).2.2, (pokeCtrl1Store_frame d s v).1, h]
       rfl)

theorem peek_eq (s : VIC) (a : Nat) (ha : a ≤ 0x3F) :
    ∃ r, peek s a = some (r, peekState s a) := by
  interval_cases a <;> simp [peek, peekSwitch, peekState]

/-- C7: in raster line `0x30` a write to `$D011` with bit 4 (DEN) set sets
`DENwasSetInRasterline30`; every `poke` and every `peek` with a valid address returns and
leaves a set latch set, and so does every sequence of register accesses. -/
theorem den_latch_armed (d : VICDecls) (s : VIC) :
    (∀ v, s.c64.rasterline = 0x30 → v.testBit 4 = true →
      ∃ s1, poke d s 0x11 v = some s1 ∧ s1.DENwasSetInRasterline30 = true) ∧
    (∀ a v, a < 0x40 → ∃ s1, poke d s a v = some s1 ∧
      (s.DENwasSetInRasterline30 = true → s1.DENwasSetInRasterline30 = true)) ∧
    (∀ a, a ≤ 0x3F → ∃ r s1, peek s a = some (r, s1) ∧
      (s.DENwasSetInRasterline30 = true → s1.DENwasSetInRasterline30 = true)) ∧
    (∀ l : List RegAccess, (∀ x ∈ l, x.addr < 0x40) →
      ∃ s1, accesses d s l = some s1 ∧
        (s.DENwasSetInRasterline30 = true → s1.DENwasSetInRasterline30 = true)) := by
  have hpoke : ∀ (t : VIC) a v, a < 0x40 → ∃ s1, poke d t a v = some s1 ∧
      (t.DENwasSetInRasterline30 = true → s1.DENwasSetInRasterline30 = true) := by
    intro t a v ha
    refine ⟨_, poke_eq d t a v ha, fun h => ?_⟩
    have h1 := pokeSwitch_DEN d t a v h
    split_ifs
    · exact h1
    · exact h1
  have hpeek : ∀ (t : VIC) a, a ≤ 0x3F → ∃ r s1, peek t a = some (r, s1) ∧
      (t.DENwasSetInRasterline30 = true → s1.DENwasSetInRasterline30 = true) := by
    intro t a ha
    obtain ⟨r, hr⟩ := peek_eq t a ha
    refine ⟨r, _, hr, fun h => ?_⟩
    unfold peekState
    split_ifs <;> exact h
  refine ⟨?_, hpoke s, hpeek s, ?_⟩
  · intro v hline hden
    refine ⟨_, poke_ctrl1 d s v, ?_⟩
    show (pokeCtrl1Update d (pokeCtrl1Store d s v) v).DENwasSetInRasterline30 = true
    have hbit : (v &&& 0x10 != 0) = true := by
      have e : (0x10 : Nat) = 2 ^ 4 := rfl
      rw [e, and_two_pow_bne_zero, hden]
    rw [(pokeCtrl1Update_frame d _ v).2.2, (pokeCtrl1Store_frame d s v).2, hline, hbit]
    simp
  · intro l
    induction l generalizing s with
    | nil => intro _; exact ⟨s, rfl, id⟩
    | cons x xs ih =>
      intro hall
      have hx : x.addr < 0x40 := hall x (List.mem_cons_self x xs)
      have hxs : ∀ y ∈ xs, y.addr < 0x40 := fun y hy => hall y (List.mem_cons_of_mem x hy)
      have hstep : ∃ s1, access d s x = some s1 ∧
          (s.DENwasSetInRasterline30 = true → s1.DENwasSetInRasterline30 = true) := by
        cases x with
        | read a =>
          obtain ⟨r, s1, h1, h2⟩ := hpeek s a (Nat.lt_succ_iff.mp hx)
          exact ⟨s1, by simp [access, h1], h2⟩
        | write a v => exact hpoke s a v hx
      obtain ⟨s1, h1, h2⟩ := hstep
      obtain ⟨s2, h3, h4⟩ := ih s1 hxs
      exact ⟨s2, by simp [accesses, h1, h3], fun h => h4 (h2 h)⟩

/-! ## Read-back masks and unmapped registers -/

theorem peek_color (s : VIC) (j : Nat) (hj : j < 15) :
    peek s (0x20 + j) = some (u8 (s.reg.current.colors j ||| 0xF0), s) := by
  interval_cases j <;>
    simp [peek, peekSwitch, COLREG_BORDER, COLREG_BG0, COLREG_BG1, COLREG_BG2, COLREG_BG3,
      COLREG_SPR_EX1, COLREG_SPR_EX2, COLREG_SPR0]

theorem peek_ctrl2 (s : VIC) :
    peek s 0x16 = some (u8 ((s.reg.current.ctrl2 &&& 0xFF) ||| 0xC0), s) := by
  simp [peek, peekSwitch]

theorem peek_memSelect (s : VIC) : peek s 0x18 = some (u8 (s.memSelect ||| 0x01), s) := by
  simp [peek, peekSwitch]

theorem peek_irr (s : VIC) :
    peek s 0x19 =
      some (u8 (if s.irr &&& s.imr != 0 then s.irr ||| 0xF0 else s.irr ||| 0x70), s) := by
  simp [peek, peekSwitch]

theorem peek_imr (s : VIC) : peek s 0x1A = some (u8 (s.imr ||| 0xF0), s) := by
  simp [peek, peekSwitch]

/-- C8: the unused bits of a register read back as 1.  `peek(0x16)` has bits 6 and 7 set,
`peek(0x18)` bit 0, `peek(0x19)` bits 4, 5 and 6, `peek(0x1A)` bits 4 to 7, and every
colour register `0x20..0x2E` bits 4 to 7; the other bits are those of the stored register
(`ctrl2`, `memSelect`, `irr`, `imr`, `colors[a-0x20]`).  Bit 7 of `peek(0x19)` is the
interrupt flag: it is set when `irr AND imr` is non-zero. -/
theorem peek_unused_bits (s : VIC) :
    (∃ r, peek s 0x16 = some (r, s) ∧ r.testBit 6 = true ∧ r.testBit 7 = true ∧
      ∀ k, k < 6 → r.testBit k = s.reg.current.ctrl2.testBit k) ∧
    (∃ r, peek s 0x18 = some (r, s) ∧ r.testBit 0 = true ∧
      ∀ k, 1 ≤ k → k < 8 → r.testBit k = s.memSelect.testBit k) ∧
    (∃ r, peek s 0x19 = some (r, s) ∧
      r.testBit 4 = true ∧ r.testBit 5 = true ∧ r.testBit 6 = true ∧
      (∀ k, k < 4 → r.testBit k = s.irr.testBit k) ∧
      r.testBit 7 = (decide (s.irr &&& s.imr ≠ 0) || s.irr.testBit 7)) ∧
    (∃ r, peek s 0x1A = some (r, s) ∧ (∀ k, 4 ≤ k → k < 8 → r.testBit k = true) ∧
      ∀ k, k < 4 → r.testBit k = s.imr.testBit k) ∧
    (∀ a, 0x20 ≤ a → a ≤ 0x2E →
      ∃ r, peek s a = some (r, s) ∧ (∀ k, 4 ≤ k → k < 8 → r.testBit k = true) ∧
        ∀ k, k < 4 → r.testBit k = (s.reg.current.colors (a - 0x20)).testBit k) := by
  refine ⟨⟨_, peek_ctrl2 s, ?_, ?_, ?_⟩, ⟨_, peek_memSelect s, ?_, ?_⟩,
    ⟨_, peek_irr s, ?_, ?_, ?_, ?_, ?_⟩, ⟨_, peek_imr s, ?_, ?_⟩, ?_⟩
  · simp [testBit_u8, testBit_0xC0]
  · simp [testBit_u8, testBit_0xC0]
  · intro k hk
    have h6 : k ≠ 6 := by omega
    have h7 : k ≠ 7 := by omega
    have h8 : k < 8 := by omega
    simp [testBit_u8, testBit_0xC0, testBit_0xFF, h6, h7, h8]
  · rw [testBit_u8, Nat.testBit_or, testBit_0x01]
    simp
  · intro k hk1 hk8
    have h0 : k ≠ 0 := by omega
    simp [testBit_u8, testBit_0x01, h0, hk8]
  · split_ifs <;> simp [testBit_u8, testBit_0xF0, testBit_0x70]
  · split_ifs <;> simp [testBit_u8, testBit_0xF0, testBit_0x70]
  · split_ifs <;> simp [testBit_u8, testBit_0xF0, testBit_0x70]
  · intro k hk
    have h4 : ¬ 4 ≤ k := by omega
    have h8 : k < 8 := by omega
    split_ifs <;> simp [testBit_u8, testBit_0xF0, testBit_0x70, h4, h8]
  · by_cases hc : s.irr &&& s.imr = 0
    · simp [hc, testBit_u8, testBit_0x70]
    · simp [hc, testBit_u8, testBit_0xF0]
  · intro k hk4 hk8
    simp [testBit_u8, testBit_0xF0, hk4, hk8]
  · intro k hk
    have h4 : ¬ 4 ≤ k := by omega
    have h8 : k < 8 := by omega
    simp [testBit_u8, testBit_0xF0, h4, h8]
  · intro a h1 h2
    obtain ⟨j, rfl⟩ : ∃ j, a = 0x20 + j := ⟨a - 0x20, by omega⟩
    have hj : j < 15 := by omega
    have hsub : 0x20 + j - 0x20 = j := by omega
    refine ⟨_, peek_color s j hj, ?_, ?_⟩
    · intro k hk4 hk8
      simp [testBit_u8, testBit_0xF0, hk4, hk8]
    · intro k hk
      have h4 : ¬ 4 ≤ k := by omega
      have h8 : k < 8 := by omega
      rw [hsub]
      simp [testBit_u8, testBit_0xF0, h4, h8]

/-- C9: `peek` returns for every address up to `0x3F` and fails beyond; its switch has a
case for exactly the addresses `0x00..0x2E`; for `0x2F..0x3F` control leaves the switch,
the final assertion holds, the result is `0xFF` and the state is unchanged. -/
theorem peek_total (s : VIC) :
    (∀ a, a ≤ 0x3F → ∃ r s1, peek s a = some (r, s1)) ∧
    (∀ a, (peekSwitch s a).isSome = true ↔ a ≤ 0x2E) ∧
    (∀ a, 0x2F ≤ a → a ≤ 0x3F → peekSwitch s a = none ∧ peek s a = some (0xFF, s)) ∧
    (∀ a, 0x3F < a → peek s a = none) := by
  have hsw : ∀ a, (peekSwitch s a).isSome = true ↔ a ≤ 0x2E := by
    intro a
    by_cases ha : a ≤ 0x2E
    · simp only [ha, iff_true]
      interval_cases a <;> simp [peekSwitch]
    · simp only [ha, iff_false]
      unfold peekSwitch
      split
      all_goals first
        | (exfalso; omega)
        | simp
  refine ⟨?_, hsw, ?_, ?_⟩
  · intro a ha
    obtain ⟨r, hr⟩ := peek_eq s a ha
    exact ⟨r, _, hr⟩
  · intro a h1 h2
    have hnone : peekSwitch s a = none := by
      cases h : peekSwitch s a with
      | none => rfl
      | some x =>
        have := (hsw a).1 (by simp [h])
        omega
    refine ⟨hnone, ?_⟩
    unfold peek
    rw [if_pos h2, hnone]
    simp [h1, h2]
  · intro a ha
    unfold peek
    rw [if_neg (by omega)]

/-! ## Character and colour fetch -/

/-- The effect of a successful `memAccess` on the state: only the two bus latches
change, and the data bus holds the byte returned. -/
theorem memAccess_state (s : VIC) (addr data : Nat) (sm : VIC)
    (h : memAccess s addr = some (data, sm)) :
    sm = { s with addrBus := s.bankAddr ||| addr, dataBus := data } := by
  unfold memAccess at h
  split_ifs at h
  simp only [Option.some.injEq, Prod.mk.injEq] at h
  obtain ⟨h1, h2⟩ := h
  subst h2
  subst h1
  rfl

/-- The assertions of `memAccess` are the only way it fails. -/
theorem memAccess_isSome (s : VIC) (addr : Nat) :
    (memAccess s addr).isSome = true ↔ (addr &&& 0xC000 = 0 ∧ s.bankAddr &&& 0x3FFF = 0) := by
  unfold memAccess
  by_cases h1 : addr &&& 0xC000 = 0 <;> by_cases h2 : s.bankAddr &&& 0x3FFF = 0 <;>
    simp [h1, h2]

theorem cAccess_idle (d : VICDecls) (s : VIC)
    (hba : d.BApulledDownForAtLeastThreeCycles s = false) :
    cAccess d s = some { s with
      videoMatrix := setAt s.videoMatrix s.vmli 0xFF,
      colorLine := setAt s.colorLine s.vmli (s.c64.mem.ram s.c64.cpu.getPC &&& 0x0F) } := by
  simp [cAccess, hba]

theorem cAccess_fetch (d : VICDecls) (s : VIC) (data : Nat) (sm : VIC)
    (hba : d.BApulledDownForAtLeastThreeCycles s = true)
    (hm : memAccess s (u16 ((d.VM13VM12VM11VM10 s <<< 6) ||| s.vc)) = some (data, sm)) :
    cAccess d s = some { sm with
      videoMatrix := setAt sm.videoMatrix sm.vmli data,
      colorLine := setAt sm.colorLine sm.vmli (sm.c64.mem.colorRam sm.vc &&& 0x0F) } := by
  unfold cAccess
  rw [if_pos hba]
  simp only [hm]

theorem cAccess_fail (d : VICDecls) (s : VIC)
    (hba : d.BApulledDownForAtLeastThreeCycles s = true)
    (hm : memAccess s (u16 ((d.VM13VM12VM11VM10 s <<< 6) ||| s.vc)) = none) :
    cAccess d s = none := by
  unfold cAccess
  rw [if_pos hba]
  simp only [hm]

/-- C10: `cAccess` writes entry `vmli` of `videoMatrix` and `colorLine` and no other entry.
When BA has been low for at least three cycles the two entries become the byte read by
`memAccess((VM13VM12VM11VM10() << 6) | vc)` and `colorRam[vc] AND 0x0F` (the call fails
only when an assertion of `memAccess` does); otherwise they become `0xFF` and the low
nibble of the byte at the CPU's program counter.  `vc`, `vmli` and `rc` are unchanged. -/
theorem cAccess_line_buffers (d : VICDecls) (s : VIC) :
    (d.BApulledDownForAtLeastThreeCycles s = false →
      ∃ s1, cAccess d s = some s1 ∧
        s1.videoMatrix s.vmli = 0xFF ∧
        s1.colorLine s.vmli = s.c64.mem.ram s.c64.cpu.getPC &&& 0x0F ∧
        (∀ j, j ≠ s.vmli →
          s1.videoMatrix j = s.videoMatrix j ∧ s1.colorLine j = s.colorLine j) ∧
        s1.vc = s.vc ∧ s1.vmli = s.vmli ∧ s1.rc = s.rc) ∧
    (d.BApulledDownForAtLeastThreeCycles s = true →
      ∀ data sm, memAccess s (u16 ((d.VM13VM12VM11VM10 s <<< 6) ||| s.vc)) = some (data, sm) →
      ∃ s1, cAccess d s = some s1 ∧
        s1.videoMatrix s.vmli = data ∧
        s1.colorLine s.vmli = s.c64.mem.colorRam s.vc &&& 0x0F ∧
        (∀ j, j ≠ s.vmli →
          s1.videoMatrix j = s.videoMatrix j ∧ s1.colorLine j = s.colorLine j) ∧
        s1.vc = s.vc ∧ s1.vmli = s.vmli ∧ s1.rc = s.rc) ∧
    (d.BApulledDownForAtLeastThreeCycles s = true →
      ((cAccess d s).isSome = true ↔
        (u16 ((d.VM13VM12VM11VM10 s <<< 6) ||| s.vc) &&& 0xC000 = 0 ∧
          s.bankAddr &&& 0x3FFF = 0))) := by
  refine ⟨?_, ?_, ?_⟩
  · intro hba
    refine ⟨_, cAccess_idle d s hba, ?_, ?_, ?_, rfl, rfl, rfl⟩
    · exact setAt_same _ _ _
    · exact setAt_same _ _ _
    · intro j hj
      exact ⟨setAt_other _ _ _ _ hj, setAt_other _ _ _ _ hj⟩
  · intro hba data sm hm
    have hsm := memAccess_state s _ data sm hm
    refine ⟨_, cAccess_fetch d s data sm hba hm, ?_⟩
    subst hsm
    refine ⟨?_, ?_, ?_, rfl, rfl, rfl⟩
    · exact setAt_same _ _ _
    · exact setAt_same _ _ _
    · intro j hj
      exact ⟨setAt_other _ _ _ _ hj, setAt_other _ _ _ _ hj⟩
  · intro hba
    rw [← memAccess_isSome]
    cases hm : memAccess s (u16 ((d.VM13VM12VM11VM10 s <<< 6) ||| s.vc)) with
    | none =>
      rw [cAccess_fail d s hba hm]
      simp
    | some x =>
      obtain ⟨data, sm⟩ := x
      rw [cAccess_fetch d s data sm hba hm]
      rfl

/-- Witness for C10: on a bad line with BA low long enough, the cell at `vmli = 3` receives
the character `$2A` from screen memory at `$0400` and the colour nibble `5`. -/
theorem cAccess_line_buffers_witness :
    ∃ s1, cAccess sampleDecls badLineState = some s1 ∧
      s1.videoMatrix 3 = 0x2A ∧ s1.colorLine 3 = 5 ∧ s1.videoMatrix 4 = 0 :=
  have h := (cAccess_line_buffers sampleDecls badLineState).2.1 (by decide) 0x2A
    { badLineState with addrBus := 0x0400, dataBus := 0x2A } rfl
  h.imp fun s1 hs => ⟨hs.1, hs.2.1, hs.2.2.1.trans (by decide),
    ((hs.2.2.2.1 4 (by decide)).1).trans (by decide)⟩

/-! ## Status register and frozen program counter -/

theorem testBit_0x20 (k : Nat) : Nat.testBit 0x20 k = decide (k = 5) := by
  have h : (0x20 : Nat) = 2 ^ 5 := rfl
  rw [h, Nat.testBit_two_pow]
  simp [eq_comm]

theorem testBit_0xEF (k : Nat) : Nat.testBit 0xEF k = (decide (k < 8) && !decide (k = 4)) := by
  have h : (0xEF : Nat) = 0xFF ^^^ 2 ^ 4 := rfl
  rw [h, Nat.testBit_xor, testBit_0xFF, Nat.testBit_two_pow]
  by_cases h1 : k < 8 <;> by_cases h2 : k = 4 <;> simp [h1, h2, eq_comm]

/-- C19: `getP()` returns `regP` with bit 5 forced to 1; `getPWithClearedB()` returns a
byte with bit 4 (B) clear, bit 5 set and every other bit (N, V, D, I, Z, C) as in `regP`;
neither call changes the CPU state, `regP` included. -/
theorem getP_bits (c : CPU) (hP : c.regP < 256) :
    c.getP.1 = c.regP ||| 0x20 ∧
    (∀ k, c.getP.1.testBit k = (decide (k = 5) || c.regP.testBit k)) ∧
    c.getPWithClearedB.1 < 256 ∧
    c.getPWithClearedB.1.testBit 4 = false ∧
    c.getPWithClearedB.1.testBit 5 = true ∧
    (∀ k, k ≠ 4 → k ≠ 5 → c.getPWithClearedB.1.testBit k = c.regP.testBit k) ∧
    c.getP.2 = c ∧ c.getPWithClearedB.2 = c ∧
    c.getP.2.regP = c.regP ∧ c.getPWithClearedB.2.regP = c.regP := by
  have hP8 : c.regP < 2 ^ 8 := hP
  have hhigh : ∀ k, ¬ k < 8 → c.regP.testBit k = false := fun k hk =>
    Nat.testBit_lt_two_pow (Nat.lt_of_lt_of_le hP8 (Nat.pow_le_pow_right (by decide) (by omega)))
  have hbits : ∀ k, c.getP.1.testBit k = (decide (k = 5) || c.regP.testBit k) := by
    intro k
    show (u8 (c.regP ||| 0x20)).testBit k = _
    rw [testBit_u8, Nat.testBit_or, testBit_0x20]
    by_cases hk : k < 8
    · simp [hk, Bool.or_comm]
    · have h5 : k ≠ 5 := by omega
      simp [hk, h5, hhigh k hk]
  refine ⟨?_, hbits, ?_, ?_, ?_, ?_, rfl, rfl, rfl, rfl⟩
  · apply Nat.eq_of_testBit_eq
    intro k
    rw [hbits, Nat.testBit_or, testBit_0x20, Bool.or_comm]
  · exact Nat.mod_lt _ (by decide)
  · show (u8 (c.getP.1 &&& 0xEF)).testBit 4 = false
    rw [testBit_u8, Nat.testBit_and, testBit_0xEF]
    simp
  · show (u8 (c.getP.1 &&& 0xEF)).testBit 5 = true
    rw [testBit_u8, Nat.testBit_and, testBit_0xEF, hbits]
    simp
  · intro k h4 h5
    show (u8 (c.getP.1 &&& 0xEF)).testBit k = _
    rw [testBit_u8, Nat.testBit_and, testBit_0xEF, hbits]
    by_cases hk : k < 8
    · simp [hk, h4, h5]
    · simp [hk, hhigh k hk]

/-- Witness for C19: with N and C set (`regP = $81`), `getP()` is `$A1` and
`getPWithClearedB()` is `$A1` as well. -/
theorem getP_bits_witness :
    midInstructionCPU.regP < 256 ∧ midInstructionCPU.getP.1 = 0xA1 ∧
    midInstructionCPU.getPWithClearedB.1.testBit 4 = false :=
  have h := getP_bits midInstructionCPU (by decide)
  ⟨by decide, h.1.trans (by decide), h.2.2.2.1⟩

theorem setFlag_pc (flag : Nat) (c : CPU) (bit : Nat) : (CPU.setFlag flag c bit).pc = c.pc := by
  unfold CPU.setFlag
  split <;> rfl

/-- C20: the frozen program counter returned by `getPC()` is unchanged by `incPC`,
`incPCL`, `incPCH`, `setPCL` and `setPCH`, and by every other state-changing accessor of
`CPU.h` except `jumpToAddress`; `jumpToAddress(addr)` sets the frozen and the real program
counter to `addr` and makes `inFetchPhase()` true. -/
theorem frozen_pc_stable (fetch : MicroInstruction) (c : CPU) :
    (∀ offset, (c.incPC offset).getPC = c.getPC) ∧
    (∀ offset, (c.incPCL offset).getPC = c.getPC) ∧
    (∀ offset, (c.incPCH offset).getPC = c.getPC) ∧
    (∀ lo, (c.setPCL lo).getPC = c.getPC) ∧
    (∀ hi, (c.setPCH hi).getPC = c.getPC) ∧
    (∀ a : CPUAccessor, (∀ addr, a ≠ CPUAccessor.jumpToAddress addr) →
      (c.call fetch a).getPC = c.getPC) ∧
    (∀ addr, (CPU.jumpToAddress fetch c addr).getPC = addr ∧
      (CPU.jumpToAddress fetch c addr).regPC = addr ∧
      (CPU.jumpToAddress fetch c addr).inFetchPhase fetch = true) := by
  refine ⟨fun _ => rfl, fun _ => rfl, fun _ => rfl, fun _ => rfl, fun _ => rfl, ?_, ?_⟩
  · intro a ha
    cases a with
    | jumpToAddress addr => exact absurd rfl (ha addr)
    | setPCL _ => rfl
    | setPCH _ => rfl
    | incPC _ => rfl
    | incPCL _ => rfl
    | incPCH _ => rfl
    | setN _ => exact setFlag_pc _ _ _
    | setV _ => exact setFlag_pc _ _ _
    | setB _ => exact setFlag_pc _ _ _
    | setD _ => exact setFlag_pc _ _ _
    | setI _ => exact setFlag_pc _ _ _
    | setZ _ => exact setFlag_pc _ _ _
    | setC _ => exact setFlag_pc _ _ _
    | setP _ => rfl
    | setPWithoutB _ => rfl
    | loadA _ => exact (setFlag_pc _ _ _).trans (setFlag_pc _ _ _)
    | loadX _ => exact (setFlag_pc _ _ _).trans (setFlag_pc _ _ _)
    | loadY _ => exact (setFlag_pc _ _ _).trans (setFlag_pc _ _ _)
  · intro addr
    refine ⟨rfl, rfl, ?_⟩
    simp [CPU.jumpToAddress, CPU.inFetchPhase]

/-! ## The memory mapping of `memAccess` -/

theorem and_0xC000_of_lt (a : Nat) (h : a < 0x4000) : a &&& 0xC000 = 0 := by
  apply Nat.eq_of_testBit_eq
  intro k
  rw [Nat.testBit_and, Nat.zero_testBit]
  by_cases hk : k < 14
  · have h1 : (0xC000 : Nat) = 2 ^ 14 ||| 2 ^ 15 := rfl
    have h14 : ¬ 14 = k := by omega
    have h15 : ¬ 15 = k := by omega
    rw [h1, Nat.testBit_or, Nat.testBit_two_pow, Nat.testBit_two_pow]
    simp [h14, h15]
  · have h2 : a < 2 ^ k :=
      Nat.lt_of_lt_of_le (show a < 2 ^ 14 from h) (Nat.pow_le_pow_right (by decide) (by omega))
    rw [Nat.testBit_lt_two_pow h2]
    simp

theorem memAccess_ok (s : VIC) (addr : Nat) (h1 : addr &&& 0xC000 = 0)
    (h2 : s.bankAddr &&& 0x3FFF = 0) :
    memAccess s addr =
      some (memAccessData { s with addrBus := s.bankAddr ||| addr } addr,
        { s with addrBus := s.bankAddr ||| addr,
                 dataBus := memAccessData { s with addrBus := s.bankAddr ||| addr } addr }) := by
  unfold memAccess
  simp [h1, h2]

/-- In Ultimax mode the cartridge ROM is visible in the top 4 KB of each VIC bank and RAM
everywhere else. -/
theorem memAccessData_ultimax (s1 : VIC) (addr : Nat) (hu : s1.c64.getUltimax = true)
    (hA : s1.addrBus < 0x10000) :
    memAccessData s1 addr =
      if (0x3000 ≤ s1.addrBus ∧ s1.addrBus ≤ 0x3FFF) ∨ (0x7000 ≤ s1.addrBus ∧ s1.addrBus ≤ 0x7FFF) ∨
          (0xB000 ≤ s1.addrBus ∧ s1.addrBus ≤ 0xBFFF) ∨ (0xF000 ≤ s1.addrBus ∧ s1.addrBus ≤ 0xFFFF)
      then s1.c64.expansionport_peek (s1.addrBus ||| 0xF000)
      else s1.c64.mem.ram s1.addrBus := by
  unfold memAccessData
  rw [hu]
  simp only [Bool.not_true, Bool.false_eq_true, if_false]
  have hdiv : s1.addrBus >>> 12 = s1.addrBus / 4096 := Nat.shiftRight_eq_div_pow _ 12
  generalize hq : s1.addrBus >>> 12 = q at hdiv
  have hq16 : q < 16 := by omega
  interval_cases q <;> simp only [] <;> split_ifs <;> first | rfl | (exfalso; omega)

/-- Every byte `memAccess` can deliver comes from RAM, ROM or the expansion port. -/
theorem memAccessData_source (s1 : VIC) (addr : Nat) :
    (∃ a, memAccessData s1 addr = s1.c64.mem.ram a) ∨
    (∃ a, memAccessData s1 addr = s1.c64.mem.rom a) ∨
    (∃ a, memAccessData s1 addr = s1.c64.expansionport_peek a) := by
  unfold memAccessData
  split
  · split
    · exact Or.inr (Or.inl ⟨_, rfl⟩)
    · exact Or.inr (Or.inl ⟨_, rfl⟩)
    · exact Or.inl ⟨_, rfl⟩
  · split
    all_goals first
      | exact Or.inl ⟨_, rfl⟩
      | exact Or.inr (Or.inr ⟨_, rfl⟩)

/-- C17: for a 14 bit address and a bank address that is a multiple of 16 KB, `memAccess`
returns, puts `bankAddr | addr` on the address bus and latches the byte it returns in
`dataBus` (a value below 256 when the memories hold bytes); in Ultimax mode the byte comes
from the expansion port at `addrBus | 0xF000` exactly when `addrBus` lies in
`$3000-$3FFF`, `$7000-$7FFF`, `$B000-$BFFF` or `$F000-$FFFF`, and from RAM at `addrBus`
otherwise. -/
theorem memAccess_ultimax_mapping (s : VIC) (addr : Nat) (ha : addr < 0x4000)
    (hb : s.bankAddr = 0x0000 ∨ s.bankAddr = 0x4000 ∨ s.bankAddr = 0x8000 ∨
      s.bankAddr = 0xC000) :
    ∃ data s1, memAccess s addr = some (data, s1) ∧
      s1.addrBus = s.bankAddr ||| addr ∧ s1.dataBus = data ∧
      ((∀ a, s.c64.mem.ram a < 256 ∧ s.c64.mem.rom a < 256 ∧ s.c64.expansionport_peek a < 256) →
        data < 256) ∧
      (s.c64.getUltimax = true →
        data =
          if (0x3000 ≤ s1.addrBus ∧ s1.addrBus ≤ 0x3FFF) ∨
              (0x7000 ≤ s1.addrBus ∧ s1.addrBus ≤ 0x7FFF) ∨
              (0xB000 ≤ s1.addrBus ∧ s1.addrBus ≤ 0xBFFF) ∨
              (0xF000 ≤ s1.addrBus ∧ s1.addrBus ≤ 0xFFFF)
          then s.c64.expansionport_peek (s1.addrBus ||| 0xF000)
          else s.c64.mem.ram s1.addrBus) := by
  have h1 : addr &&& 0xC000 = 0 := and_0xC000_of_lt addr ha
  have h2 : s.bankAddr &&& 0x3FFF = 0 := by
    rcases hb with h | h | h | h <;> rw [h] <;> decide
  have hbank : s.bankAddr < 2 ^ 16 := by
    rcases hb with h | h | h | h <;> rw [h] <;> decide
  have hA : s.bankAddr ||| addr < 0x10000 :=
    Nat.or_lt_two_pow hbank (Nat.lt_trans (show addr < 2 ^ 14 from ha) (by decide))
  refine ⟨_, _, memAccess_ok s addr h1 h2, rfl, rfl, ?_, ?_⟩
  · intro hbytes
    rcases memAccessData_source { s with addrBus := s.bankAddr ||| addr } addr with
      ⟨a, h⟩ | ⟨a, h⟩ | ⟨a, h⟩
    · rw [h]
      exact (hbytes a).1
    · rw [h]
      exact (hbytes a).2.1
    · rw [h]
      exact (hbytes a).2.2
  · intro hu
    exact memAccessData_ultimax { s with addrBus := s.bankAddr ||| addr } addr hu hA

/-- Witness for C17: in Ultimax mode and bank 1, video address `$3000` is bus address
`$7000`, which the cartridge answers. -/
theorem memAccess_ultimax_mapping_witness :
    (0x3000 : Nat) < 0x4000 ∧
    ∃ data s1, memAccess ultimaxState 0x3000 = some (data, s1) ∧
      s1.addrBus = 0x7000 ∧ data = 0xC3 :=
  ⟨by decide, by
    obtain ⟨data, s1, h1, h2, _, _, h5⟩ :=
      memAccess_ultimax_mapping ultimaxState 0x3000 (by decide) (Or.inr (Or.inl rfl))
    have hbus : s1.addrBus = 0x7000 := h2.trans (by decide)
    refine ⟨data, s1, h1, hbus, ?_⟩
    rw [h5 rfl, hbus]
    decide⟩

/-! ## Results of the fetch operations -/

theorem memAccess_fields (s : VIC) (addr data : Nat) (sm : VIC)
    (h : memAccess s addr = some (data, sm)) :
    sm = { s with addrBus := s.bankAddr ||| addr, dataBus := data } ∧
    data = memAccessData { s with addrBus := s.bankAddr ||| addr } addr := by
  unfold memAccess at h
  split_ifs at h
  simp only [Option.some.injEq, Prod.mk.injEq] at h
  obtain ⟨h1, h2⟩ := h
  subst h2
  subst h1
  exact ⟨rfl, rfl⟩

theorem and_0x3F_eq_mod (x : Nat) : x &&& 0x3F = x % 64 :=
  Nat.and_pow_two_sub_one_eq_mod x 6

theorem and_0x3FF_eq_mod (x : Nat) : x &&& 0x3FF = x % 1024 :=
  Nat.and_pow_two_sub_one_eq_mod x 10

theorem incMc_mc (s : VIC) (i : Nat) :
    (incMc s i).mc = setAt s.mc i ((s.mc i + 1) &&& 0x3F) := by
  unfold incMc
  simp only [setAt_same, setAt_setAt]

theorem memAccess_inv (s : VIC) (addr data : Nat) (s1 : VIC)
    (h : memAccess s addr = some (data, s1)) :
    FetchFrame s s1 ∧ s1.vc = s.vc ∧ s1.vmli = s.vmli ∧ s1.mc = s.mc ∧
    s1.spritePtr = s.spritePtr ∧ s1.spriteSr = s.spriteSr ∧
    s1.addrBus = s.bankAddr ||| addr ∧ s1.dataBus = data := by
  obtain ⟨hs, _⟩ := memAccess_fields s addr data s1 h
  subst hs
  exact ⟨⟨rfl, rfl, rfl, rfl⟩, rfl, rfl, rfl, rfl, rfl, rfl, rfl⟩

theorem cAccess_inv (d : VICDecls) (s s1 : VIC) (h : cAccess d s = some s1) :
    FetchFrame s s1 ∧ s1.vc = s.vc ∧ s1.vmli = s.vmli ∧ s1.mc = s.mc ∧
    s1.spritePtr = s.spritePtr := by
  unfold cAccess at h
  split_ifs at h
  · cases hm : memAccess s (u16 ((d.VM13VM12VM11VM10 s <<< 6) ||| s.vc)) with
    | none => simp [hm] at h
    | some x =>
      obtain ⟨data, sm⟩ := x
      simp only [hm, Option.some.injEq] at h
      obtain ⟨hsm, _⟩ := memAccess_fields s _ data sm hm
      subst h
      subst hsm
      exact ⟨⟨rfl, rfl, rfl, rfl⟩, rfl, rfl, rfl, rfl⟩
  · simp only [Option.some.injEq] at h
    subst h
    exact ⟨⟨rfl, rfl, rfl, rfl⟩, rfl, rfl, rfl, rfl⟩

theorem gAccess_inv (d : VICDecls) (s s1 : VIC) (h : gAccess d s = some s1) :
    ∃ data sm, memAccess s (if s.displayState then gAccessDisplayAddr d s
        else gAccessIdleAddr d s) = some (data, sm) ∧
      FetchFrame s s1 ∧ s1.mc = s.mc ∧ s1.spritePtr = s.spritePtr ∧
      s1.addrBus = sm.addrBus ∧ s1.dataBus = data ∧
      s1.vc = (if s.displayState then (s.vc + 1) &&& 0x3FF else s.vc) ∧
      s1.vmli = (if s.displayState then (s.vmli + 1) &&& 0x3F else s.vmli) := by
  unfold gAccess at h
  cases hd : s.displayState
  · rw [hd] at h
    simp only [Bool.false_eq_true, if_false] at h ⊢
    cases hm : memAccess s (gAccessIdleAddr d s) with
    | none => simp [hm] at h
    | some x =>
      obtain ⟨data, sm⟩ := x
      simp only [hm, Option.some.injEq] at h
      obtain ⟨hsm, _⟩ := memAccess_fields s _ data sm hm
      subst h
      refine ⟨data, sm, rfl, ?_⟩
      subst hsm
      exact ⟨⟨rfl, rfl, rfl, rfl⟩, rfl, rfl, rfl, rfl, rfl, rfl⟩
  · rw [hd] at h
    simp only [if_true] at h ⊢
    cases hm : memAccess s (gAccessDisplayAddr d s) with
    | none => simp [hm] at h
    | some x =>
      obtain ⟨data, sm⟩ := x
      simp only [hm, Option.some.injEq] at h
      obtain ⟨hsm, _⟩ := memAccess_fields s _ data sm hm
      subst h
      refine ⟨data, sm, rfl, ?_⟩
      subst hsm
      exact ⟨⟨rfl, rfl, rfl, rfl⟩, rfl, rfl, rfl, rfl, rfl, rfl⟩

theorem pAccess_inv (d : VICDecls) (s s1 : VIC) (i : Nat) (h : pAccess d s i = some s1) :
    i < 8 ∧ ∃ data sm,
      memAccess s (u16 ((d.VM13VM12VM11VM10 s <<< 6) ||| 0x03F8 ||| i)) = some (data, sm) ∧
      FetchFrame s s1 ∧ s1.vc = s.vc ∧ s1.vmli = s.vmli ∧ s1.mc = s.mc ∧
      s1.spritePtr = setAt s.spritePtr i (data <<< 6) := by
  unfold pAccess at h
  split_ifs at h with hi
  refine ⟨hi, ?_⟩
  cases hm : memAccess s (u16 ((d.VM13VM12VM11VM10 s <<< 6) ||| 0x03F8 ||| i)) with
  | none => simp [hm] at h
  | some x =>
    obtain ⟨data, sm⟩ := x
    simp only [hm, Option.some.injEq] at h
    obtain ⟨hsm, _⟩ := memAccess_fields s _ data sm hm
    subst h
    refine ⟨data, sm, rfl, ?_⟩
    subst hsm
    exact ⟨⟨rfl, rfl, rfl, rfl⟩, rfl, rfl, rfl, rfl⟩

theorem memAccessData_congr (a b : VIC) (addr : Nat) (h1 : a.c64 = b.c64)
    (h2 : a.addrBus = b.addrBus) : memAccessData a addr = memAccessData b addr := by
  unfold memAccessData
  rw [h1, h2]

/-- The byte `memAccess` returns depends on the state only through the bank address and
the machine behind `c64`. -/
theorem memAccess_transfer (s t : VIC) (addr data : Nat) (sm : VIC)
    (hc : t.c64 = s.c64) (hb : t.bankAddr = s.bankAddr)
    (hm : memAccess s addr = some (data, sm)) :
    memAccess t addr =
      some (data, { t with addrBus := s.bankAddr ||| addr, dataBus := data }) := by
  have hsome : (memAccess s addr).isSome = true := by rw [hm]; rfl
  obtain ⟨h1, h2⟩ := (memAccess_isSome s addr).1 hsome
  obtain ⟨_, hdata⟩ := memAccess_fields s addr data sm hm
  have hcongr : memAccessData { t with addrBus := t.bankAddr ||| addr } addr = data := by
    rw [hdata]
    exact memAccessData_congr _ _ addr hc (by show t.bankAddr ||| addr = _; rw [hb])
  rw [memAccess_ok t addr h1 (by rw [hb]; exact h2), hcongr, hb]

theorem dma_test (s : VIC) (i : Nat) (h : s.spriteDmaOnOff &&& (1 <<< i) ≠ 0) :
    (s.spriteDmaOnOff &&& (1 <<< i) != 0) = true := by
  simpa using h

theorem setSr_same (a : Nat → SpriteSR) (i : Nat) (v : SpriteSR) : setSr a i v i = v := by
  simp [setSr]

theorem setSr_other (a : Nat → SpriteSR) (i : Nat) (v : SpriteSR) (j : Nat) (h : j ≠ i) :
    setSr a i v j = a j := by
  simp [setSr, h]

/-- The result of `sFirstAccess`, read off a successful call. -/
theorem sFirstAccess_inv (d : VICDecls) (s s1 : VIC) (i : Nat)
    (h : sFirstAccess d s i = some s1) :
    i < 8 ∧ FetchFrame s s1 ∧ s1.vc = s.vc ∧ s1.vmli = s.vmli ∧ s1.spritePtr = s.spritePtr ∧
    (∀ j, j ≠ i → s1.spriteSr j = s.spriteSr j) ∧
    ((s.spriteDmaOnOff &&& (1 <<< i) = 0 ∧ s1.mc = s.mc ∧ s1.addrBus = s.addrBus ∧
        s1.dataBus = s.dataBus ∧ s1.spriteSr i = { s.spriteSr i with chunk1 := 0 }) ∨
      (s.spriteDmaOnOff &&& (1 <<< i) ≠ 0 ∧
        ∃ data sm, memAccess s (u16 (s.spritePtr i ||| s.mc i)) = some (data, sm) ∧
          s1.mc = setAt s.mc i ((s.mc i + 1) &&& 0x3F) ∧
          s1.addrBus = s.bankAddr ||| u16 (s.spritePtr i ||| s.mc i) ∧
          s1.spriteSr i = { s.spriteSr i with chunk1 := data })) := by
  by_cases hi : i < 8
  swap
  · simp [sFirstAccess, hi] at h
  by_cases hdma : s.spriteDmaOnOff &&& (1 <<< i) = 0
  · simp only [sFirstAccess, hi, if_true, hdma, bne_self_eq_false, Bool.false_eq_true,
      if_false, Option.some.injEq] at h
    subst h
    exact ⟨hi, ⟨rfl, rfl, rfl, rfl⟩, rfl, rfl, rfl, fun j hj => setSr_other _ _ _ _ hj,
      Or.inl ⟨hdma, rfl, rfl, rfl, setSr_same _ _ _⟩⟩
  cases hBA : d.BApulledDownForAtLeastThreeCycles { s with isFirstDMAcycle := 1 <<< i }
  · simp [sFirstAccess, hi, hdma, hBA] at h
  cases hm : memAccess { s with isFirstDMAcycle := 1 <<< i }
      (u16 (s.spritePtr i ||| s.mc i)) with
  | none => simp [sFirstAccess, hi, hdma, hBA, hm] at h
  | some x =>
    obtain ⟨data, sm⟩ := x
    simp only [sFirstAccess, hi, if_true, dma_test s i hdma, hBA, hm, Option.some.injEq] at h
    obtain ⟨hsm, _⟩ := memAccess_fields _ _ data sm hm
    have hm0 := memAccess_transfer { s with isFirstDMAcycle := 1 <<< i } s _ data sm rfl rfl hm
    subst h
    subst hsm
    exact ⟨hi, ⟨rfl, rfl, rfl, rfl⟩, rfl, rfl, rfl, fun j hj => setSr_other _ _ _ _ hj,
      Or.inr ⟨hdma, data, _, hm0, incMc_mc _ _, rfl, setSr_same _ _ _⟩⟩

/-- When `sFirstAccess` returns. -/
theorem sFirstAccess_isSome (d : VICDecls) (s : VIC) (i : Nat) (hi : i < 8)
    (h : s.spriteDmaOnOff &&& (1 <<< i) ≠ 0 →
      d.BApulledDownForAtLeastThreeCycles { s with isFirstDMAcycle := 1 <<< i } = true ∧
      (memAccess s (u16 (s.spritePtr i ||| s.mc i))).isSome = true) :
    (sFirstAccess d s i).isSome = true := by
  unfold sFirstAccess
  rw [if_pos hi]
  by_cases hdma : s.spriteDmaOnOff &&& (1 <<< i) = 0
  · simp [hdma]
  · obtain ⟨hBA, hsome⟩ := h hdma
    obtain ⟨x, hx⟩ := Option.isSome_iff_exists.1 hsome
    obtain ⟨data, sm⟩ := x
    have hm1 := memAccess_transfer s { s with isFirstDMAcycle := 1 <<< i } _ data sm rfl rfl hx
    simp only [dma_test s i hdma, if_true, hBA, hm1]
    rfl

/-- The result of `sSecondAccess`, read off a successful call. -/
theorem sSecondAccess_inv (d : VICDecls) (s s1 : VIC) (i : Nat)
    (h : sSecondAccess d s i = some s1) :
    i < 8 ∧ FetchFrame s s1 ∧ s1.vc = s.vc ∧ s1.vmli = s.vmli ∧ s1.spritePtr = s.spritePtr ∧
    (∀ j, j ≠ i → s1.spriteSr j = s.spriteSr j) ∧
    ((s.spriteDmaOnOff &&& (1 <<< i) = 0 ∧ s1.mc = s.mc ∧
        (∃ data sm, memAccess s 0x3FFF = some (data, sm) ∧ s1.dataBus = data) ∧
        s1.addrBus = s.bankAddr ||| 0x3FFF ∧
        s1.spriteSr i = { s.spriteSr i with chunk2 := 0 }) ∨
      (s.spriteDmaOnOff &&& (1 <<< i) ≠ 0 ∧
        ∃ data sm, memAccess s (u16 (s.spritePtr i ||| s.mc i)) = some (data, sm) ∧
          s1.mc = setAt s.mc i ((s.mc i + 1) &&& 0x3F) ∧
          s1.addrBus = s.bankAddr ||| u16 (s.spritePtr i ||| s.mc i) ∧
          s1.spriteSr i = { s.spriteSr i with chunk2 := data })) := by
  by_cases hi : i < 8
  swap
  · simp [sSecondAccess, hi] at h
  by_cases hdma : s.spriteDmaOnOff &&& (1 <<< i) = 0
  · cases hm : memAccess { s with isFirstDMAcycle := 0, isSecondDMAcycle := 1 <<< i } 0x3FFF with
    | none => simp [sSecondAccess, memIdleAccess, hi, hdma, hm] at h
    | some x =>
      obtain ⟨data, sm⟩ := x
      simp only [sSecondAccess, memIdleAccess, hi, if_true, hdma, bne_self_eq_false,
        Bool.false_eq_true, if_false, hm, Option.some.injEq] at h
      obtain ⟨hsm, _⟩ := memAccess_fields _ _ data sm hm
      have hm0 := memAccess_transfer
        { s with isFirstDMAcycle := 0, isSecondDMAcycle := 1 <<< i } s _ data sm rfl rfl hm
      subst h
      subst hsm
      exact ⟨hi, ⟨rfl, rfl, rfl, rfl⟩, rfl, rfl, rfl, fun j hj => setSr_other _ _ _ _ hj,
        Or.inl ⟨hdma, rfl, ⟨data, _, hm0, rfl⟩, rfl, setSr_same _ _ _⟩⟩
  cases hBA : d.BApulledDownForAtLeastThreeCycles
      { s with isFirstDMAcycle := 0, isSecondDMAcycle := 1 <<< i }
  · simp [sSecondAccess, hi, hdma, hBA] at h
  cases hm : memAccess { s with isFirstDMAcycle := 0, isSecondDMAcycle := 1 <<< i }
      (u16 (s.spritePtr i ||| s.mc i)) with
  | none => simp [sSecondAccess, hi, hdma, hBA, hm] at h
  | some x =>
    obtain ⟨data, sm⟩ := x
    simp only [sSecondAccess, hi, if_true, dma_test s i hdma, hBA, hm, Option.some.injEq] at h
    obtain ⟨hsm, _⟩ := memAccess_fields _ _ data sm hm
    have hm0 := memAccess_transfer
      { s with isFirstDMAcycle := 0, isSecondDMAcycle := 1 <<< i } s _ data sm rfl rfl hm
    subst h
    subst hsm
    exact ⟨hi, ⟨rfl, rfl, rfl, rfl⟩, rfl, rfl, rfl, fun j hj => setSr_other _ _ _ _ hj,
      Or.inr ⟨hdma, data, _, hm0, incMc_mc _ _, rfl, setSr_same _ _ _⟩⟩

/-- When `sSecondAccess` returns. -/
theorem sSecondAccess_isSome (d : VICDecls) (s : VIC) (i : Nat) (hi : i < 8)
    (h0 : s.spriteDmaOnOff &&& (1 <<< i) = 0 → (memAccess s 0x3FFF).isSome = true)
    (h : s.spriteDmaOnOff &&& (1 <<< i) ≠ 0 →
      d.BApulledDownForAtLeastThreeCycles
        { s with isFirstDMAcycle := 0, isSecondDMAcycle := 1 <<< i } = true ∧
      (memAccess s (u16 (s.spritePtr i ||| s.mc i))).isSome = true) :
    (sSecondAccess d s i).isSome = true := by
  unfold sSecondAccess
  rw [if_pos hi]
  by_cases hdma : s.spriteDmaOnOff &&& (1 <<< i) = 0
  · obtain ⟨x, hx⟩ := Option.isSome_iff_exists.1 (h0 hdma)
    obtain ⟨data, sm⟩ := x
    have hm1 := memAccess_transfer s
      { s with isFirstDMAcycle := 0, isSecondDMAcycle := 1 <<< i } _ data sm rfl rfl hx
    simp only [hdma, bne_self_eq_false, Bool.false_eq_true, if_false, memIdleAccess, hm1]
    rfl
  · obtain ⟨hBA, hsome⟩ := h hdma
    obtain ⟨x, hx⟩ := Option.isSome_iff_exists.1 hsome
    obtain ⟨data, sm⟩ := x
    have hm1 := memAccess_transfer s
      { s with isFirstDMAcycle := 0, isSecondDMAcycle := 1 <<< i } _ data sm rfl rfl hx
    simp only [dma_test s i hdma, if_true, hBA, hm1]
    rfl

/-- The result of `sThirdAccess`, read off a successful call. -/
theorem sThirdAccess_inv (d : VICDecls) (s s1 : VIC) (i : Nat)
    (h : sThirdAccess d s i = some s1) :
    i < 8 ∧ FetchFrame s s1 ∧ s1.vc = s.vc ∧ s1.vmli = s.vmli ∧ s1.spritePtr = s.spritePtr ∧
    (∀ j, j ≠ i → s1.spriteSr j = s.spriteSr j) ∧
    ((s.spriteDmaOnOff &&& (1 <<< i) = 0 ∧ s1.mc = s.mc ∧ s1.addrBus = s.addrBus ∧
        s1.dataBus = s.dataBus ∧ s1.spriteSr i = { s.spriteSr i with chunk3 := 0 }) ∨
      (s.spriteDmaOnOff &&& (1 <<< i) ≠ 0 ∧
        ∃ data sm, memAccess s (u16 (s.spritePtr i ||| s.mc i)) = some (data, sm) ∧
          s1.mc = setAt s.mc i ((s.mc i + 1) &&& 0x3F) ∧
          s1.addrBus = s.bankAddr ||| u16 (s.spritePtr i ||| s.mc i) ∧
          s1.spriteSr i = { s.spriteSr i with chunk3 := data })) := by
  by_cases hi : i < 8
  swap
  · simp [sThirdAccess, hi] at h
  by_cases hdma : s.spriteDmaOnOff &&& (1 <<< i) = 0
  · simp only [sThirdAccess, hi, if_true, hdma, bne_self_eq_false, Bool.false_eq_true,
      if_false, Option.some.injEq] at h
    subst h
    exact ⟨hi, ⟨rfl, rfl, rfl, rfl⟩, rfl, rfl, rfl, fun j hj => setSr_other _ _ _ _ hj,
      Or.inl ⟨hdma, rfl, rfl, rfl, setSr_same _ _ _⟩⟩
  cases hBA : d.BApulledDownForAtLeastThreeCycles s
  · simp [sThirdAccess, hi, hdma, hBA] at h
  cases hm : memAccess s (u16 (s.spritePtr i ||| s.mc i)) with
  | none => simp [sThirdAccess, hi, hdma, hBA, hm] at h
  | some x =>
    obtain ⟨data, sm⟩ := x
    simp only [sThirdAccess, hi, if_true, dma_test s i hdma, hBA, hm, Option.some.injEq] at h
    obtain ⟨hsm, _⟩ := memAccess_fields _ _ data sm hm
    subst h
    subst hsm
    exact ⟨hi, ⟨rfl, rfl, rfl, rfl⟩, rfl, rfl, rfl, fun j hj => setSr_other _ _ _ _ hj,
      Or.inr ⟨hdma, data, _, rfl, incMc_mc _ _, rfl, setSr_same _ _ _⟩⟩

/-- When `sThirdAccess` returns. -/
theorem sThirdAccess_isSome (d : VICDecls) (s : VIC) (i : Nat) (hi : i < 8)
    (h : s.spriteDmaOnOff &&& (1 <<< i) ≠ 0 →
      d.BApulledDownForAtLeastThreeCycles s = true ∧
      (memAccess s (u16 (s.spritePtr i ||| s.mc i))).isSome = true) :
    (sThirdAccess d s i).isSome = true := by
  unfold sThirdAccess
  rw [if_pos hi]
  by_cases hdma : s.spriteDmaOnOff &&& (1 <<< i) = 0
  · simp [hdma]
  · obtain ⟨hBA, hsome⟩ := h hdma
    obtain ⟨x, hx⟩ := Option.isSome_iff_exists.1 hsome
    obtain ⟨data, sm⟩ := x
    simp only [dma_test s i hdma, if_true, hBA, hx]
    rfl

/-! ## Counters and memory under the fetch operations -/

theorem pokeCtrl1_mc (d : VICDecls) (s : VIC) (v : Nat) :
    (pokeCtrl1Update d (pokeCtrl1Store d s v) v).mc = s.mc := by
  have h1 : ∀ t : VIC, (pokeCtrl1Update d t v).mc = t.mc := by
    intro t
    unfold pokeCtrl1Update
    dsimp only
    split_ifs <;> rfl
  have h2 : (pokeCtrl1Store d s v).mc = s.mc := by
    unfold pokeCtrl1Store
    dsimp only
    split_ifs <;> rfl
  rw [h1, h2]

/-- No case of the switch of `poke` touches the sprite data counters. -/
theorem pokeSwitch_mc (d : VICDecls) (s : VIC) (a v : Nat) :
    (pokeSwitch d s a v).1.mc = s.mc := by
  unfold pokeSwitch
  split
  all_goals try dsimp only
  all_goals try split_ifs
  all_goals first
    | rfl
    | exact pokeCtrl1_mc d s v

theorem poke_mc (d : VICDecls) (s s1 : VIC) (a v : Nat) (h : poke d s a v = some s1) :
    s1.mc = s.mc := by
  by_cases ha : a < 0x40
  · rw [poke_eq d s a v ha] at h
    simp only [Option.some.injEq] at h
    subst h
    have h1 := pokeSwitch_mc d s a v
    split_ifs
    · exact h1
    · exact h1
  · simp [poke, ha] at h

theorem peek_mc (s s1 : VIC) (a r : Nat) (h : peek s a = some (r, s1)) : s1.mc = s.mc := by
  by_cases ha : a ≤ 0x3F
  · obtain ⟨r1, hr⟩ := peek_eq s a ha
    rw [hr] at h
    simp only [Option.some.injEq, Prod.mk.injEq] at h
    rw [← h.2]
    unfold peekState
    split_ifs <;> rfl
  · simp [peek, ha] at h

/-- A call of `VIC_memory.cpp` leaves each sprite data counter alone or steps it by one
modulo 64. -/
theorem runOp_mc (d : VICDecls) (s s1 : VIC) (op : VICOp) (h : runOp d s op = some s1) (j : Nat) :
    s1.mc j = s.mc j ∨ s1.mc j = (s.mc j + 1) &&& 0x3F := by
  have hset : ∀ i, s1.mc = setAt s.mc i ((s.mc i + 1) &&& 0x3F) →
      s1.mc j = s.mc j ∨ s1.mc j = (s.mc j + 1) &&& 0x3F := by
    intro i hi
    rw [hi]
    by_cases hj : j = i
    · subst hj
      exact Or.inr (setAt_same _ _ _)
    · exact Or.inl (setAt_other _ _ _ _ hj)
  cases op with
  | peek a =>
    simp only [runOp, Option.map_eq_some', Prod.exists, exists_eq_right] at h
    obtain ⟨r, hr⟩ := h
    exact Or.inl (congrFun (peek_mc s s1 a r hr) j)
  | poke a v => exact Or.inl (congrFun (poke_mc d s s1 a v h) j)
  | memAccess a =>
    simp only [runOp, Option.map_eq_some', Prod.exists, exists_eq_right] at h
    obtain ⟨r, hr⟩ := h
    exact Or.inl (congrFun (memAccess_inv s a r s1 hr).2.2.2.1 j)
  | memIdleAccess =>
    simp only [runOp, memIdleAccess, Option.map_eq_some', Prod.exists, exists_eq_right] at h
    obtain ⟨r, hr⟩ := h
    exact Or.inl (congrFun (memAccess_inv s _ r s1 hr).2.2.2.1 j)
  | cAccess => exact Or.inl (congrFun (cAccess_inv d s s1 h).2.2.2.1 j)
  | gAccess =>
    obtain ⟨_, _, _, _, hmc, _⟩ := gAccess_inv d s s1 h
    exact Or.inl (congrFun hmc j)
  | pAccess i =>
    obtain ⟨_, _, _, _, _, _, _, hmc, _⟩ := pAccess_inv d s s1 i h
    exact Or.inl (congrFun hmc j)
  | sFirstAccess i =>
    obtain ⟨_, _, _, _, _, _, hcase⟩ := sFirstAccess_inv d s s1 i h
    rcases hcase with ⟨_, hmc, _⟩ | ⟨_, _, _, _, hmc, _⟩
    · exact Or.inl (congrFun hmc j)
    · exact hset i hmc
  | sSecondAccess i =>
    obtain ⟨_, _, _, _, _, _, hcase⟩ := sSecondAccess_inv d s s1 i h
    rcases hcase with ⟨_, hmc, _⟩ | ⟨_, _, _, _, hmc, _⟩
    · exact Or.inl (congrFun hmc j)
    · exact hset i hmc
  | sThirdAccess i =>
    obtain ⟨_, _, _, _, _, _, hcase⟩ := sThirdAccess_inv d s s1 i h
    rcases hcase with ⟨_, hmc, _⟩ | ⟨_, _, _, _, hmc, _⟩
    · exact Or.inl (congrFun hmc j)
    · exact hset i hmc
  | sFinalize i =>
    simp only [runOp, sFinalize] at h
    split_ifs at h
    simp only [Option.some.injEq] at h
    subst h
    exact Or.inl rfl

/-- A fetch operation leaves the machine behind `c64` alone, and `vc` and `vmli` too
unless it is a g-access in display state. -/
theorem runOp_fetch (d : VICDecls) (s s1 : VIC) (op : VICOp) (hf : op.isFetch = true)
    (h : runOp d s op = some s1) :
    s1.c64 = s.c64 ∧
    ((op = VICOp.gAccess → s.displayState = false) → s1.vc = s.vc ∧ s1.vmli = s.vmli) := by
  cases op with
  | peek a => simp [VICOp.isFetch] at hf
  | poke a v => simp [VICOp.isFetch] at hf
  | sFinalize i => simp [VICOp.isFetch] at hf
  | memAccess a =>
    simp only [runOp, Option.map_eq_some', Prod.exists, exists_eq_right] at h
    obtain ⟨r, hr⟩ := h
    obtain ⟨hfr, hvc, hvmli, _⟩ := memAccess_inv s a r s1 hr
    exact ⟨hfr.1, fun _ => ⟨hvc, hvmli⟩⟩
  | memIdleAccess =>
    simp only [runOp, memIdleAccess, Option.map_eq_some', Prod.exists, exists_eq_right] at h
    obtain ⟨r, hr⟩ := h
    obtain ⟨hfr, hvc, hvmli, _⟩ := memAccess_inv s _ r s1 hr
    exact ⟨hfr.1, fun _ => ⟨hvc, hvmli⟩⟩
  | cAccess =>
    obtain ⟨hfr, hvc, hvmli, _⟩ := cAccess_inv d s s1 h
    exact ⟨hfr.1, fun _ => ⟨hvc, hvmli⟩⟩
  | gAccess =>
    obtain ⟨_, _, _, hfr, _, _, _, _, hvc, hvmli⟩ := gAccess_inv d s s1 h
    refine ⟨hfr.1, fun hd => ?_⟩
    rw [hvc, hvmli, hd rfl]
    exact ⟨rfl, rfl⟩
  | pAccess i =>
    obtain ⟨_, _, _, _, hfr, hvc, hvmli, _⟩ := pAccess_inv d s s1 i h
    exact ⟨hfr.1, fun _ => ⟨hvc, hvmli⟩⟩
  | sFirstAccess i =>
    obtain ⟨_, hfr, hvc, hvmli, _⟩ := sFirstAccess_inv d s s1 i h
    exact ⟨hfr.1, fun _ => ⟨hvc, hvmli⟩⟩
  | sSecondAccess i =>
    obtain ⟨_, hfr, hvc, hvmli, _⟩ := sSecondAccess_inv d s s1 i h
    exact ⟨hfr.1, fun _ => ⟨hvc, hvmli⟩⟩
  | sThirdAccess i =>
    obtain ⟨_, hfr, hvc, hvmli, _⟩ := sThirdAccess_inv d s s1 i h
    exact ⟨hfr.1, fun _ => ⟨hvc, hvmli⟩⟩

theorem gAccess_isSome (d : VICDecls) (s : VIC) :
    (gAccess d s).isSome =
      (memAccess s (if s.displayState then gAccessDisplayAddr d s
        else gAccessIdleAddr d s)).isSome := by
  unfold gAccess
  cases hd : s.displayState
  · simp only [Bool.false_eq_true, if_false]
    cases hm : memAccess s (gAccessIdleAddr d s) with
    | none => rfl
    | some x => rfl
  · simp only [if_true]
    cases hm : memAccess s (gAccessDisplayAddr d s) with
    | none => rfl
    | some x => rfl

theorem runOps_fetch_range (d : VICDecls) (ops : List VICOp) :
    ∀ s s1 : VIC, (∀ op ∈ ops, op.isFetch = true) → runOps d s ops = some s1 →
      s.vc < 1024 → s.vmli < 64 → s1.vc < 1024 ∧ s1.vmli < 64 := by
  induction ops with
  | nil =>
    intro s s1 _ h hvc hvmli
    simp only [runOps, Option.some.injEq] at h
    subst h
    exact ⟨hvc, hvmli⟩
  | cons op ops ih =>
    intro s s1 hall h hvc hvmli
    cases hop : runOp d s op with
    | none => simp [runOps, hop] at h
    | some t =>
      simp only [runOps, hop] at h
      have hf : op.isFetch = true := hall op (List.mem_cons_self op ops)
      have ht : t.vc < 1024 ∧ t.vmli < 64 := by
        by_cases hg : op = VICOp.gAccess → s.displayState = false
        · obtain ⟨h1, h2⟩ := (runOp_fetch d s t op hf hop).2 hg
          rw [h1, h2]
          exact ⟨hvc, hvmli⟩
        · have hg1 : op = VICOp.gAccess := by
            by_contra hne
            exact hg (fun h0 => absurd h0 hne)
          subst hg1
          obtain ⟨_, _, _, _, _, _, _, _, h1, h2⟩ := gAccess_inv d s t hop
          rw [h1, h2]
          cases s.displayState
          · exact ⟨hvc, hvmli⟩
          · rw [if_pos rfl, if_pos rfl, and_0x3FF_eq_mod, and_0x3F_eq_mod]
            exact ⟨Nat.mod_lt _ (by decide), Nat.mod_lt _ (by decide)⟩
      exact ih t s1 (fun o ho => hall o (List.mem_cons_of_mem op ho)) h ht.1 ht.2

/-- C12: a g-access in display state sets `vc` to `(vc + 1) mod 1024` and `vmli` to
`(vmli + 1) mod 64` (and returns exactly when its `memAccess` does); every other fetch
operation - a g-access in idle state, `cAccess`, `pAccess`, the three sprite data accesses,
`memAccess` and `memIdleAccess` - leaves both unchanged; so `vc < 1024` and `vmli < 64` are
kept by every fetch operation and by every sequence of them. -/
theorem vc_vmli_fetch (d : VICDecls) (s : VIC) :
    (∀ s1, gAccess d s = some s1 → s.displayState = true →
      s1.vc = (s.vc + 1) % 1024 ∧ s1.vmli = (s.vmli + 1) % 64) ∧
    (s.displayState = true →
      (gAccess d s).isSome = (memAccess s (gAccessDisplayAddr d s)).isSome) ∧
    (∀ op s1, op.isFetch = true → runOp d s op = some s1 →
      (op = VICOp.gAccess → s.displayState = false) → s1.vc = s.vc ∧ s1.vmli = s.vmli) ∧
    (∀ op s1, op.isFetch = true → runOp d s op = some s1 →
      s.vc < 1024 → s.vmli < 64 → s1.vc < 1024 ∧ s1.vmli < 64) ∧
    (∀ ops s1, (∀ op ∈ ops, op.isFetch = true) → runOps d s ops = some s1 →
      s.vc < 1024 → s.vmli < 64 → s1.vc < 1024 ∧ s1.vmli < 64) := by
  refine ⟨?_, ?_, ?_, ?_, ?_⟩
  · intro s1 h hd
    obtain ⟨_, _, _, _, _, _, _, _, h1, h2⟩ := gAccess_inv d s s1 h
    rw [h1, h2, hd, if_pos rfl, if_pos rfl, and_0x3FF_eq_mod, and_0x3F_eq_mod]
    exact ⟨rfl, rfl⟩
  · intro hd
    rw [gAccess_isSome, hd, if_pos rfl]
  · intro op s1 hf h
    exact (runOp_fetch d s s1 op hf h).2
  · intro op s1 hf h hvc hvmli
    have hrun : runOps d s [op] = some s1 := by simp [runOps, h]
    exact runOps_fetch_range d [op] s s1 (by simpa using hf) hrun hvc hvmli
  · intro ops s1
    exact runOps_fetch_range d ops s s1

theorem runOps_mc_range (d : VICDecls) (ops : List VICOp) :
    ∀ s s1 : VIC, runOps d s ops = some s1 → (∀ i, i < 8 → s.mc i < 64) →
      ∀ i, i < 8 → s1.mc i < 64 := by
  induction ops with
  | nil =>
    intro s s1 h hinv
    simp only [runOps, Option.some.injEq] at h
    subst h
    exact hinv
  | cons op ops ih =>
    intro s s1 h hinv
    cases hop : runOp d s op with
    | none => simp [runOps, hop] at h
    | some t =>
      simp only [runOps, hop] at h
      refine ih t s1 h (fun i hi => ?_)
      rcases runOp_mc d s t op hop i with h1 | h1
      · rw [h1]
        exact hinv i hi
      · rw [h1, and_0x3F_eq_mod]
        exact Nat.mod_lt _ (by decide)

/-- C16: `mc[i] < 64` for every sprite `i` is kept by every call of `peek`, `poke`,
`cAccess`, `gAccess`, `pAccess`, `sFirstAccess`, `sSecondAccess`, `sThirdAccess` and
`sFinalize` (and of `memAccess` and `memIdleAccess`), hence by every sequence of calls;
a sprite data access for sprite `i` leaves `mc[j]` alone for `j ≠ i`, and `mc[i]` too when
the DMA bit of sprite `i` is clear. -/
theorem mc_in_range (d : VICDecls) (s : VIC) :
    (∀ op s1, runOp d s op = some s1 → (∀ i, i < 8 → s.mc i < 64) →
      ∀ i, i < 8 → s1.mc i < 64) ∧
    (∀ ops s1, runOps d s ops = some s1 → (∀ i, i < 8 → s.mc i < 64) →
      ∀ i, i < 8 → s1.mc i < 64) ∧
    (∀ i j s1, (sFirstAccess d s i = some s1 ∨ sSecondAccess d s i = some s1 ∨
        sThirdAccess d s i = some s1) → j ≠ i → s1.mc j = s.mc j) ∧
    (∀ i s1, (sFirstAccess d s i = some s1 ∨ sSecondAccess d s i = some s1 ∨
        sThirdAccess d s i = some s1) → s.spriteDmaOnOff &&& (1 <<< i) = 0 →
      s1.mc = s.mc) := by
  have hcases : ∀ i s1, (sFirstAccess d s i = some s1 ∨ sSecondAccess d s i = some s1 ∨
      sThirdAccess d s i = some s1) →
      (s.spriteDmaOnOff &&& (1 <<< i) = 0 ∧ s1.mc = s.mc) ∨
      (s.spriteDmaOnOff &&& (1 <<< i) ≠ 0 ∧ s1.mc = setAt s.mc i ((s.mc i + 1) &&& 0x3F)) := by
    intro i s1 h
    rcases h with h | h | h
    · obtain ⟨_, _, _, _, _, _, hc⟩ := sFirstAccess_inv d s s1 i h
      rcases hc with ⟨h0, hmc, _⟩ | ⟨h0, _, _, _, hmc, _⟩
      · exact Or.inl ⟨h0, hmc⟩
      · exact Or.inr ⟨h0, hmc⟩
    · obtain ⟨_, _, _, _, _, _, hc⟩ := sSecondAccess_inv d s s1 i h
      rcases hc with ⟨h0, hmc, _⟩ | ⟨h0, _, _, _, hmc, _⟩
      · exact Or.inl ⟨h0, hmc⟩
      · exact Or.inr ⟨h0, hmc⟩
    · obtain ⟨_, _, _, _, _, _, hc⟩ := sThirdAccess_inv d s s1 i h
      rcases hc with ⟨h0, hmc, _⟩ | ⟨h0, _, _, _, hmc, _⟩
      · exact Or.inl ⟨h0, hmc⟩
      · exact Or.inr ⟨h0, hmc⟩
  refine ⟨?_, ?_, ?_, ?_⟩
  · intro op s1 h
    have hrun : runOps d s [op] = some s1 := by simp [runOps, h]
    exact runOps_mc_range d [op] s s1 hrun
  · intro ops s1
    exact runOps_mc_range d ops s s1
  · intro i j s1 h hj
    rcases hcases i s1 h with ⟨_, hmc⟩ | ⟨_, hmc⟩
    · rw [hmc]
    · rw [hmc]
      exact setAt_other _ _ _ _ hj
  · intro i s1 h h0
    rcases hcases i s1 h with ⟨_, hmc⟩ | ⟨h1, _⟩
    · exact hmc
    · exact absurd h0 h1

/-- C18: no fetch operation writes to memory: after `memAccess`, `memIdleAccess`,
`cAccess`, `gAccess`, `pAccess`, `sFirstAccess`, `sSecondAccess` or `sThirdAccess` the
contents of RAM, ROM and colour RAM are what they were. -/
theorem fetch_leaves_memory (d : VICDecls) (s s1 : VIC) (op : VICOp)
    (hf : op.isFetch = true) (h : runOp d s op = some s1) :
    s1.c64.mem.ram = s.c64.mem.ram ∧ s1.c64.mem.rom = s.c64.mem.rom ∧
    s1.c64.mem.colorRam = s.c64.mem.colorRam := by
  rw [(runOp_fetch d s s1 op hf h).1]
  exact ⟨rfl, rfl, rfl⟩

/-- Witness for C18: a g-access in display state reads the character generator and
returns; RAM is as before. -/
theorem fetch_leaves_memory_witness :
    ∃ s1, runOp sampleDecls displayTextState VICOp.gAccess = some s1 ∧
      s1.vc = 0 ∧ s1.c64.mem.ram = displayTextState.c64.mem.ram := by
  have hsome : (runOp sampleDecls displayTextState VICOp.gAccess).isSome = true := by decide
  obtain ⟨s1, hs1⟩ := Option.isSome_iff_exists.1 hsome
  obtain ⟨_, _, _, _, _, _, _, _, hvc, _⟩ := gAccess_inv sampleDecls displayTextState s1 hs1
  exact ⟨s1, hs1, hvc.trans (by decide),
    (fetch_leaves_memory sampleDecls displayTextState s1 VICOp.gAccess rfl hs1).1⟩

/-! ## The address of a g-access -/

theorem testBit_0xF9FF (k : Nat) :
    Nat.testBit 0xF9FF k = (decide (k < 16) && !decide (k = 9) && !decide (k = 10)) := by
  have h : (0xF9FF : Nat) = (2 ^ 16 - 1) ^^^ (2 ^ 9 ||| 2 ^ 10) := rfl
  rw [h, Nat.testBit_xor, Nat.testBit_two_pow_sub_one, Nat.testBit_or, Nat.testBit_two_pow,
    Nat.testBit_two_pow]
  by_cases h1 : k < 16 <;> by_cases h2 : k = 9 <;> by_cases h3 : k = 10 <;>
    simp [h1, h2, h3, eq_comm]

theorem testBit_u16 (x k : Nat) : (u16 x).testBit k = (decide (k < 16) && x.testBit k) := by
  have h : u16 x = x % 2 ^ 16 := rfl
  rw [h, Nat.testBit_mod_two_pow]

/-- C11: a g-access puts `bankAddr | addr` on the address bus, where `addr` is `0x3FFF`
(ECM clear) or `0x39FF` (ECM set) in idle state and, in display state, the 16 bit value of
`(CB13 << 10) | (vc << 3) | rc` (BMM set) or of
`(CB13CB12CB11 << 10) | (videoMatrix[vmli] << 3) | rc` (BMM clear), with bits 9 and 10
cleared and every other bit kept when ECM is set; the access returns exactly when
`memAccess(addr)` does. -/
theorem gAccess_address (d : VICDecls) (s : VIC) :
    (∀ s1, gAccess d s = some s1 →
      s1.addrBus = s.bankAddr |||
        (if s.displayState then gAccessDisplayAddr d s else gAccessIdleAddr d s)) ∧
    (gAccess d s).isSome =
      (memAccess s (if s.displayState then gAccessDisplayAddr d s
        else gAccessIdleAddr d s)).isSome ∧
    gAccessIdleAddr d s = (if d.ECMbit s then 0x39FF else 0x3FFF) ∧
    (d.ECMbit s = false → gAccessDisplayAddr d s = u16 (gAccessRawAddr d s)) ∧
    (d.ECMbit s = true → ∀ k, (gAccessDisplayAddr d s).testBit k =
      ((u16 (gAccessRawAddr d s)).testBit k && !decide (k = 9) && !decide (k = 10))) ∧
    (gAccessRawAddr d s < 0x10000 → u16 (gAccessRawAddr d s) = gAccessRawAddr d s) := by
  have hraw : (if d.BMMbit s = true then u16 ((d.CB13 s <<< 10) ||| (s.vc <<< 3) ||| s.rc)
      else u16 ((d.CB13CB12CB11 s <<< 10) ||| (s.videoMatrix s.vmli <<< 3) ||| s.rc)) =
      u16 (gAccessRawAddr d s) := by
    unfold gAccessRawAddr
    split_ifs <;> rfl
  refine ⟨?_, gAccess_isSome d s, rfl, ?_, ?_, fun h => Nat.mod_eq_of_lt h⟩
  · intro s1 h
    obtain ⟨data, sm, hm, _, _, _, hbus, _⟩ := gAccess_inv d s s1 h
    rw [hbus]
    exact (memAccess_inv s _ data sm hm).2.2.2.2.2.2.1
  · intro he
    unfold gAccessDisplayAddr
    simp only [he, Bool.false_eq_true, if_false]
    exact hraw
  · intro he k
    unfold gAccessDisplayAddr
    simp only [he, if_true]
    rw [hraw, Nat.testBit_and, testBit_0xF9FF, testBit_u16]
    by_cases h16 : k < 16
    · simp [h16, Bool.and_assoc]
    · simp [h16]

/-! ## Sprite pointer and sprite data accesses -/

theorem shiftLeft_6_byte (data : Nat) (hb : data < 256) :
    data <<< 6 % 64 = 0 ∧ data <<< 6 ≤ 0x3FC0 := by
  rw [Nat.shiftLeft_eq]
  constructor
  · exact Nat.mul_mod_left data 64
  · have h : data * 64 ≤ 255 * 64 := Nat.mul_le_mul_right 64 (by omega)
    exact h

/-- C13: for a sprite number `i < 8`, `pAccess(i)` sets `spritePtr[i]` to the byte read by
`memAccess((VM13VM12VM11VM10() << 6) | 0x03F8 | i)` shifted left by 6, a multiple of 64
that is at most `0x3FC0`; the other sprite pointers are unchanged. -/
theorem pAccess_pointer (d : VICDecls) (s : VIC) (i data : Nat) (sm : VIC) (hi : i < 8)
    (hm : memAccess s (u16 ((d.VM13VM12VM11VM10 s <<< 6) ||| 0x03F8 ||| i)) = some (data, sm))
    (hb : data < 256) :
    ∃ s1, pAccess d s i = some s1 ∧
      s1.spritePtr i = data <<< 6 ∧
      s1.spritePtr i % 64 = 0 ∧ s1.spritePtr i ≤ 0x3FC0 ∧
      ∀ j, j ≠ i → s1.spritePtr j = s.spritePtr j := by
  have hsome : ∃ s1, pAccess d s i = some s1 := by
    unfold pAccess
    rw [if_pos hi, hm]
    exact ⟨_, rfl⟩
  obtain ⟨s1, hs1⟩ := hsome
  obtain ⟨_, data1, sm1, hm1, _, _, _, _, hptr⟩ := pAccess_inv d s s1 i hs1
  rw [hm] at hm1
  simp only [Option.some.injEq, Prod.mk.injEq] at hm1
  obtain ⟨hd, _⟩ := hm1
  subst hd
  have hval : s1.spritePtr i = data <<< 6 := by rw [hptr, setAt_same]
  refine ⟨s1, hs1, hval, ?_, ?_, ?_⟩
  · rw [hval]
    exact (shiftLeft_6_byte data hb).1
  · rw [hval]
    exact (shiftLeft_6_byte data hb).2
  · intro j hj
    rw [hptr, setAt_other _ _ _ _ hj]

/-- Witness for C13: the pointer byte `$0D` of sprite 2 gives the data address `$0340`. -/
theorem pAccess_pointer_witness :
    (2 : Nat) < 8 ∧ (0x0D : Nat) < 256 ∧
    ∃ s1, pAccess sampleDecls spritePointerState 2 = some s1 ∧ s1.spritePtr 2 = 0x0340 :=
  ⟨by decide, by decide, by
    obtain ⟨s1, h1, h2, _⟩ := pAccess_pointer sampleDecls spritePointerState 2 0x0D
      { spritePointerState with addrBus := 0x07FA, dataBus := 0x0D } (by decide) rfl (by decide)
    exact ⟨s1, h1, h2.trans (by decide)⟩⟩

theorem sAccess_addr_ok (p m : Nat) (hp : p < 0x4000) (hm : m < 64) :
    u16 (p ||| m) &&& 0xC000 = 0 := by
  have h1 : p ||| m < 2 ^ 14 :=
    Nat.or_lt_two_pow hp (Nat.lt_trans (show m < 2 ^ 6 from hm) (by decide))
  have h2 : u16 (p ||| m) = p ||| m := Nat.mod_eq_of_lt (Nat.lt_trans h1 (by decide))
  rw [h2]
  exact and_0xC000_of_lt _ h1

theorem memAccess_fst (s : VIC) (addr data : Nat) (sm : VIC)
    (h : memAccess s addr = some (data, sm)) :
    (memAccess s addr).map Prod.fst = some data := by
  rw [h]
  rfl

/-- The first data access of a sprite with DMA, BA being low in the state of the call. -/
theorem sFirstAccess_dma (d : VICDecls) (t : VIC) (i : Nat) (hi : i < 8)
    (hdma : t.spriteDmaOnOff &&& (1 <<< i) ≠ 0)
    (hBA : d.BApulledDownForAtLeastThreeCycles { t with isFirstDMAcycle := 1 <<< i } = true)
    (hbank : t.bankAddr &&& 0x3FFF = 0) (hptr : t.spritePtr i < 0x4000) (hmc : t.mc i < 64) :
    ∃ data sm t1, memAccess t (u16 (t.spritePtr i ||| t.mc i)) = some (data, sm) ∧
      sFirstAccess d t i = some t1 ∧ t1.spriteSr i = { t.spriteSr i with chunk1 := data } ∧
      t1.mc = setAt t.mc i ((t.mc i + 1) &&& 0x3F) ∧ FetchFrame t t1 ∧
      t1.spritePtr = t.spritePtr := by
  have hok : (memAccess t (u16 (t.spritePtr i ||| t.mc i))).isSome = true :=
    (memAccess_isSome t _).2 ⟨sAccess_addr_ok _ _ hptr hmc, hbank⟩
  obtain ⟨x, hx⟩ := Option.isSome_iff_exists.1 hok
  obtain ⟨data, sm⟩ := x
  obtain ⟨t1, ht1⟩ := Option.isSome_iff_exists.1
    (sFirstAccess_isSome d t i hi (fun _ => ⟨hBA, hok⟩))
  obtain ⟨_, hfr, _, _, hp, _, hc⟩ := sFirstAccess_inv d t t1 i ht1
  rcases hc with ⟨h0, _⟩ | ⟨_, data1, sm1, hm1, hmc1, _, hsr⟩
  · exact absurd h0 hdma
  · rw [hx] at hm1
    simp only [Option.some.injEq, Prod.mk.injEq] at hm1
    rw [← hm1.1] at hsr
    exact ⟨data, sm, t1, hx, ht1, hsr, hmc1, hfr, hp⟩

/-- The second data access of a sprite with DMA, BA being low in the state of the call. -/
theorem sSecondAccess_dma (d : VICDecls) (t : VIC) (i : Nat) (hi : i < 8)
    (hdma : t.spriteDmaOnOff &&& (1 <<< i) ≠ 0)
    (hBA : d.BApulledDownForAtLeastThreeCycles
      { t with isFirstDMAcycle := 0, isSecondDMAcycle := 1 <<< i } = true)
    (hbank : t.bankAddr &&& 0x3FFF = 0) (hptr : t.spritePtr i < 0x4000) (hmc : t.mc i < 64) :
    ∃ data sm t1, memAccess t (u16 (t.spritePtr i ||| t.mc i)) = some (data, sm) ∧
      sSecondAccess d t i = some t1 ∧ t1.spriteSr i = { t.spriteSr i with chunk2 := data } ∧
      t1.mc = setAt t.mc i ((t.mc i + 1) &&& 0x3F) ∧ FetchFrame t t1 ∧
      t1.spritePtr = t.spritePtr := by
  have hok : (memAccess t (u16 (t.spritePtr i ||| t.mc i))).isSome = true :=
    (memAccess_isSome t _).2 ⟨sAccess_addr_ok _ _ hptr hmc, hbank⟩
  obtain ⟨x, hx⟩ := Option.isSome_iff_exists.1 hok
  obtain ⟨data, sm⟩ := x
  obtain ⟨t1, ht1⟩ := Option.isSome_iff_exists.1
    (sSecondAccess_isSome d t i hi (fun h0 => absurd h0 hdma) (fun _ => ⟨hBA, hok⟩))
  obtain ⟨_, hfr, _, _, hp, _, hc⟩ := sSecondAccess_inv d t t1 i ht1
  rcases hc with ⟨h0, _⟩ | ⟨_, data1, sm1, hm1, hmc1, _, hsr⟩
  · exact absurd h0 hdma
  · rw [hx] at hm1
    simp only [Option.some.injEq, Prod.mk.injEq] at hm1
    rw [← hm1.1] at hsr
    exact ⟨data, sm, t1, hx, ht1, hsr, hmc1, hfr, hp⟩

/-- The third data access of a sprite with DMA, BA being low in the state of the call. -/
theorem sThirdAccess_dma (d : VICDecls) (t : VIC) (i : Nat) (hi : i < 8)
    (hdma : t.spriteDmaOnOff &&& (1 <<< i) ≠ 0)
    (hBA : d.BApulledDownForAtLeastThreeCycles t = true)
    (hbank : t.bankAddr &&& 0x3FFF = 0) (hptr : t.spritePtr i < 0x4000) (hmc : t.mc i < 64) :
    ∃ data sm t1, memAccess t (u16 (t.spritePtr i ||| t.mc i)) = some (data, sm) ∧
      sThirdAccess d t i = some t1 ∧ t1.spriteSr i = { t.spriteSr i with chunk3 := data } ∧
      t1.mc = setAt t.mc i ((t.mc i + 1) &&& 0x3F) ∧ FetchFrame t t1 ∧
      t1.spritePtr = t.spritePtr := by
  have hok : (memAccess t (u16 (t.spritePtr i ||| t.mc i))).isSome = true :=
    (memAccess_isSome t _).2 ⟨sAccess_addr_ok _ _ hptr hmc, hbank⟩
  obtain ⟨x, hx⟩ := Option.isSome_iff_exists.1 hok
  obtain ⟨data, sm⟩ := x
  obtain ⟨t1, ht1⟩ := Option.isSome_iff_exists.1
    (sThirdAccess_isSome d t i hi (fun _ => ⟨hBA, hok⟩))
  obtain ⟨_, hfr, _, _, hp, _, hc⟩ := sThirdAccess_inv d t t1 i ht1
  rcases hc with ⟨h0, _⟩ | ⟨_, data1, sm1, hm1, hmc1, _, hsr⟩
  · exact absurd h0 hdma
  · rw [hx] at hm1
    simp only [Option.some.injEq, Prod.mk.injEq] at hm1
    rw [← hm1.1] at hsr
    exact ⟨data, sm, t1, hx, ht1, hsr, hmc1, hfr, hp⟩

/-- The data accesses of a sprite do not touch the bad line flag. -/
theorem sFirstAccess_badLine (d : VICDecls) (s s1 : VIC) (i : Nat)
    (h : sFirstAccess d s i = some s1) : s1.badLine = s.badLine := by
  by_cases hi : i < 8
  swap
  · simp [sFirstAccess, hi] at h
  by_cases hdma : s.spriteDmaOnOff &&& (1 <<< i) = 0
  · simp only [sFirstAccess, hi, if_true, hdma, bne_self_eq_false, Bool.false_eq_true,
      if_false, Option.some.injEq] at h
    subst h
    rfl
  cases hBA : d.BApulledDownForAtLeastThreeCycles { s with isFirstDMAcycle := 1 <<< i }
  · simp [sFirstAccess, hi, hdma, hBA] at h
  cases hm : memAccess { s with isFirstDMAcycle := 1 <<< i }
      (u16 (s.spritePtr i ||| s.mc i)) with
  | none => simp [sFirstAccess, hi, hdma, hBA, hm] at h
  | some x =>
    obtain ⟨data, sm⟩ := x
    simp only [sFirstAccess, hi, if_true, dma_test s i hdma, hBA, hm, Option.some.injEq] at h
    obtain ⟨hsm, _⟩ := memAccess_fields _ _ data sm hm
    subst h
    subst hsm
    rfl

theorem sSecondAccess_badLine (d : VICDecls) (s s1 : VIC) (i : Nat)
    (h : sSecondAccess d s i = some s1) : s1.badLine = s.badLine := by
  by_cases hi : i < 8
  swap
  · simp [sSecondAccess, hi] at h
  by_cases hdma : s.spriteDmaOnOff &&& (1 <<< i) = 0
  · cases hm : memAccess { s with isFirstDMAcycle := 0, isSecondDMAcycle := 1 <<< i } 0x3FFF with
    | none => simp [sSecondAccess, memIdleAccess, hi, hdma, hm] at h
    | some x =>
      obtain ⟨data, sm⟩ := x
      simp only [sSecondAccess, memIdleAccess, hi, if_true, hdma, bne_self_eq_false,
        Bool.false_eq_true, if_false, hm, Option.some.injEq] at h
      obtain ⟨hsm, _⟩ := memAccess_fields _ _ data sm hm
      subst h
      subst hsm
      rfl
  cases hBA : d.BApulledDownForAtLeastThreeCycles
      { s with isFirstDMAcycle := 0, isSecondDMAcycle := 1 <<< i }
  · simp [sSecondAccess, hi, hdma, hBA] at h
  cases hm : memAccess { s with isFirstDMAcycle := 0, isSecondDMAcycle := 1 <<< i }
      (u16 (s.spritePtr i ||| s.mc i)) with
  | none => simp [sSecondAccess, hi, hdma, hBA, hm] at h
  | some x =>
    obtain ⟨data, sm⟩ := x
    simp only [sSecondAccess, hi, if_true, dma_test s i hdma, hBA, hm, Option.some.injEq] at h
    obtain ⟨hsm, _⟩ := memAccess_fields _ _ data sm hm
    subst h
    subst hsm
    rfl

theorem mc_step (m : Nat) : (m + 1) &&& 0x3F = (m + 1) % 64 ∧ (m + 1) % 64 < 64 ∧
    ((m + 1) % 64 + 1) % 64 = (m + 2) % 64 ∧ ((m + 2) % 64 + 1) % 64 = (m + 3) % 64 := by
  refine ⟨and_0x3F_eq_mod _, Nat.mod_lt _ (by decide), ?_, ?_⟩ <;> omega

/-- C14: for a sprite `i < 8` with its DMA bit set and a 14 bit data address, each of
`sFirstAccess(i)`, `sSecondAccess(i)` and `sThirdAccess(i)`, called in a state in which
`BApulledDownForAtLeastThreeCycles()` holds at its assertion, stores the byte
`memAccess(spritePtr[i] | mc[i])` in `chunk1`, `chunk2` and `chunk3` respectively and then
sets `mc[i]` to `(mc[i] + 1) mod 64`; the three accesses in a row, BA being low at the
assertion of each of the three calls, read at the counter values `mc[i]`, `mc[i] + 1` and
`mc[i] + 2` (modulo 64) and leave `mc[i]` advanced by 3 modulo 64.  BA is asked for only
in the states the three calls pass to the helper: after `isFirstDMAcycle` is set in the
first access, after `isFirstDMAcycle` and `isSecondDMAcycle` are set in the second, and
in the state of the call in the third. -/
theorem sAccess_dma_reads (d : VICDecls) (s : VIC) (i : Nat) (hi : i < 8)
    (hdma : s.spriteDmaOnOff &&& (1 <<< i) ≠ 0)
    (hbank : s.bankAddr &&& 0x3FFF = 0) (hptr : s.spritePtr i < 0x4000) (hmc : s.mc i < 64) :
    (d.BApulledDownForAtLeastThreeCycles { s with isFirstDMAcycle := 1 <<< i } = true →
      ∃ s1, sFirstAccess d s i = some s1 ∧
        (memAccess s (u16 (s.spritePtr i ||| s.mc i))).map Prod.fst =
          some (s1.spriteSr i).chunk1 ∧
        s1.mc i = (s.mc i + 1) % 64) ∧
    (d.BApulledDownForAtLeastThreeCycles
        { s with isFirstDMAcycle := 0, isSecondDMAcycle := 1 <<< i } = true →
      ∃ s1, sSecondAccess d s i = some s1 ∧
        (memAccess s (u16 (s.spritePtr i ||| s.mc i))).map Prod.fst =
          some (s1.spriteSr i).chunk2 ∧
        s1.mc i = (s.mc i + 1) % 64) ∧
    (d.BApulledDownForAtLeastThreeCycles s = true →
      ∃ s1, sThirdAccess d s i = some s1 ∧
        (memAccess s (u16 (s.spritePtr i ||| s.mc i))).map Prod.fst =
          some (s1.spriteSr i).chunk3 ∧
        s1.mc i = (s.mc i + 1) % 64) ∧
    (d.BApulledDownForAtLeastThreeCycles { s with isFirstDMAcycle := 1 <<< i } = true →
      (∀ s1, sFirstAccess d s i = some s1 →
        d.BApulledDownForAtLeastThreeCycles
          { s1 with isFirstDMAcycle := 0, isSecondDMAcycle := 1 <<< i } = true) →
      (∀ s1 s2, sFirstAccess d s i = some s1 → sSecondAccess d s1 i = some s2 →
        d.BApulledDownForAtLeastThreeCycles s2 = true) →
      ∃ s1 s2 s3, sFirstAccess d s i = some s1 ∧ sSecondAccess d s1 i = some s2 ∧
        sThirdAccess d s2 i = some s3 ∧
        (memAccess s (u16 (s.spritePtr i ||| s.mc i))).map Prod.fst =
          some (s3.spriteSr i).chunk1 ∧
        (memAccess s (u16 (s.spritePtr i ||| (s.mc i + 1) % 64))).map Prod.fst =
          some (s3.spriteSr i).chunk2 ∧
        (memAccess s (u16 (s.spritePtr i ||| (s.mc i + 2) % 64))).map Prod.fst =
          some (s3.spriteSr i).chunk3 ∧
        s3.mc i = (s.mc i + 3) % 64) := by
  have hstep := mc_step (s.mc i)
  have hmcv : ∀ a : VIC, a.mc = setAt s.mc i ((s.mc i + 1) &&& 0x3F) →
      a.mc i = (s.mc i + 1) % 64 := by
    intro a ha
    rw [ha, setAt_same, hstep.1]
  refine ⟨?_, ?_, ?_, ?_⟩
  · intro hBA
    obtain ⟨data, sm, a1, hm, ha1, hsr1, hmc1, _, _⟩ :=
      sFirstAccess_dma d s i hi hdma hBA hbank hptr hmc
    exact ⟨a1, ha1, by rw [memAccess_fst s _ data sm hm, hsr1], hmcv a1 hmc1⟩
  · intro hBA
    obtain ⟨data, sm, a1, hm, ha1, hsr1, hmc1, _, _⟩ :=
      sSecondAccess_dma d s i hi hdma hBA hbank hptr hmc
    exact ⟨a1, ha1, by rw [memAccess_fst s _ data sm hm, hsr1], hmcv a1 hmc1⟩
  · intro hBA
    obtain ⟨data, sm, a1, hm, ha1, hsr1, hmc1, _, _⟩ :=
      sThirdAccess_dma d s i hi hdma hBA hbank hptr hmc
    exact ⟨a1, ha1, by rw [memAccess_fst s _ data sm hm, hsr1], hmcv a1 hmc1⟩
  · intro hBA1 hBA2 hBA3
    obtain ⟨data, sm, a1, hm, ha1, hsr1, hmc1, hfr1, hp1⟩ :=
      sFirstAccess_dma d s i hi hdma hBA1 hbank hptr hmc
    have hfst := memAccess_fst s _ data sm hm
    obtain ⟨hc1, hb1, hd1, _⟩ := hfr1
    have hm1v : a1.mc i = (s.mc i + 1) % 64 := hmcv a1 hmc1
    obtain ⟨data2, sm2, b2, hm2, hb2, hbsr2, hbmc2, hfr2, hp2⟩ :=
      sSecondAccess_dma d a1 i hi (by rw [hd1]; exact hdma) (hBA2 a1 ha1)
        (by rw [hb1]; exact hbank) (by rw [hp1]; exact hptr) (by rw [hm1v]; exact hstep.2.1)
    obtain ⟨hc2, hbk2, hd2, _⟩ := hfr2
    have hm2v : b2.mc i = (s.mc i + 2) % 64 := by
      rw [hbmc2, setAt_same, and_0x3F_eq_mod, hm1v, hstep.2.2.1]
    obtain ⟨data3, sm3, c3, hm3, hc3, hcsr3, hcmc3, _, _⟩ :=
      sThirdAccess_dma d b2 i hi (by rw [hd2, hd1]; exact hdma) (hBA3 a1 b2 ha1 hb2)
        (by rw [hbk2, hb1]; exact hbank) (by rw [hp2, hp1]; exact hptr)
        (by rw [hm2v]; exact Nat.mod_lt _ (by decide))
    have hm3v : c3.mc i = (s.mc i + 3) % 64 := by
      rw [hcmc3, setAt_same, and_0x3F_eq_mod, hm2v, hstep.2.2.2]
    have hr2 := memAccess_transfer a1 s _ data2 sm2 hc1.symm hb1.symm hm2
    rw [hp1, hm1v] at hr2
    have hr3 := memAccess_transfer b2 s _ data3 sm3 (hc1.symm.trans hc2.symm)
      (hb1.symm.trans hbk2.symm) hm3
    rw [hp2, hp1, hm2v] at hr3
    refine ⟨a1, b2, c3, ha1, hb2, hc3, ?_, ?_, ?_, hm3v⟩
    · rw [hfst, hcsr3, hbsr2, hsr1]
    · rw [memAccess_fst s _ data2 _ hr2, hcsr3, hbsr2]
    · rw [memAccess_fst s _ data3 _ hr3, hcsr3]

/-- Witness for C14: sprite 2 has DMA, its data pointer is `$0340` and its counter 63;
the helper `BApulledDownForAtLeastThreeCycles` of the sample instance reads the bad line
flag of the state it is called in, which is set.  Each access alone reads `$037F` and
leaves the counter at 0; the three accesses in a row read `$037F`, `$0340` and `$0341`
(the counter wraps) and leave the counter at 2. -/
theorem sAccess_dma_reads_witness :
    spriteDmaState.spriteDmaOnOff &&& (1 <<< 2) ≠ 0 ∧
    sampleDecls.BApulledDownForAtLeastThreeCycles spriteDmaState = true ∧
    sampleDecls.BApulledDownForAtLeastThreeCycles { spriteDmaState with badLine := false }
      = false ∧
    (∃ s1, sFirstAccess sampleDecls spriteDmaState 2 = some s1 ∧
      (s1.spriteSr 2).chunk1 = 0x7F ∧ s1.mc 2 = 0) ∧
    (∃ s1, sSecondAccess sampleDecls spriteDmaState 2 = some s1 ∧
      (s1.spriteSr 2).chunk2 = 0x7F ∧ s1.mc 2 = 0) ∧
    (∃ s1, sThirdAccess sampleDecls spriteDmaState 2 = some s1 ∧
      (s1.spriteSr 2).chunk3 = 0x7F ∧ s1.mc 2 = 0) ∧
    ∃ s1 s2 s3, sFirstAccess sampleDecls spriteDmaState 2 = some s1 ∧
      sSecondAccess sampleDecls s1 2 = some s2 ∧ sThirdAccess sampleDecls s2 2 = some s3 ∧
      (s3.spriteSr 2).chunk1 = 0x7F ∧ (s3.spriteSr 2).chunk2 = 0x40 ∧
      (s3.spriteSr 2).chunk3 = 0x41 ∧ s3.mc 2 = 2 := by
  obtain ⟨hf, hs, ht, hall⟩ :=
    sAccess_dma_reads sampleDecls spriteDmaState 2 (by decide) (by decide)
      (by decide) (by decide) (by decide)
  have e1 : (memAccess spriteDmaState
      (u16 (spriteDmaState.spritePtr 2 ||| spriteDmaState.mc 2))).map
      Prod.fst = some 0x7F := by decide
  have e2 : (memAccess spriteDmaState
      (u16 (spriteDmaState.spritePtr 2 ||| (spriteDmaState.mc 2 + 1) % 64))).map
      Prod.fst = some 0x40 := by decide
  have e3 : (memAccess spriteDmaState
      (u16 (spriteDmaState.spritePtr 2 ||| (spriteDmaState.mc 2 + 2) % 64))).map
      Prod.fst = some 0x41 := by decide
  refine ⟨by decide, rfl, rfl, ?_, ?_, ?_, ?_⟩
  · obtain ⟨s1, h1, hc, hm⟩ := hf rfl
    rw [e1] at hc
    exact ⟨s1, h1, (Option.some.inj hc).symm, hm.trans (by decide)⟩
  · obtain ⟨s1, h1, hc, hm⟩ := hs rfl
    rw [e1] at hc
    exact ⟨s1, h1, (Option.some.inj hc).symm, hm.trans (by decide)⟩
  · obtain ⟨s1, h1, hc, hm⟩ := ht rfl
    rw [e1] at hc
    exact ⟨s1, h1, (Option.some.inj hc).symm, hm.trans (by decide)⟩
  · obtain ⟨s1, s2, s3, h1, h2, h3, hc1, hc2, hc3, hm⟩ := hall rfl
      (fun s1 h1 => sFirstAccess_badLine sampleDecls _ s1 2 h1)
      (fun s1 s2 h1 h2 => (sSecondAccess_badLine sampleDecls s1 s2 2 h2).trans
        (sFirstAccess_badLine sampleDecls _ s1 2 h1))
    rw [e1] at hc1
    rw [e2] at hc2
    rw [e3] at hc3
    exact ⟨s1, s2, s3, h1, h2, h3, (Option.some.inj hc1).symm, (Option.some.inj hc2).symm,
      (Option.some.inj hc3).symm, hm.trans (by decide)⟩

/-! ## Sprite data accesses without DMA -/

/-- C15 (amended): for a sprite `i < 8` whose DMA bit is clear, `sFirstAccess(i)` and
`sThirdAccess(i)` return without any memory access (address bus, data bus and memory are as
before); only `sSecondAccess(i)` performs the idle read `memAccess(0x3FFF)`, after which
`addrBus` is `bankAddr | 0x3FFF` and `dataBus` holds the byte read. All three leave every
`mc` counter as it was and store 0 in `chunk1`, `chunk2` and `chunk3` respectively. -/
theorem sAccess_without_dma (d : VICDecls) (s : VIC) (i : Nat) (hi : i < 8)
    (hdma : s.spriteDmaOnOff &&& (1 <<< i) = 0) :
    (∃ s1, sFirstAccess d s i = some s1 ∧ s1.addrBus = s.addrBus ∧ s1.dataBus = s.dataBus ∧
      s1.c64 = s.c64 ∧ s1.mc = s.mc ∧ (s1.spriteSr i).chunk1 = 0) ∧
    (s.bankAddr &&& 0x3FFF = 0 →
      ∃ s1, sSecondAccess d s i = some s1 ∧ s1.addrBus = s.bankAddr ||| 0x3FFF ∧
        (memAccess s 0x3FFF).map Prod.fst = some s1.dataBus ∧
        s1.c64 = s.c64 ∧ s1.mc = s.mc ∧ (s1.spriteSr i).chunk2 = 0) ∧
    (∃ s1, sThirdAccess d s i = some s1 ∧ s1.addrBus = s.addrBus ∧ s1.dataBus = s.dataBus ∧
      s1.c64 = s.c64 ∧ s1.mc = s.mc ∧ (s1.spriteSr i).chunk3 = 0) := by
  refine ⟨?_, ?_, ?_⟩
  · obtain ⟨s1, h1⟩ := Option.isSome_iff_exists.1
      (sFirstAccess_isSome d s i hi (fun h => absurd hdma h))
    obtain ⟨_, hfr, _, _, _, _, hc⟩ := sFirstAccess_inv d s s1 i h1
    rcases hc with ⟨_, hmc, ha, hd, hsr⟩ | ⟨h0, _⟩
    · exact ⟨s1, h1, ha, hd, hfr.1, hmc, by rw [hsr]⟩
    · exact absurd hdma h0
  · intro hbank
    have hok : (memAccess s 0x3FFF).isSome = true :=
      (memAccess_isSome s 0x3FFF).2 ⟨by decide, hbank⟩
    obtain ⟨s1, h1⟩ := Option.isSome_iff_exists.1
      (sSecondAccess_isSome d s i hi (fun _ => hok) (fun h => absurd hdma h))
    obtain ⟨_, hfr, _, _, _, _, hc⟩ := sSecondAccess_inv d s s1 i h1
    rcases hc with ⟨_, hmc, ⟨data, sm, hm, hd⟩, ha, hsr⟩ | ⟨h0, _⟩
    · refine ⟨s1, h1, ha, ?_, hfr.1, hmc, by rw [hsr]⟩
      rw [hm, hd]
      rfl
    · exact absurd hdma h0
  · obtain ⟨s1, h1⟩ := Option.isSome_iff_exists.1
      (sThirdAccess_isSome d s i hi (fun h => absurd hdma h))
    obtain ⟨_, hfr, _, _, _, _, hc⟩ := sThirdAccess_inv d s s1 i h1
    rcases hc with ⟨_, hmc, ha, hd, hsr⟩ | ⟨h0, _⟩
    · exact ⟨s1, h1, ha, hd, hfr.1, hmc, by rw [hsr]⟩
    · exact absurd hdma h0

/-- Witness for C15 (amended): no sprite has DMA; the second access of sprite 0 puts
`$3FFF` on the address bus, the first and the third leave `$1234` there. -/
theorem sAccess_without_dma_witness :
    (∃ s1, sFirstAccess sampleDecls spriteIdleState 0 = some s1 ∧ s1.addrBus = 0x1234) ∧
    (∃ s1, sSecondAccess sampleDecls spriteIdleState 0 = some s1 ∧ s1.addrBus = 0x3FFF) ∧
    (∃ s1, sThirdAccess sampleDecls spriteIdleState 0 = some s1 ∧ s1.addrBus = 0x1234) := by
  obtain ⟨⟨a, ha, haddr, _⟩, h2, ⟨c, hc, hcaddr, _⟩⟩ :=
    sAccess_without_dma sampleDecls spriteIdleState 0 (by decide) (by decide)
  obtain ⟨b, hb, hbaddr, _⟩ := h2 (by decide)
  exact ⟨⟨a, ha, haddr.trans rfl⟩, ⟨b, hb, hbaddr.trans (by decide)⟩, ⟨c, hc, hcaddr.trans rfl⟩⟩

/-- Counterexample to C15 as stated: sprite 0 has no DMA and the address bus holds `$1234`.
`sFirstAccess(0)` and `sThirdAccess(0)` return, yet `addrBus` is not `bankAddr | 0x3FFF`
afterwards: neither performs the idle read. -/
theorem sAccess_idle_read_counterexample :
    ¬ (∀ s1, sFirstAccess sampleDecls spriteIdleState 0 = some s1 →
        s1.addrBus = spriteIdleState.bankAddr ||| 0x3FFF) ∧
    ¬ (∀ s1, sThirdAccess sampleDecls spriteIdleState 0 = some s1 →
        s1.addrBus = spriteIdleState.bankAddr ||| 0x3FFF) := by
  constructor
  · intro h
    obtain ⟨s1, h1⟩ := Option.isSome_iff_exists.1
      (sFirstAccess_isSome sampleDecls spriteIdleState 0 (by decide)
        (fun h0 => absurd (show spriteIdleState.spriteDmaOnOff &&& (1 <<< 0) = 0 by decide) h0))
    obtain ⟨_, _, _, _, _, _, hc⟩ := sFirstAccess_inv sampleDecls spriteIdleState s1 0 h1
    rcases hc with ⟨_, _, ha, _⟩ | ⟨h0, _⟩
    · have h2 := h s1 h1
      rw [ha] at h2
      exact absurd h2 (by decide)
    · exact absurd (show spriteIdleState.spriteDmaOnOff &&& (1 <<< 0) = 0 by decide) h0
  · intro h
    obtain ⟨s1, h1⟩ := Option.isSome_iff_exists.1
      (sThirdAccess_isSome sampleDecls spriteIdleState 0 (by decide)
        (fun h0 => absurd (show spriteIdleState.spriteDmaOnOff &&& (1 <<< 0) = 0 by decide) h0))
    obtain ⟨_, _, _, _, _, _, hc⟩ := sThirdAccess_inv sampleDecls spriteIdleState s1 0 h1
    rcases hc with ⟨_, _, ha, _⟩ | ⟨h0, _⟩
    · have h2 := h s1 h1
      rw [ha] at h2
      exact absurd h2 (by decide)
    · exact absurd (show spriteIdleState.spriteDmaOnOff &&& (1 <<< 0) = 0 by decide) h0

/-! ## The stable screen buffer -/

/-- C21: with two distinct screen buffers and `currentScreenBuffer` pointing to one of
them, `screenBuffer()` returns the other one: `screenBuffer2` while the VIC renders into
`screenBuffer1` and the reverse; the result is never the buffer being rendered into, and
after `currentScreenBuffer` is flipped to the other buffer the result is the buffer that
was current before. -/
theorem screenBuffer_other (p : PixelEngine) (hne : p.screenBuffer1 ≠ p.screenBuffer2)
    (hcur : p.currentScreenBuffer = p.screenBuffer1 ∨
      p.currentScreenBuffer = p.screenBuffer2) :
    (p.currentScreenBuffer = p.screenBuffer1 → p.screenBuffer = p.screenBuffer2) ∧
    (p.currentScreenBuffer = p.screenBuffer2 → p.screenBuffer = p.screenBuffer1) ∧
    p.screenBuffer ≠ p.currentScreenBuffer ∧
    (p.screenBuffer = p.screenBuffer1 ∨ p.screenBuffer = p.screenBuffer2) ∧
    PixelEngine.screenBuffer { p with currentScreenBuffer := p.screenBuffer } =
      p.currentScreenBuffer := by
  rcases hcur with h | h
  · have e : p.screenBuffer = p.screenBuffer2 := by simp [PixelEngine.screenBuffer, h]
    refine ⟨fun _ => e, fun h2 => absurd (h.symm.trans h2) hne, ?_, Or.inr e, ?_⟩
    · rw [e, h]
      exact fun h2 => hne h2.symm
    · simp [PixelEngine.screenBuffer, h, Ne.symm hne]
  · have e : p.screenBuffer = p.screenBuffer1 := by
      simp [PixelEngine.screenBuffer, h, Ne.symm hne]
    refine ⟨fun h1 => absurd (h1.symm.trans h) hne, fun _ => e, ?_, Or.inl e, ?_⟩
    · rw [e, h]
      exact hne
    · simp [PixelEngine.screenBuffer, h, Ne.symm hne]

/-- Witness for C21: while the VIC renders into the buffer at `$1000`, the stable buffer
is the one at `$2000`. -/
theorem screenBuffer_other_witness :
    samplePixelEngine.screenBuffer = 0x2000 ∧
    samplePixelEngine.screenBuffer ≠ samplePixelEngine.currentScreenBuffer :=
  have h := screenBuffer_other samplePixelEngine (by decide) (Or.inl rfl)
  ⟨h.1 rfl, h.2.2.1⟩

/-! ## The read pointer of a file -/

/-- C22, the code at the failing input: after `readFromBuffer` of the three bytes
`$11 $22 $33`, `seek(0)` has left the read pointer at 3, the size of the file, not at 0;
`getByte()` then reads `data[3]`, outside the buffer, and does not return the first byte.
For every file and offset, `seek` stores the size (never the offset) when the offset is
below the size, and `-1` otherwise. -/
theorem seek_stores_size (f : AnyC64File) (offset : Int) :
    (toSizeT offset < f.size → (f.seek offset).fp = (f.size : Int)) ∧
    (¬ toSizeT offset < f.size → (f.seek offset).fp = -1) ∧
    (∃ g, AnyC64File.readFromBuffer {} [0x11, 0x22, 0x33] 3 = some (true, g) ∧
      g.data = some [0x11, 0x22, 0x33] ∧ g.size = 3 ∧ g.eof = 3 ∧ g.fp = 3 ∧
      g.getByte = none ∧ g.getByte.map Prod.fst ≠ some 0x11) := by
  refine ⟨fun h => ?_, fun h => ?_, ⟨_, rfl, rfl, rfl, rfl, rfl, rfl, ?_⟩⟩
  · simp [AnyC64File.seek, h]
  · simp [AnyC64File.seek, h]
  · intro h
    exact Option.noConfusion h

/-! ## The width of the pixel source masks -/

/-- C23, the code at the failing input: a cell of `pixelSource` keeps the low 8 bits of
what is stored in it.  Storing `0x100` and reading it back yields 0, and OR-ing `0x100`
into a cell leaves the cell as it was: with the bit of sprite 0 set the cell reads `0x01`
before and after, bit 8 is not set. -/
theorem pixelSource_keeps_low_byte (p : PixelEngine) (i m : Nat) :
    (p.storePixelSource i m).pixelSource i = m % 256 ∧
    (p.orPixelSource i 0x100).pixelSource i = p.pixelSource i % 256 ∧
    (samplePixelEngine.storePixelSource 0 0x100).pixelSource 0 = 0 ∧
    (samplePixelEngine.orPixelSource 0 0x100).pixelSource 0 =
      samplePixelEngine.pixelSource 0 ∧
    ((samplePixelEngine.orPixelSource 0 0x100).pixelSource 0).testBit 8 = false := by
  refine ⟨?_, ?_, by decide, by decide, by decide⟩
  · simp [PixelEngine.storePixelSource, setAt_same, u8]
  · have e : (p.orPixelSource i 0x100).pixelSource i = u8 (p.pixelSource i ||| 0x100) := by
      simp [PixelEngine.orPixelSource, setAt_same]
    rw [e]
    apply Nat.eq_of_testBit_eq
    intro k
    have e2 : ∀ y : Nat, y % 256 = u8 y := fun _ => rfl
    rw [e2, testBit_u8, testBit_u8, Nat.testBit_or, testBit_0x100]
    by_cases hk : k < 8
    · have hk8 : k ≠ 8 := by omega
      simp [hk, hk8]
    · simp [hk]

/-! ## Reading registers without side effects -/

theorem spypeek_collision (s : VIC) :
    spypeek s 0x1E = some (u8 s.spriteSpriteCollision, s) ∧
    spypeek s 0x1F = some (u8 s.spriteBackgroundColllision, s) ∧
    peek s 0x1E = some (u8 s.spriteSpriteCollision, { s with spriteSpriteCollision := 0 }) ∧
    peek s 0x1F =
      some (u8 s.spriteBackgroundColllision, { s with spriteBackgroundColllision := 0 }) := by
  refine ⟨?_, ?_, ?_, ?_⟩ <;> simp [spypeek, peek, peekSwitch]

theorem spypeek_default (s : VIC) (addr : Nat) (ha : addr ≤ 0x3F) (h1 : addr ≠ 0x1E)
    (h2 : addr ≠ 0x1F) : spypeek s addr = peek s addr := by
  unfold spypeek
  rw [if_pos ha]
  split
  · exact absurd rfl h1
  · exact absurd rfl h2
  · rfl

/-- C29: for every address up to `0x3F`, `spypeek(addr)` returns and delivers the value
`peek(addr)` delivers in the same state, and the state after `spypeek` is the state before
it; the two collision registers, which `peek` clears, keep their values. -/
theorem spypeek_pure (s : VIC) (addr : Nat) (ha : addr ≤ 0x3F) :
    ∃ r s1, peek s addr = some (r, s1) ∧ spypeek s addr = some (r, s) ∧
      ∀ s2, (spypeek s addr).map Prod.snd = some s2 →
        s2.spriteSpriteCollision = s.spriteSpriteCollision ∧
        s2.spriteBackgroundColllision = s.spriteBackgroundColllision := by
  have hcoll := spypeek_collision s
  have hstate : ∃ r s1, peek s addr = some (r, s1) ∧ spypeek s addr = some (r, s) := by
    by_cases h1 : addr = 0x1E
    · subst h1
      exact ⟨_, _, hcoll.2.2.1, hcoll.1⟩
    by_cases h2 : addr = 0x1F
    · subst h2
      exact ⟨_, _, hcoll.2.2.2, hcoll.2.1⟩
    obtain ⟨r, hr⟩ := peek_eq s addr ha
    have hst : peekState s addr = s := by simp [peekState, h1, h2]
    rw [hst] at hr
    exact ⟨r, s, hr, by rw [spypeek_default s addr ha h1 h2, hr]⟩
  obtain ⟨r, s1, hp, hsp⟩ := hstate
  refine ⟨r, s1, hp, hsp, ?_⟩
  intro s2 h
  rw [hsp] at h
  simp only [Option.map_some', Option.some.injEq] at h
  subst h
  exact ⟨rfl, rfl⟩

/-- Witness for C29: with both collision registers loaded, `spypeek(0x1E)` returns `$03`
as `peek(0x1E)` does, and the register still holds `$03` afterwards. -/
theorem spypeek_pure_witness :
    (0x1E : Nat) ≤ 0x3F ∧ (peek collisionState 0x1E).map Prod.fst = some 0x03 ∧
    spypeek collisionState 0x1E = some (0x03, collisionState) := by
  obtain ⟨r, s1, hp, hsp, _⟩ := spypeek_pure collisionState 0x1E (by decide)
  have hr : (peek collisionState 0x1E).map Prod.fst = some 0x03 := by decide
  have hr2 : r = 0x03 := by
    rw [hp] at hr
    simpa using hr
  rw [hr2] at hsp
  exact ⟨by decide, hr, hsp⟩

/-! ## Soft breakpoints -/

theorem setGuard_self (a : Nat → Guard) (i : Nat) : setGuard a i (a i) = a := by
  funext j
  by_cases h : j = i
  · simp [setGuard, h]
  · simp [setGuard, h]

theorem Guard_eval_miss (g : Guard) (addr : Nat) (h : ¬ (g.addr = addr ∧ g.enabled = true)) :
    g.eval addr = (false, g) := by
  unfold Guard.eval
  have hc : (g.addr == addr && g.enabled) = false := by
    cases he : g.enabled
    · simp
    · by_cases ha : g.addr = addr
      · exact absurd ⟨ha, he⟩ h
      · simp [ha]
  rw [hc]
  rfl

/-- When no guard among the `n` cells from index `i` on is an enabled guard at `addr`, the
loop of `Guards::eval` returns false and changes nothing. -/
theorem Guards_evalLoop_miss (addr : Nat) (n : Nat) :
    ∀ (i : Nat) (g : Guards),
      (∀ j, i ≤ j → j < i + n → ¬ ((g.guards j).addr = addr ∧ (g.guards j).enabled = true)) →
      Guards.evalLoop addr n i g = (false, g) := by
  induction n with
  | zero =>
    intro i g _
    rfl
  | succ n ih =>
    intro i g h
    have h0 := Guard_eval_miss (g.guards i) addr (h i (Nat.le_refl i) (by omega))
    have hg : ({ g with guards := setGuard g.guards i (g.guards i) } : Guards) = g := by
      rw [setGuard_self]
    unfold Guards.evalLoop
    simp only [h0, Bool.false_eq_true, if_false]
    rw [hg]
    exact ih (i + 1) g (fun j h1 h2 => h j (by omega) (by omega))

theorem breakpointMatches_soft (s : CPUDebugger) (addr : Nat)
    (h : addr = s.softStop ∨ s.softStop = UINT64_MAX) :
    s.breakpointMatches addr =
      (true, CPUDebugger.breakpointsSetNeedsCheck { s with softStop := UINT64_MAX - 1 }
        (s.breakpoints.elements != 0)) := by
  have hc : (addr == s.softStop || s.softStop == UINT64_MAX) = true := by
    rcases h with h | h
    · simp [h]
    · simp [h]
  unfold CPUDebugger.breakpointMatches
  rw [if_pos hc]

theorem breakpointsSetNeedsCheck_frame (s : CPUDebugger) (value : Bool) :
    (s.breakpointsSetNeedsCheck value).softStop = s.softStop ∧
    (s.breakpointsSetNeedsCheck value).breakpoints = s.breakpoints ∧
    (s.breakpointsSetNeedsCheck value).debugMode = (value || s.inDebugMode) := by
  unfold CPUDebugger.breakpointsSetNeedsCheck
  cases hc : (value || s.inDebugMode)
  · simp
  · simp

theorem breakpointMatches_guards (s : CPUDebugger) (a : Nat) (h1 : a ≠ s.softStop)
    (h2 : s.softStop ≠ UINT64_MAX) :
    s.breakpointMatches a =
      ((s.breakpoints.eval a).1, { s with breakpoints := (s.breakpoints.eval a).2 }) := by
  have hc : (a == s.softStop || s.softStop == UINT64_MAX) = false := by simp [h1, h2]
  unfold CPUDebugger.breakpointMatches
  rw [hc]
  rfl

/-- C28: when `addr` equals `softStop` or `softStop` is `UINT64_MAX`, `breakpointMatches`
returns true and sets `softStop` to `UINT64_MAX - 1`, leaving the breakpoints as they
were; a call `breakpointMatches(a)` right after it, for a 32 bit address `a`, returns what
`breakpoints.eval(a)` returns (and leaves the guards as `eval` leaves them), which is
false when no enabled guard sits at `a`. -/
theorem soft_breakpoint_fires_once (s : CPUDebugger) (addr : Nat)
    (h : addr = s.softStop ∨ s.softStop = UINT64_MAX) :
    (s.breakpointMatches addr).1 = true ∧
    (s.breakpointMatches addr).2.softStop = UINT64_MAX - 1 ∧
    (s.breakpointMatches addr).2.breakpoints = s.breakpoints ∧
    ∀ a, a < 2 ^ 32 →
      ((s.breakpointMatches addr).2.breakpointMatches a).1 = (s.breakpoints.eval a).1 ∧
      ((s.breakpointMatches addr).2.breakpointMatches a).2.breakpoints =
        (s.breakpoints.eval a).2 ∧
      ((∀ j : Nat, (j : Int) < s.breakpoints.count →
          ¬ ((s.breakpoints.guards j).addr = a ∧ (s.breakpoints.guards j).enabled = true)) →
        ((s.breakpointMatches addr).2.breakpointMatches a).1 = false) := by
  rw [breakpointMatches_soft s addr h]
  obtain ⟨hs, hb, _⟩ := breakpointsSetNeedsCheck_frame { s with softStop := UINT64_MAX - 1 }
    (s.breakpoints.elements != 0)
  have hs1 : (CPUDebugger.breakpointsSetNeedsCheck { s with softStop := UINT64_MAX - 1 }
      (s.breakpoints.elements != 0)).softStop = UINT64_MAX - 1 := hs
  have hb1 : (CPUDebugger.breakpointsSetNeedsCheck { s with softStop := UINT64_MAX - 1 }
      (s.breakpoints.elements != 0)).breakpoints = s.breakpoints := hb
  refine ⟨rfl, hs1, hb1, ?_⟩
  intro a ha
  have hmax : UINT64_MAX - 1 = 2 ^ 64 - 2 := rfl
  have h1 : a ≠ (CPUDebugger.breakpointsSetNeedsCheck { s with softStop := UINT64_MAX - 1 }
      (s.breakpoints.elements != 0)).softStop := by
    rw [hs1, hmax]
    have : (2 : Nat) ^ 32 < 2 ^ 64 - 2 := by decide
    omega
  have h2 : (CPUDebugger.breakpointsSetNeedsCheck { s with softStop := UINT64_MAX - 1 }
      (s.breakpoints.elements != 0)).softStop ≠ UINT64_MAX := by
    rw [hs1]
    decide
  rw [breakpointMatches_guards _ a h1 h2, hb1]
  refine ⟨rfl, rfl, ?_⟩
  intro hmiss
  show (s.breakpoints.eval a).1 = false
  unfold Guards.eval
  rw [Guards_evalLoop_miss a _ 0 s.breakpoints]
  intro j _ hj
  apply hmiss j
  omega

/-- Witness for C28: the soft breakpoint at `$C000` fires once; the next call at `$C000`
finds no guard there and returns false, while a call at `$C010` finds the breakpoint. -/
theorem soft_breakpoint_fires_once_witness :
    (softStopDebugger.breakpointMatches 0xC000).1 = true ∧
    ((softStopDebugger.breakpointMatches 0xC000).2.breakpointMatches 0xC000).1 = false ∧
    ((softStopDebugger.breakpointMatches 0xC000).2.breakpointMatches 0xC010).1 = true := by
  have h := soft_breakpoint_fires_once softStopDebugger 0xC000 (Or.inl rfl)
  refine ⟨h.1, ?_, ?_⟩
  · exact (h.2.2.2 0xC000 (by decide)).1.trans (by decide)
  · exact (h.2.2.2 0xC010 (by decide)).1.trans (by decide)

/-! ## The character ROM in the standard memory mapping -/

/-- Outside Ultimax mode the character ROM answers when the top nibble of the address bus
is 1 or 9, and RAM everywhere else. -/
theorem memAccessData_standard (s1 : VIC) (addr : Nat) (hu : s1.c64.getUltimax = false) :
    memAccessData s1 addr =
      if s1.addrBus >>> 12 = 0x1 ∨ s1.addrBus >>> 12 = 0x9
      then s1.c64.mem.rom (0xC000 + addr) else s1.c64.mem.ram s1.addrBus := by
  unfold memAccessData
  rw [hu]
  simp only [Bool.not_false, if_true]
  generalize s1.addrBus >>> 12 = q
  split
  · simp
  · simp
  · rename_i h9 h1
    have h : ¬ (q = 1 ∨ q = 9) := fun h => h.elim h1 h9
    rw [if_neg h]

/-- A bank address and a 14 bit address have no bit in common: their disjunction is their
sum. -/
theorem bank_or_addr (bank addr : Nat) (ha : addr < 0x4000)
    (hb : bank = 0x0000 ∨ bank = 0x4000 ∨ bank = 0x8000 ∨ bank = 0xC000) :
    bank ||| addr = bank + addr := by
  have h14 : addr < 2 ^ 14 := ha
  rcases hb with h | h | h | h
  · rw [h, show (0x0000 : Nat) = 2 ^ 14 * 0 from rfl, ← Nat.mul_add_lt_is_or h14 0]
  · rw [h, show (0x4000 : Nat) = 2 ^ 14 * 1 from rfl, ← Nat.mul_add_lt_is_or h14 1]
  · rw [h, show (0x8000 : Nat) = 2 ^ 14 * 2 from rfl, ← Nat.mul_add_lt_is_or h14 2]
  · rw [h, show (0xC000 : Nat) = 2 ^ 14 * 3 from rfl, ← Nat.mul_add_lt_is_or h14 3]

/-- The top nibble of a bus address is 1 or 9 exactly in `$1000-$1FFF` and
`$9000-$9FFF`. -/
theorem top_nibble_char (a : Nat) :
    (a >>> 12 = 0x1 ∨ a >>> 12 = 0x9) ↔
      ((0x1000 ≤ a ∧ a ≤ 0x1FFF) ∨ (0x9000 ≤ a ∧ a ≤ 0x9FFF)) := by
  have hdiv : a >>> 12 = a / 4096 := Nat.shiftRight_eq_div_pow _ 12
  rw [hdiv]
  omega

/-- C26: outside Ultimax mode, for a 14 bit address and a bank address that is a multiple
of 16 KB, `memAccess` returns the character ROM byte `rom[0xC000 + addr]` exactly when the
top nibble of `addrBus = bankAddr | addr` is 1 or 9, that is when `addrBus` lies in
`$1000-$1FFF` or `$9000-$9FFF`, and `ram[addrBus]` otherwise; in the ROM case the index
`0xC000 + addr` lies in `$D000-$DFFF`. -/
theorem memAccess_char_rom (s : VIC) (addr : Nat) (ha : addr < 0x4000)
    (hb : s.bankAddr = 0x0000 ∨ s.bankAddr = 0x4000 ∨ s.bankAddr = 0x8000 ∨
      s.bankAddr = 0xC000)
    (hu : s.c64.getUltimax = false) :
    ∃ data s1, memAccess s addr = some (data, s1) ∧
      s1.addrBus = s.bankAddr ||| addr ∧ s1.dataBus = data ∧
      data = (if s1.addrBus >>> 12 = 0x1 ∨ s1.addrBus >>> 12 = 0x9
        then s.c64.mem.rom (0xC000 + addr) else s.c64.mem.ram s1.addrBus) ∧
      ((s1.addrBus >>> 12 = 0x1 ∨ s1.addrBus >>> 12 = 0x9) ↔
        ((0x1000 ≤ s1.addrBus ∧ s1.addrBus ≤ 0x1FFF) ∨
          (0x9000 ≤ s1.addrBus ∧ s1.addrBus ≤ 0x9FFF))) ∧
      ((s1.addrBus >>> 12 = 0x1 ∨ s1.addrBus >>> 12 = 0x9) →
        0xD000 ≤ 0xC000 + addr ∧ 0xC000 + addr ≤ 0xDFFF) := by
  have h1 : addr &&& 0xC000 = 0 := and_0xC000_of_lt addr ha
  have h2 : s.bankAddr &&& 0x3FFF = 0 := by
    rcases hb with h | h | h | h <;> rw [h] <;> decide
  have hsum : s.bankAddr ||| addr = s.bankAddr + addr := bank_or_addr _ _ ha hb
  refine ⟨_, _, memAccess_ok s addr h1 h2, rfl, rfl, ?_, ?_, ?_⟩
  · exact memAccessData_standard { s with addrBus := s.bankAddr ||| addr } addr hu
  · exact top_nibble_char _
  · intro h
    have hr := (top_nibble_char (s.bankAddr ||| addr)).1 h
    rw [hsum] at hr
    rcases hb with h | h | h | h <;> rw [h] at hr <;> omega

/-- Witness for C26: in VIC bank 2, video address `$1234` is bus address `$9234`, which the
character ROM answers; video address `$2234` is answered by RAM. -/
theorem memAccess_char_rom_witness :
    (∃ data s1, memAccess charRomState 0x1234 = some (data, s1) ∧ s1.addrBus = 0x9234 ∧
      data = 0xC3) ∧
    (∃ data s1, memAccess charRomState 0x2234 = some (data, s1) ∧ s1.addrBus = 0xA234 ∧
      data = 0x11) := by
  constructor
  · obtain ⟨data, s1, h1, h2, _, h4, _⟩ :=
      memAccess_char_rom charRomState 0x1234 (by decide) (Or.inr (Or.inr (Or.inl rfl))) rfl
    have hbus : s1.addrBus = 0x9234 := h2.trans (by decide)
    refine ⟨data, s1, h1, hbus, ?_⟩
    rw [h4, hbus]
    decide
  · obtain ⟨data, s1, h1, h2, _, h4, _⟩ :=
      memAccess_char_rom charRomState 0x2234 (by decide) (Or.inr (Or.inr (Or.inl rfl))) rfl
    have hbus : s1.addrBus = 0xA234 := h2.trans (by decide)
    refine ⟨data, s1, h1, hbus, ?_⟩
    rw [h4, hbus]
    decide

/-! ## The sprite expansion flip-flops -/

/-- C27: `poke(0x17, v)` stores `v` in `reg.current.sprExpandY`, sets `expansionFF` to the
8 bit value of `expansionFF | ~v` - the flip-flop of a sprite whose bit is clear in `v` is
set, the others keep their value - and sets `cleared_bits_in_d017` to the 8 bit value of
`~v & ~expansionFF` (old `expansionFF`), the flip-flops this write turned from 0 to 1. -/
theorem poke_d017_expansion (d : VICDecls) (s : VIC) (v : Nat) :
    ∃ s1, poke d s 0x17 v = some s1 ∧
      s1.reg.current.sprExpandY = v ∧
      s1.expansionFF = u8 (s.expansionFF ||| bitNot v) ∧
      s1.cleared_bits_in_d017 = u8 (bitNot v &&& bitNot s.expansionFF) ∧
      (∀ k, k < 8 → s1.expansionFF.testBit k = (s.expansionFF.testBit k || !v.testBit k)) ∧
      (∀ k, k < 8 → v.testBit k = false → s1.expansionFF.testBit k = true) ∧
      (∀ k, k < 8 → v.testBit k = true →
        s1.expansionFF.testBit k = s.expansionFF.testBit k) ∧
      (∀ k, k < 8 → s1.cleared_bits_in_d017.testBit k =
        (!v.testBit k && !s.expansionFF.testBit k)) ∧
      (∀ k, k < 8 → s1.cleared_bits_in_d017.testBit k =
        (!s.expansionFF.testBit k && s1.expansionFF.testBit k)) ∧
      s1.expansionFF < 256 ∧ s1.cleared_bits_in_d017 < 256 := by
  have hff : ∀ k, k < 8 → (u8 (s.expansionFF ||| bitNot v)).testBit k =
      (s.expansionFF.testBit k || !v.testBit k) := by
    intro k hk
    have hk32 : k < 32 := by omega
    rw [testBit_u8, Nat.testBit_or, testBit_bitNot]
    cases v.testBit k <;> simp [hk, hk32]
  have hcl : ∀ k, k < 8 → (u8 (bitNot v &&& bitNot s.expansionFF)).testBit k =
      (!v.testBit k && !s.expansionFF.testBit k) := by
    intro k hk
    have hk32 : k < 32 := by omega
    rw [testBit_u8, Nat.testBit_and, testBit_bitNot, testBit_bitNot]
    cases v.testBit k <;> cases s.expansionFF.testBit k <;> simp [hk, hk32]
  refine ⟨_, poke_sprExpandY d s v, rfl, rfl, rfl, hff, ?_, ?_, hcl, ?_,
    Nat.mod_lt _ (by decide), Nat.mod_lt _ (by decide)⟩
  · intro k hk hv
    show (u8 (s.expansionFF ||| bitNot v)).testBit k = true
    rw [hff k hk, hv]
    simp
  · intro k hk hv
    show (u8 (s.expansionFF ||| bitNot v)).testBit k = _
    rw [hff k hk, hv]
    simp
  · intro k hk
    show (u8 (bitNot v &&& bitNot s.expansionFF)).testBit k =
      (!s.expansionFF.testBit k && (u8 (s.expansionFF ||| bitNot v)).testBit k)
    rw [hcl k hk, hff k hk]
    cases v.testBit k <;> cases s.expansionFF.testBit k <;> rfl

/-! ## Sprite X coordinates -/

theorem peek_sprX_low (s : VIC) (i : Nat) (hi : i < 8) :
    peek s (2 * i) = some (u8 (s.reg.current.sprX i), s) := by
  interval_cases i <;> simp [peek, peekSwitch]

theorem peek_sprY (s : VIC) (i : Nat) (hi : i < 8) :
    peek s (2 * i + 1) = some (u8 (s.reg.current.sprY i), s) := by
  interval_cases i <;> simp [peek, peekSwitch]

/-- A byte is the disjunction of its eight bits, each at its place. -/
theorem byte_of_bits (m : Nat) (hm : m < 256) :
    (if m.testBit 0 then 0b00000001 else 0) ||| (if m.testBit 1 then 0b00000010 else 0) |||
    (if m.testBit 2 then 0b00000100 else 0) ||| (if m.testBit 3 then 0b00001000 else 0) |||
    (if m.testBit 4 then 0b00010000 else 0) ||| (if m.testBit 5 then 0b00100000 else 0) |||
    (if m.testBit 6 then 0b01000000 else 0) ||| (if m.testBit 7 then 0b10000000 else 0) = m := by
  interval_cases m <;> rfl

/-- The value `peek(0x10)` assembles from bit 8 of the eight X coordinates. -/
theorem peek_sprX_high (s : VIC) (m : Nat) (hm : m < 256)
    (hx : ∀ j, j < 8 → (s.reg.current.sprX j).testBit 8 = m.testBit j) :
    peek s 0x10 = some (m, s) := by
  have hb : ∀ j, j < 8 → (s.reg.current.sprX j &&& 0x100 != 0) = m.testBit j := by
    intro j hj
    rw [show (0x100 : Nat) = 2 ^ 8 from rfl, and_two_pow_bne_zero, hx j hj]
  have e : peek s 0x10 = some (u8 (
      (if s.reg.current.sprX 0 &&& 0x100 != 0 then 0b00000001 else 0) |||
      (if s.reg.current.sprX 1 &&& 0x100 != 0 then 0b00000010 else 0) |||
      (if s.reg.current.sprX 2 &&& 0x100 != 0 then 0b00000100 else 0) |||
      (if s.reg.current.sprX 3 &&& 0x100 != 0 then 0b00001000 else 0) |||
      (if s.reg.current.sprX 4 &&& 0x100 != 0 then 0b00010000 else 0) |||
      (if s.reg.current.sprX 5 &&& 0x100 != 0 then 0b00100000 else 0) |||
      (if s.reg.current.sprX 6 &&& 0x100 != 0 then 0b01000000 else 0) |||
      (if s.reg.current.sprX 7 &&& 0x100 != 0 then 0b10000000 else 0)), s) := rfl
  rw [e, hb 0 (by decide), hb 1 (by decide), hb 2 (by decide), hb 3 (by decide),
    hb 4 (by decide), hb 5 (by decide), hb 6 (by decide), hb 7 (by decide),
    byte_of_bits m hm, u8_of_lt hm]

theorem sprX_low_lt (x v : Nat) (hv : v < 256) : (x &&& 0x100) ||| v < 512 := by
  have h1 : x &&& 0x100 < 2 ^ 9 := Nat.lt_of_le_of_lt Nat.and_le_right (by decide)
  have h2 : v < 2 ^ 9 := Nat.lt_trans hv (by decide)
  exact Nat.or_lt_two_pow h1 h2

theorem sprX_high_lt (x : Nat) (b : Bool) : (x &&& 0xFF) ||| (if b then 0x100 else 0) < 512 := by
  have h1 : x &&& 0xFF < 2 ^ 9 := Nat.lt_of_le_of_lt Nat.and_le_right (by decide)
  have h2 : (if b then 0x100 else 0) < 2 ^ 9 := by cases b <;> decide
  exact Nat.or_lt_two_pow h1 h2

/-- The state of the X coordinates after `poke(2*i, v)`. -/
theorem poke_sprX_low_cells (d : VICDecls) (s : VIC) (i v : Nat) (hi : i < 8) (hv : v < 256) :
    ∃ s1, poke d s (2 * i) v = some s1 ∧
      s1.reg.current.sprX i = (s.reg.current.sprX i &&& 0x100) ||| v ∧
      s1.reg.current.sprX i % 256 = v ∧
      (s1.reg.current.sprX i).testBit 8 = (s.reg.current.sprX i).testBit 8 ∧
      s1.reg.current.sprX i < 512 ∧
      ∀ j, j ≠ i → s1.reg.current.sprX j = s.reg.current.sprX j := by
  refine ⟨_, poke_sprX_low d s i v hi, ?_, ?_, ?_, ?_, ?_⟩
  · exact setAt_same _ _ _
  · show setAt s.reg.current.sprX i ((s.reg.current.sprX i &&& 0x100) ||| v) i % 256 = v
    rw [setAt_same]
    exact (sprX_low_write _ v hv).1
  · show (setAt s.reg.current.sprX i ((s.reg.current.sprX i &&& 0x100) ||| v) i).testBit 8 = _
    rw [setAt_same]
    exact (sprX_low_write _ v hv).2
  · show setAt s.reg.current.sprX i ((s.reg.current.sprX i &&& 0x100) ||| v) i < 512
    rw [setAt_same]
    exact sprX_low_lt _ v hv
  · intro j hj
    exact setAt_other _ _ _ _ hj

/-- The state of the X coordinates after `poke(0x10, m)`. -/
theorem poke_sprX_high_cells (d : VICDecls) (s : VIC) (m : Nat) :
    ∃ s1, poke d s 0x10 m = some s1 ∧
      (∀ j, j < 8 → (s1.reg.current.sprX j).testBit 8 = m.testBit j ∧
        s1.reg.current.sprX j % 256 = s.reg.current.sprX j % 256 ∧
        s1.reg.current.sprX j < 512) ∧
      ∀ j, ¬ j < 8 → s1.reg.current.sprX j = s.reg.current.sprX j := by
  refine ⟨_, poke_sprX_high d s m, ?_, ?_⟩
  · intro j hj
    have hb := pokeSprXHigh_bits m s.reg.current.sprX j hj
    refine ⟨hb.1, hb.2, ?_⟩
    show (List.range 8).foldl (pokeSprXHighStep m) s.reg.current.sprX j < 512
    rw [pokeSprXHigh_apply, if_pos hj]
    exact sprX_high_lt _ _
  · intro j hj
    show (List.range 8).foldl (pokeSprXHighStep m) s.reg.current.sprX j = _
    rw [pokeSprXHigh_apply, if_neg hj]

/-- C24: for a sprite `i < 8` and bytes `v`, `m`: `poke(2*i, v)` sets the low 8 bits of
`reg.current.sprX[i]` to `v`, keeps its bit 8 and leaves the other X coordinates alone;
`poke(0x10, m)` sets bit 8 of every `sprX[j]` to bit `j` of `m` and keeps the low 8 bits;
both keep every `sprX[j]` below 512; after either write the matching `peek` returns the
byte written, and after both writes in a row `peek(2*i)` returns `v` and `peek(0x10)`
returns `m`. -/
theorem sprite_x_nine_bits (d : VICDecls) (s : VIC) (i v m : Nat) (hi : i < 8)
    (hv : v < 256) (hm : m < 256) :
    (∃ s1, poke d s (2 * i) v = some s1 ∧
      s1.reg.current.sprX i % 256 = v ∧
      (s1.reg.current.sprX i).testBit 8 = (s.reg.current.sprX i).testBit 8 ∧
      (∀ j, j ≠ i → s1.reg.current.sprX j = s.reg.current.sprX j) ∧
      ((∀ j, j < 8 → s.reg.current.sprX j < 512) → ∀ j, j < 8 → s1.reg.current.sprX j < 512) ∧
      peek s1 (2 * i) = some (v, s1)) ∧
    (∃ s1, poke d s 0x10 m = some s1 ∧
      (∀ j, j < 8 → (s1.reg.current.sprX j).testBit 8 = m.testBit j ∧
        s1.reg.current.sprX j % 256 = s.reg.current.sprX j % 256 ∧
        s1.reg.current.sprX j < 512) ∧
      peek s1 0x10 = some (m, s1)) ∧
    (∃ s1 s2, poke d s (2 * i) v = some s1 ∧ poke d s1 0x10 m = some s2 ∧
      peek s2 (2 * i) = some (v, s2) ∧ peek s2 0x10 = some (m, s2) ∧
      ∀ j, j < 8 → s2.reg.current.sprX j < 512) := by
  obtain ⟨a, ha, _, halow, habit, halt, haoth⟩ := poke_sprX_low_cells d s i v hi hv
  have hu8 : ∀ x : Nat, u8 x = x % 256 := fun _ => rfl
  refine ⟨⟨a, ha, halow, habit, haoth, ?_, ?_⟩, ?_, ?_⟩
  · intro hall j hj
    by_cases hji : j = i
    · rw [hji]
      exact halt
    · rw [haoth j hji]
      exact hall j hj
  · rw [peek_sprX_low a i hi, hu8, halow]
  · obtain ⟨b, hb, hbits, _⟩ := poke_sprX_high_cells d s m
    exact ⟨b, hb, hbits, peek_sprX_high b m hm (fun j hj => (hbits j hj).1)⟩
  · obtain ⟨b, hb, hbits, _⟩ := poke_sprX_high_cells d a m
    refine ⟨a, b, ha, hb, ?_, peek_sprX_high b m hm (fun j hj => (hbits j hj).1),
      fun j hj => (hbits j hj).2.2⟩
    rw [peek_sprX_low b i hi, hu8, (hbits i hi).2.1, halow]

/-- Witness for C24: sprite 3 at X position `$1A5`; writing `$42` to `$D006` gives `$142`,
and writing `$00` to `$D010` afterwards gives `$42`. -/
theorem sprite_x_nine_bits_witness :
    (∃ s1, poke sampleDecls spriteXState 6 0x42 = some s1 ∧ s1.reg.current.sprX 3 = 0x142 ∧
      peek s1 6 = some (0x42, s1)) ∧
    (∃ s1 s2, poke sampleDecls spriteXState 6 0x42 = some s1 ∧
      poke sampleDecls s1 0x10 0x00 = some s2 ∧ peek s2 6 = some (0x42, s2) ∧
      peek s2 0x10 = some (0x00, s2)) := by
  obtain ⟨⟨a, ha, _, _, _, _, hpa⟩, _, ⟨b, c, hb, hc, hp1, hp2, _⟩⟩ :=
    sprite_x_nine_bits sampleDecls spriteXState 3 0x42 0x00 (by decide) (by decide) (by decide)
  refine ⟨⟨a, ha, ?_, hpa⟩, ⟨b, c, hb, hc, hp1, hp2⟩⟩
  have e := poke_sprX_low sampleDecls spriteXState 3 0x42 (by decide)
  rw [ha] at e
  rw [Option.some.inj e]
  decide

/-! ## Write-then-read round trips -/

theorem peek_plain (s : VIC) :
    peek s 0x15 = some (u8 s.reg.current.sprEnable, s) ∧
    peek s 0x17 = some (u8 s.reg.current.sprExpandY, s) ∧
    peek s 0x1B = some (u8 s.reg.current.sprPriority, s) ∧
    peek s 0x1C = some (u8 s.reg.current.sprMC, s) ∧
    peek s 0x1D = some (u8 s.reg.current.sprExpandX, s) := by
  refine ⟨?_, ?_, ?_, ?_, ?_⟩ <;> simp [peek, peekSwitch]

theorem poke_ctrl2 (d : VICDecls) (s : VIC) (v : Nat) :
    ∃ s1, poke d s 0x16 v = some s1 ∧ s1.reg.current.ctrl2 = v := by
  simp [poke, pokeSwitch]

theorem poke_memSelect (d : VICDecls) (s : VIC) (v : Nat) :
    ∃ s1, poke d s 0x18 v = some s1 ∧ s1.memSelect = v := by
  by_cases h : (v &&& 0x02) = (s.memSelect &&& 0x02) <;> simp [poke, pokeSwitch, h]

theorem poke_imr (d : VICDecls) (s : VIC) (v : Nat) :
    ∃ s1, poke d s 0x1A v = some s1 ∧ s1.imr = v &&& 0x0F := by
  by_cases h : s.irr &&& (v &&& 0x0F) = 0 <;>
    simp [poke, pokeSwitch, h, VIC.triggerDelayedIRQ]

theorem poke_color_current (d : VICDecls) (s : VIC) (j v : Nat) (hj : j < 15) :
    ∃ s1, poke d s (0x20 + j) v = some s1 ∧ s1.reg.current.colors j = v &&& 0xF := by
  rw [poke_color d s j v hj]
  split
  · exact ⟨_, rfl, setAt_same _ _ _⟩
  · exact ⟨_, rfl, setAt_same _ _ _⟩

theorem low_nibble_or_0xF0 (v : Nat) : u8 ((v &&& 0xF) ||| 0xF0) = (v &&& 0x0F) ||| 0xF0 := by
  have h1 : v &&& 0xF < 2 ^ 8 := Nat.lt_of_le_of_lt Nat.and_le_right (by decide)
  exact u8_of_lt (Nat.or_lt_two_pow h1 (by decide))

theorem byte_or_lt (v c : Nat) (hv : v < 256) (hc : c < 256) : u8 (v ||| c) = v ||| c :=
  u8_of_lt (Nat.or_lt_two_pow (show v < 2 ^ 8 from hv) (show c < 2 ^ 8 from hc))

theorem and_0xFF_of_lt (v : Nat) (hv : v < 256) : v &&& 0xFF = v := by
  have h : (0xFF : Nat) = 2 ^ 8 - 1 := rfl
  rw [h, Nat.and_pow_two_sub_one_eq_mod]
  exact Nat.mod_eq_of_lt hv

/-- C25: for a byte `v`, `poke(a, v)` followed by `peek(a)` returns `v` for the sprite Y
registers `0x01, 0x03, ..., 0x0F` and for `0x15`, `0x17`, `0x1B`, `0x1C`, `0x1D`; it
returns `(v AND 0x0F) OR 0xF0` for the colour registers `0x20..0x2E` and for `0x1A`,
`v OR 0xC0` for `0x16` and `v OR 0x01` for `0x18`.  The read leaves the state as the
write left it. -/
theorem poke_peek_round_trip (d : VICDecls) (s : VIC) (v : Nat) (hv : v < 256) :
    (∀ i, i < 8 → ∃ s1, poke d s (2 * i + 1) v = some s1 ∧
      peek s1 (2 * i + 1) = some (v, s1)) ∧
    (∀ a, a = 0x15 ∨ a = 0x17 ∨ a = 0x1B ∨ a = 0x1C ∨ a = 0x1D →
      ∃ s1, poke d s a v = some s1 ∧ peek s1 a = some (v, s1)) ∧
    (∀ a, (0x20 ≤ a ∧ a ≤ 0x2E) ∨ a = 0x1A →
      ∃ s1, poke d s a v = some s1 ∧ peek s1 a = some ((v &&& 0x0F) ||| 0xF0, s1)) ∧
    (∃ s1, poke d s 0x16 v = some s1 ∧ peek s1 0x16 = some (v ||| 0xC0, s1)) ∧
    (∃ s1, poke d s 0x18 v = some s1 ∧ peek s1 0x18 = some (v ||| 0x01, s1)) := by
  refine ⟨?_, ?_, ?_, ?_, ?_⟩
  · intro i hi
    refine ⟨_, poke_sprY d s i v hi, ?_⟩
    rw [peek_sprY _ i hi]
    show some (u8 (setAt s.reg.current.sprY i v i), _) = _
    rw [setAt_same, u8_of_lt hv]
  · intro a ha
    rcases ha with h | h | h | h | h <;> subst h
    · refine ⟨_, poke_sprEnable d s v, ?_⟩
      rw [(peek_plain _).1]
      show some (u8 v, _) = _
      rw [u8_of_lt hv]
    · refine ⟨_, poke_sprExpandY d s v, ?_⟩
      rw [(peek_plain _).2.1]
      show some (u8 v, _) = _
      rw [u8_of_lt hv]
    · refine ⟨_, poke_sprPriority d s v, ?_⟩
      rw [(peek_plain _).2.2.1]
      show some (u8 v, _) = _
      rw [u8_of_lt hv]
    · refine ⟨_, poke_sprMC d s v, ?_⟩
      rw [(peek_plain _).2.2.2.1]
      show some (u8 v, _) = _
      rw [u8_of_lt hv]
    · refine ⟨_, poke_sprExpandX d s v, ?_⟩
      rw [(peek_plain _).2.2.2.2]
      show some (u8 v, _) = _
      rw [u8_of_lt hv]
  · intro a ha
    rcases ha with ⟨h1, h2⟩ | h
    · obtain ⟨j, rfl⟩ : ∃ j, a = 0x20 + j := ⟨a - 0x20, by omega⟩
      have hj : j < 15 := by omega
      obtain ⟨s1, hs1, hc⟩ := poke_color_current d s j v hj
      refine ⟨s1, hs1, ?_⟩
      rw [peek_color s1 j hj, hc, low_nibble_or_0xF0]
    · subst h
      obtain ⟨s1, hs1, hc⟩ := poke_imr d s v
      refine ⟨s1, hs1, ?_⟩
      rw [peek_imr, hc, low_nibble_or_0xF0]
  · obtain ⟨s1, hs1, hc⟩ := poke_ctrl2 d s v
    refine ⟨s1, hs1, ?_⟩
    rw [peek_ctrl2, hc, and_0xFF_of_lt v hv, byte_or_lt v 0xC0 hv (by decide)]
  · obtain ⟨s1, hs1, hc⟩ := poke_memSelect d s v
    refine ⟨s1, hs1, ?_⟩
    rw [peek_memSelect, hc, byte_or_lt v 0x01 hv (by decide)]

/-- Witness for C25: the byte `$35` written to the border colour register reads back as
`$F5`, written to `$D016` as `$F5`, and written to the Y register of sprite 0 as `$35`. -/
theorem poke_peek_round_trip_witness :
    (∃ s1, poke sampleDecls grayDotState 0x20 0x35 = some s1 ∧
      peek s1 0x20 = some (0xF5, s1)) ∧
    (∃ s1, poke sampleDecls grayDotState 0x16 0x35 = some s1 ∧
      peek s1 0x16 = some (0xF5, s1)) ∧
    (∃ s1, poke sampleDecls grayDotState 0x01 0x35 = some s1 ∧
      peek s1 0x01 = some (0x35, s1)) := by
  have h := poke_peek_round_trip sampleDecls grayDotState 0x35 (by decide)
  exact ⟨h.2.2.1 0x20 (Or.inl (by decide)), h.2.2.2.1, h.1 0 (by decide)⟩

/-! ## The fetch addresses have 14 bits -/

theorem u16_lt_of_lt (x n : Nat) (h : x < n) : u16 x < n :=
  Nat.lt_of_le_of_lt (Nat.mod_le x 65536) h

theorem and_shiftLeft_lt (x c k n : Nat) (hc : c * 2 ^ k < 2 ^ n) : (x &&& c) <<< k < 2 ^ n := by
  rw [Nat.shiftLeft_eq]
  exact Nat.lt_of_le_of_lt (Nat.mul_le_mul_right _ Nat.and_le_right) hc

theorem shiftLeft_lt (x k m n : Nat) (hx : x < 2 ^ m) (hn : m + k ≤ n) : x <<< k < 2 ^ n := by
  rw [Nat.shiftLeft_eq]
  calc x * 2 ^ k < 2 ^ m * 2 ^ k := Nat.mul_lt_mul_of_pos_right hx (Nat.two_pow_pos k)
    _ = 2 ^ (m + k) := (Nat.pow_add 2 m k).symm
    _ ≤ 2 ^ n := Nat.pow_le_pow_right (by decide) hn

theorem pAccess_isSome (d : VICDecls) (s : VIC) (i : Nat) (hi : i < 8)
    (h : (memAccess s (u16 ((d.VM13VM12VM11VM10 s <<< 6) ||| 0x03F8 ||| i))).isSome = true) :
    (pAccess d s i).isSome = true := by
  unfold pAccess
  rw [if_pos hi]
  cases hm : memAccess s (u16 ((d.VM13VM12VM11VM10 s <<< 6) ||| 0x03F8 ||| i)) with
  | none =>
    rw [hm] at h
    exact Bool.noConfusion h
  | some x => rfl

theorem cAccess_isSome (d : VICDecls) (s : VIC)
    (h : (memAccess s (u16 ((d.VM13VM12VM11VM10 s <<< 6) ||| s.vc))).isSome = true) :
    (cAccess d s).isSome = true := by
  cases hba : d.BApulledDownForAtLeastThreeCycles s
  · rw [cAccess_idle d s hba]
    rfl
  · obtain ⟨x, hx⟩ := Option.isSome_iff_exists.1 h
    obtain ⟨data, sm⟩ := x
    rw [cAccess_fetch d s data sm hba hx]
    rfl

/-- C30: with `vc < 1024`, `rc < 8`, `mc[i] < 64`, sprite pointers of the form
`byte << 6` (what `pAccess` stores), a byte in `videoMatrix[vmli]` and the bank helpers
reading the bits `0xF0`, `0x0E` and `0x08` of `memSelect`, the address each of `cAccess`,
`gAccess`, `pAccess` and the three sprite data accesses passes to `memAccess` is below
`0x4000`, as is the address `0x3FFF` of `memIdleAccess`; so the 14 bit assertion holds,
and each operation returns whenever the bank address is a multiple of 16 KB and the BA
assertion of the sprite data accesses holds. -/
theorem fetch_addresses_14_bit (d : VICDecls) (s : VIC)
    (hVM : d.VM13VM12VM11VM10 s = s.memSelect &&& 0xF0)
    (hCB : d.CB13CB12CB11 s = s.memSelect &&& 0x0E)
    (hCB13 : d.CB13 s = s.memSelect &&& 0x08)
    (hvc : s.vc < 1024) (hrc : s.rc < 8) (hmc : ∀ i, i < 8 → s.mc i < 64)
    (hptr : ∀ i, i < 8 → ∃ b, b < 256 ∧ s.spritePtr i = b <<< 6)
    (hvm : s.videoMatrix s.vmli < 256) :
    u16 ((d.VM13VM12VM11VM10 s <<< 6) ||| s.vc) < 0x4000 ∧
    gAccessDisplayAddr d s < 0x4000 ∧ gAccessIdleAddr d s < 0x4000 ∧
    (∀ i, i < 8 → u16 ((d.VM13VM12VM11VM10 s <<< 6) ||| 0x03F8 ||| i) < 0x4000) ∧
    (∀ i, i < 8 → u16 (s.spritePtr i ||| s.mc i) < 0x4000) ∧
    (s.bankAddr &&& 0x3FFF = 0 → (∀ t, d.BApulledDownForAtLeastThreeCycles t = true) →
      (cAccess d s).isSome = true ∧ (gAccess d s).isSome = true ∧
      (memIdleAccess s).isSome = true ∧
      ∀ i, i < 8 → (pAccess d s i).isSome = true ∧ (sFirstAccess d s i).isSome = true ∧
        (sSecondAccess d s i).isSome = true ∧ (sThirdAccess d s i).isSome = true) := by
  have h14 : (0x4000 : Nat) = 2 ^ 14 := rfl
  have hvc14 : s.vc < 2 ^ 14 := Nat.lt_trans hvc (by decide)
  have hrc14 : s.rc < 2 ^ 14 := Nat.lt_trans hrc (by decide)
  have hc : u16 ((d.VM13VM12VM11VM10 s <<< 6) ||| s.vc) < 0x4000 := by
    apply u16_lt_of_lt
    rw [hVM, h14]
    exact Nat.or_lt_two_pow (and_shiftLeft_lt _ _ _ _ (by decide)) hvc14
  have hgd : gAccessDisplayAddr d s < 0x4000 := by
    have hraw : (if d.BMMbit s = true then u16 ((d.CB13 s <<< 10) ||| (s.vc <<< 3) ||| s.rc)
        else u16 ((d.CB13CB12CB11 s <<< 10) ||| (s.videoMatrix s.vmli <<< 3) ||| s.rc)) <
        0x4000 := by
      split
      · apply u16_lt_of_lt
        rw [hCB13, h14]
        exact Nat.or_lt_two_pow (Nat.or_lt_two_pow (and_shiftLeft_lt _ _ _ _ (by decide))
          (shiftLeft_lt _ 3 10 14 hvc (by decide))) hrc14
      · apply u16_lt_of_lt
        rw [hCB, h14]
        exact Nat.or_lt_two_pow (Nat.or_lt_two_pow (and_shiftLeft_lt _ _ _ _ (by decide))
          (shiftLeft_lt _ 3 8 14 hvm (by decide))) hrc14
    unfold gAccessDisplayAddr
    dsimp only
    split
    · exact Nat.lt_of_le_of_lt Nat.and_le_left hraw
    · exact hraw
  have hgi : gAccessIdleAddr d s < 0x4000 := by
    unfold gAccessIdleAddr
    split <;> decide
  have hp : ∀ i, i < 8 → u16 ((d.VM13VM12VM11VM10 s <<< 6) ||| 0x03F8 ||| i) < 0x4000 := by
    intro i hi
    apply u16_lt_of_lt
    rw [hVM, h14]
    exact Nat.or_lt_two_pow (Nat.or_lt_two_pow (and_shiftLeft_lt _ _ _ _ (by decide))
      (by decide)) (Nat.lt_trans hi (by decide))
  have hsp : ∀ i, i < 8 → s.spritePtr i < 0x4000 := by
    intro i hi
    obtain ⟨b, hb, hbe⟩ := hptr i hi
    rw [hbe]
    exact Nat.lt_of_le_of_lt (shiftLeft_6_byte b hb).2 (by decide)
  have hs : ∀ i, i < 8 → u16 (s.spritePtr i ||| s.mc i) < 0x4000 := by
    intro i hi
    apply u16_lt_of_lt
    rw [h14]
    exact Nat.or_lt_two_pow (hsp i hi) (Nat.lt_trans (hmc i hi) (by decide))
  refine ⟨hc, hgd, hgi, hp, hs, ?_⟩
  intro hbank hBA
  have hmem : ∀ a, a < 0x4000 → (memAccess s a).isSome = true := fun a ha =>
    (memAccess_isSome s a).2 ⟨and_0xC000_of_lt a ha, hbank⟩
  refine ⟨cAccess_isSome d s (hmem _ hc), ?_, hmem 0x3FFF (by decide), ?_⟩
  · rw [gAccess_isSome]
    split
    · exact hmem _ hgd
    · exact hmem _ hgi
  · intro i hi
    exact ⟨pAccess_isSome d s i hi (hmem _ (hp i hi)),
      sFirstAccess_isSome d s i hi (fun _ => ⟨hBA _, hmem _ (hs i hi)⟩),
      sSecondAccess_isSome d s i hi (fun _ => hmem 0x3FFF (by decide))
        (fun _ => ⟨hBA _, hmem _ (hs i hi)⟩),
      sThirdAccess_isSome d s i hi (fun _ => ⟨hBA _, hmem _ (hs i hi)⟩)⟩

/-- Witness for C30: in text mode with the character generator at `$1000`, character `$2A`
and row 5, the g-access reads `$1155`; the c-access and the accesses of sprite 2 return. -/
theorem fetch_addresses_14_bit_witness :
    gAccessDisplayAddr baLowDecls displayTextState = 0x1155 ∧
    (cAccess baLowDecls displayTextState).isSome = true ∧
    (gAccess baLowDecls displayTextState).isSome = true ∧
    (pAccess baLowDecls displayTextState 2).isSome = true ∧
    (sFirstAccess baLowDecls displayTextState 2).isSome = true := by
  have h := fetch_addresses_14_bit baLowDecls displayTextState rfl rfl rfl (by decide)
    (by decide) (fun _ _ => (by decide : (0 : Nat) < 64)) (fun _ _ => ⟨0, by decide, rfl⟩) (by decide)
  have h2 := h.2.2.2.2.2 (by decide) (fun _ => rfl)
  exact ⟨by decide, h2.1, h2.2.1, (h2.2.2.2 2 (by decide)).1, (h2.2.2.2 2 (by decide)).2.1⟩

/-! ## Skip counting of a guard -/

theorem Guard_eval_hit (g : Guard) (addr : Nat) (ha : g.addr = addr) (he : g.enabled = true) :
    g.eval addr = (decide (g.hits + 1 > g.skip), { g with hits := g.hits + 1 }) := by
  unfold Guard.eval
  have hc : (g.addr == addr && g.enabled) = true := by simp [ha, he]
  rw [if_pos hc]
  by_cases h : g.hits + 1 > g.skip
  · simp [h]
  · simp [h]

theorem Guard_evalTimes_fields (g : Guard) (a : Nat) (ha : g.addr = a) (he : g.enabled = true)
    (n : Nat) :
    (g.evalTimes a n).hits = g.hits + n ∧ (g.evalTimes a n).addr = a ∧
    (g.evalTimes a n).enabled = true ∧ (g.evalTimes a n).skip = g.skip := by
  induction n with
  | zero => exact ⟨by simp [Guard.evalTimes], ha, he, rfl⟩
  | succ n ih =>
    obtain ⟨h1, h2, h3, h4⟩ := ih
    have e : g.evalTimes a (n + 1) = ((g.evalTimes a n).eval a).2 := rfl
    rw [e, Guard_eval_hit _ a h2 h3]
    refine ⟨?_, h2, h3, h4⟩
    show (g.evalTimes a n).hits + 1 = g.hits + (n + 1 : Nat)
    rw [h1]
    push_cast
    ring

/-- C31: for an enabled guard at address `a` with `skip = k ≥ 0` and `hits = 0`, the
`n`-th of successive calls `eval(a)` finds `hits = n - 1`, increments it, and returns false
for the first `k` calls and true for every later call; a call `eval(b)` with `b` different
from the guard's address, and any call on a disabled guard, returns false and leaves the
guard, `hits` included, as it was. -/
theorem guard_skip_counting (g : Guard) (a k : Nat) (ha : g.addr = a)
    (he : g.enabled = true) (hs : g.skip = (k : Int)) (hh : g.hits = 0) :
    (∀ n, (g.evalTimes a n).hits = (n : Int)) ∧
    (∀ n, n < k → ((g.evalTimes a n).eval a).1 = false) ∧
    (∀ n, k ≤ n → ((g.evalTimes a n).eval a).1 = true) ∧
    (∀ (g0 : Guard) (b : Nat), g0.addr ≠ b → g0.eval b = (false, g0)) ∧
    (∀ (g0 : Guard) (b : Nat), g0.enabled = false → g0.eval b = (false, g0)) := by
  have hf := fun n => Guard_evalTimes_fields g a ha he n
  have hhits : ∀ n, (g.evalTimes a n).hits = (n : Int) := by
    intro n
    rw [(hf n).1, hh]
    simp
  refine ⟨hhits, ?_, ?_, ?_, ?_⟩
  · intro n hn
    rw [Guard_eval_hit _ a (hf n).2.1 (hf n).2.2.1, hhits n, (hf n).2.2.2, hs]
    simp only [decide_eq_false_iff_not]
    omega
  · intro n hn
    rw [Guard_eval_hit _ a (hf n).2.1 (hf n).2.2.1, hhits n, (hf n).2.2.2, hs]
    simp only [decide_eq_true_eq]
    omega
  · intro g0 b hb
    exact Guard_eval_miss g0 b (fun h => hb h.1)
  · intro g0 b hb
    exact Guard_eval_miss g0 b (fun h => by rw [hb] at h; exact Bool.noConfusion h.2)

/-- Witness for C31: the breakpoint at `$C000` with `skip = 1` lets the first call pass
and stops the second. -/
theorem guard_skip_counting_witness :
    ((sampleGuards.guards 0).eval 0xC000).1 = false ∧
    ((((sampleGuards.guards 0).eval 0xC000).2).eval 0xC000).1 = true ∧
    ((sampleGuards.guards 0).eval 0xC010) = (false, sampleGuards.guards 0) := by
  have h := guard_skip_counting (sampleGuards.guards 0) 0xC000 1 rfl rfl rfl rfl
  exact ⟨h.2.1 0 (by decide), h.2.2.1 1 (by decide), h.2.2.2.1 _ 0xC010 (by decide)⟩

/-! ## The FreezeFrame cartridge -/

/-- C39: `peekIO1` returns 0 and leaves the expansion port in 8K game mode, `peekIO2`
returns 0 and leaves it switched off, for every address; `pressButton(1)` switches the
port to Ultimax mode and pulls the NMI line down with source `INTSRC_EXP` (between
`suspend` and `resume`); `releaseButton(1)` releases the NMI line for the same source and
keeps the mode; with a button number other than 1 both change nothing; the button title
is "Freeze" for button 1 and `NULL` otherwise. -/
theorem freezeFrame_transitions (c : FreezeFrame) :
    (∀ addr, (c.peekIO1 addr).1 = 0 ∧
      (c.peekIO1 addr).2.cartridgeMode = CartridgeMode.CRT_8K ∧
      (c.peekIO1 addr).2.calls = c.calls) ∧
    (∀ addr, (c.peekIO2 addr).1 = 0 ∧
      (c.peekIO2 addr).2.cartridgeMode = CartridgeMode.CRT_OFF ∧
      (c.peekIO2 addr).2.calls = c.calls) ∧
    (c.pressButton 1).cartridgeMode = CartridgeMode.CRT_ULTIMAX ∧
    (c.pressButton 1).calls = c.calls ++ [CartridgeCall.suspend,
      CartridgeCall.pullDownNmiLine IntSource.INTSRC_EXP, CartridgeCall.resume] ∧
    (c.releaseButton 1).cartridgeMode = c.cartridgeMode ∧
    (c.releaseButton 1).calls = c.calls ++ [CartridgeCall.suspend,
      CartridgeCall.releaseNmiLine IntSource.INTSRC_EXP, CartridgeCall.resume] ∧
    (∀ nr, nr ≠ 1 → c.pressButton nr = c ∧ c.releaseButton nr = c) ∧
    FreezeFrame.getButtonTitle 1 = some "Freeze" ∧
    (∀ nr, nr ≠ 1 → FreezeFrame.getButtonTitle nr = none) := by
  refine ⟨fun _ => ⟨rfl, rfl, rfl⟩, fun _ => ⟨rfl, rfl, rfl⟩, rfl, ?_, rfl, ?_, ?_, rfl, ?_⟩
  · simp [FreezeFrame.pressButton, FreezeFrame.call, FreezeFrame.setCartridgeMode]
  · simp [FreezeFrame.releaseButton, FreezeFrame.call]
  · intro nr hnr
    simp [FreezeFrame.pressButton, FreezeFrame.releaseButton, hnr]
  · intro nr hnr
    simp [FreezeFrame.getButtonTitle, hnr]

/-! ## The target of a relative branch -/

theorem toU16_eq (x : Int) : ((toU16 x : Nat) : Int) = x % 65536 := by
  unfold toU16
  exact Int.toNat_of_nonneg (Int.emod_nonneg _ (by decide))

/-- C37: for an instruction with relative addressing recorded at `pc` with operand byte
`b`, on a platform whose plain `char` is signed, the operand `disassembleInstr` formats is
the 16 bit value `(pc + 2 + s) mod 65536`, where `s` is `b` for `b < 128` and `b - 256`
otherwise; `pc = 0x1000`, `b = 0xFE` gives `0x1000` and `pc = 0x0000`, `b = 0x80` gives
`0xFF82`. -/
theorem relative_branch_target (f : SprintDecls) (s : CPUDebugger)
    (instr : RecordedInstruction)
    (hmode : s.addressingMode instr.byte1 = AddressingMode.ADDR_RELATIVE)
    (hb : instr.byte2 < 256) :
    s.operandText f true instr =
      some (if s.hex then f.sprint16x (relativeTarget true instr)
        else f.sprint16d (relativeTarget true instr)) ∧
    ((relativeTarget true instr : Nat) : Int) =
      ((instr.pc : Int) + 2 +
        (if instr.byte2 < 128 then (instr.byte2 : Int) else (instr.byte2 : Int) - 256)) % 65536 ∧
    relativeTarget true { pc := 0x1000, byte2 := 0xFE } = 0x1000 ∧
    relativeTarget true { pc := 0x0000, byte2 := 0x80 } = 0xFF82 := by
  refine ⟨?_, ?_, by decide, by decide⟩
  · unfold CPUDebugger.operandText
    rw [hmode]
  · unfold relativeTarget
    rw [toU16_eq]
    have hu : u8 instr.byte2 = instr.byte2 := u8_of_lt hb
    unfold castI8
    rw [hu]
    by_cases h : instr.byte2 < 128
    · have h2 : ¬ instr.byte2 ≥ 128 := by omega
      simp [h, h2]
    · have h2 : instr.byte2 ≥ 128 := by omega
      simp [h, h2]

/-- Witness for C37: `BNE` at `$1000` with operand `$FE` is shown as a branch to
`$1000`. -/
theorem relative_branch_target_witness :
    sampleDebugger.operandText sampleSprint true branchInstr = some "1000".toList ∧
    (sampleDebugger.disassembleInstr sampleSprint true (List.replicate 16 'z')
      (List.replicate 6 'z') branchInstr).map (fun r => cstr r.2) =
      some "BNE 1000".toList :=
  ⟨(relative_branch_target sampleSprint sampleDebugger branchInstr rfl (by decide)).1.trans
    (by decide), by decide⟩

/-! ## Matching a file header -/

/-- The loop of `checkBufferHeader` from index `i` on: it returns, and returns true
exactly when the rest of the header fits into the buffer and matches it. -/
theorem checkBufferHeaderLoop_spec (buffer : List Nat) (header : Nat → Nat) (h : Nat)
    (hnul : header h = 0) (hpre : ∀ i, i < h → header i ≠ 0) :
    ∀ n i, i + n = buffer.length → i ≤ h →
      ∃ r, checkBufferHeaderLoop buffer header n i = some r ∧
        (r = true ↔ (h ≤ buffer.length ∧ ∀ j, i ≤ j → j < h → buffer[j]? = some (header j))) := by
  intro n
  induction n with
  | zero =>
    intro i hi hih
    refine ⟨header i == 0, rfl, ?_⟩
    rw [beq_iff_eq]
    constructor
    · intro h0
      have hih2 : i = h := by
        rcases Nat.lt_or_ge i h with hlt | hge
        · exact absurd h0 (hpre i hlt)
        · omega
      exact ⟨by omega, fun j h1 h2 => by omega⟩
    · intro hr
      have hih2 : i = h := by omega
      rw [hih2]
      exact hnul
  | succ n ih =>
    intro i hi hih
    have hilt : i < buffer.length := by omega
    unfold checkBufferHeaderLoop
    by_cases h0 : header i = 0
    · have hih2 : i = h := by
        rcases Nat.lt_or_ge i h with hlt | hge
        · exact absurd h0 (hpre i hlt)
        · omega
      refine ⟨true, by simp [h0], ?_⟩
      simp only [true_iff]
      exact ⟨by omega, fun j h1 h2 => by omega⟩
    · have hih2 : i < h := by
        rcases Nat.lt_or_ge i h with hlt | hge
        · exact hlt
        · have : i = h := by omega
          rw [this] at h0
          exact absurd hnul h0
      have hb : buffer[i]? = some buffer[i] := List.getElem?_eq_getElem hilt
      have hc1 : (header i != 0) = true := by simp [h0]
      rw [if_pos hc1, hb]
      simp only []
      by_cases hm : header i = buffer[i]
      · obtain ⟨r, hr, hiff⟩ := ih (i + 1) (by omega) (by omega)
        have hc2 : ¬ (header i != buffer[i]) = true := by simp [hm]
        rw [if_neg hc2]
        refine ⟨r, hr, ?_⟩
        rw [hiff]
        constructor
        · rintro ⟨h1, h2⟩
          refine ⟨h1, fun j hj1 hj2 => ?_⟩
          by_cases hji : j = i
          · rw [hji, hb, hm]
          · exact h2 j (by omega) hj2
        · rintro ⟨h1, h2⟩
          exact ⟨h1, fun j hj1 hj2 => h2 j (by omega) hj2⟩
      · have hc2 : (header i != buffer[i]) = true := by simp [hm]
        rw [if_pos hc2]
        refine ⟨false, rfl, ?_⟩
        simp only [Bool.false_eq_true, false_iff, not_and]
        intro _ hall
        have := hall i (Nat.le_refl i) hih2
        rw [hb] at this
        exact hm (Option.some.inj this).symm

/-- C38: for a buffer of `length` bytes and a header whose first NUL is at index `h`,
`checkBufferHeader` returns without reading `buffer` at an index `≥ length`, and it
returns true exactly when `h ≤ length` and `buffer[i] = header[i]` for every `i < h`; an
empty header matches every buffer. -/
theorem checkBufferHeader_iff (buffer : List Nat) (length : Nat) (header : Nat → Nat)
    (h : Nat) (hlen : buffer.length = length) (hnul : header h = 0)
    (hpre : ∀ i, i < h → header i ≠ 0) :
    ∃ r, AnyC64File.checkBufferHeader buffer length header = some r ∧
      (r = true ↔ (h ≤ length ∧ ∀ i, i < h → buffer[i]? = some (header i))) ∧
      (h = 0 → r = true) := by
  obtain ⟨r, hr, hiff⟩ := checkBufferHeaderLoop_spec buffer header h hnul hpre length 0
    (by omega) (Nat.zero_le h)
  have hiff2 : r = true ↔ (h ≤ length ∧ ∀ i, i < h → buffer[i]? = some (header i)) := by
    rw [hiff, hlen]
    constructor
    · rintro ⟨h1, h2⟩
      exact ⟨h1, fun i hi => h2 i (Nat.zero_le i) hi⟩
    · rintro ⟨h1, h2⟩
      exact ⟨h1, fun i _ hi => h2 i hi⟩
  refine ⟨r, hr, hiff2, ?_⟩
  intro h0
  rw [hiff2, h0]
  exact ⟨Nat.zero_le _, fun i hi => absurd hi (Nat.not_lt_zero i)⟩

/-- Witness for C38: the header `C64` matches the four bytes `C64 ` and does not match
the two bytes `C6`. -/
theorem checkBufferHeader_iff_witness :
    AnyC64File.checkBufferHeader [0x43, 0x36, 0x34, 0x20] 4 sampleHeader = some true ∧
    AnyC64File.checkBufferHeader [0x43, 0x36] 2 sampleHeader = some false := by
  obtain ⟨r, hr, hiff, _⟩ := checkBufferHeader_iff [0x43, 0x36, 0x34, 0x20] 4 sampleHeader 3
    rfl rfl (fun i hi => by interval_cases i <;> decide)
  obtain ⟨r2, hr2, hiff2, _⟩ := checkBufferHeader_iff [0x43, 0x36] 2 sampleHeader 3
    rfl rfl (fun i hi => by interval_cases i <;> decide)
  have h1 : r = true := hiff.2 ⟨by decide, fun i hi => by interval_cases i <;> rfl⟩
  have h2 : r2 = false := by
    cases hc : r2
    · rfl
    · exact absurd (hiff2.1 hc).1 (by decide)
  rw [h1] at hr
  rw [h2] at hr2
  exact ⟨hr, hr2⟩

/-! ## The instruction log -/

theorem recordOf_congr (s t : CPUDebugger) (cpu : DebuggedCPU)
    (h : t.addressingMode = s.addressingMode) : t.recordOf cpu = s.recordOf cpu := by
  unfold CPUDebugger.recordOf CPUDebugger.getLengthOfInstruction
  rw [h]

theorem logInstruction_fields (cap : Nat) (s : CPUDebugger) (cpu : DebuggedCPU) :
    (CPUDebugger.logInstruction cap s cpu).logCnt = s.logCnt + 1 ∧
    (CPUDebugger.logInstruction cap s cpu).addressingMode = s.addressingMode ∧
    (CPUDebugger.logInstruction cap s cpu).logBuffer (s.logCnt % cap) = s.recordOf cpu ∧
    ∀ j, j ≠ s.logCnt % cap →
      (CPUDebugger.logInstruction cap s cpu).logBuffer j = s.logBuffer j := by
  refine ⟨rfl, rfl, ?_, ?_⟩
  · simp [CPUDebugger.logInstruction]
  · intro j hj
    simp [CPUDebugger.logInstruction, hj]

/-- Two call numbers less than `cap` apart use different cells of the ring. -/
theorem ring_cells_differ (cap j m : Nat) (h1 : j < m) (h2 : m - j < cap) :
    j % cap ≠ m % cap := by
  intro h
  have h3 := Nat.sub_mod_eq_zero_of_mod_eq h.symm
  rw [Nat.mod_eq_of_lt h2] at h3
  omega

/-- After the calls `cs`, starting with an empty log: the counter is the number of calls
and the cell of each of the last `cap` calls holds the record of that call. -/
theorem log_invariant (cap : Nat) (s0 : CPUDebugger) (h0 : s0.logCnt = 0) (cs : List DebuggedCPU) :
    (cs.foldl (CPUDebugger.logInstruction cap) s0).logCnt = cs.length ∧
    (cs.foldl (CPUDebugger.logInstruction cap) s0).addressingMode = s0.addressingMode ∧
    ∀ j c, cs[j]? = some c → cs.length - j ≤ cap →
      (cs.foldl (CPUDebugger.logInstruction cap) s0).logBuffer (j % cap) = s0.recordOf c := by
  induction cs using List.reverseRecOn with
  | nil =>
    refine ⟨h0, rfl, ?_⟩
    intro j c hj
    simp at hj
  | append_singleton l a ih =>
    obtain ⟨ih1, ih2, ih3⟩ := ih
    rw [List.foldl_append]
    simp only [List.foldl_cons, List.foldl_nil, List.length_append, List.length_singleton]
    obtain ⟨f1, f2, f3, f4⟩ :=
      logInstruction_fields cap (l.foldl (CPUDebugger.logInstruction cap) s0) a
    refine ⟨by rw [f1, ih1], by rw [f2, ih2], ?_⟩
    intro j c hj hcap
    rw [ih1] at f3 f4
    by_cases hjl : j < l.length
    · rw [List.getElem?_append_left hjl] at hj
      rw [f4 _ (ring_cells_differ cap j l.length hjl (by omega))]
      exact ih3 j c hj (by omega)
    · have hlen : j < (l ++ [a]).length := by
        rcases List.getElem?_eq_some.1 hj with ⟨h, _⟩
        exact h
      rw [List.length_append, List.length_singleton] at hlen
      have hje : j = l.length := by omega
      subst hje
      have hc : c = a := by
        have : (l ++ [a])[l.length]? = some a := by simp
        rw [this] at hj
        exact (Option.some.inj hj).symm
      rw [hc, f3]
      exact recordOf_congr s0 _ a ih2

theorem logged_index (cap k n : Nat) (hn : n < k) :
    (Int.tmod ((k : Int) - 1 - (n : Int)) (cap : Int)).toNat = (k - 1 - n) % cap := by
  have e : (k : Int) - 1 - (n : Int) = ((k - 1 - n : Nat) : Int) := by omega
  rw [e, ← Int.ofNat_tmod]
  rfl

/-- C35: after `k` calls of `logInstruction` on a log with `logCnt = 0`,
`loggedInstructions()` is `min(k, LOG_BUFFER_CAPACITY)`; for `n` below that number,
`logEntryRel(n)` is the record written by call `k - n` (`n = 0` is the newest) and
`logEntryAbs(n)` the record written by call `k - loggedInstructions() + n + 1` (`n = 0` is
the oldest one kept); `loggedPC0Rel(n)` and `loggedPC0Abs(n)` are the `pc` fields of those
records.  Calls are numbered from 1; call `i` is entry `i - 1` of the list `cs`. -/
theorem instruction_log_ring (cap : Nat) (s0 : CPUDebugger) (cs : List DebuggedCPU)
    (h0 : s0.logCnt = 0) :
    CPUDebugger.loggedInstructions cap (cs.foldl (CPUDebugger.logInstruction cap) s0) =
      ((min cs.length cap : Nat) : Int) ∧
    ∀ n : Nat, n < min cs.length cap →
      (∃ c, cs[cs.length - n - 1]? = some c ∧
        CPUDebugger.logEntryRel cap (cs.foldl (CPUDebugger.logInstruction cap) s0) n =
          some (s0.recordOf c) ∧
        CPUDebugger.loggedPC0Rel cap (cs.foldl (CPUDebugger.logInstruction cap) s0) n =
          some (s0.recordOf c).pc) ∧
      (∃ c, cs[cs.length - min cs.length cap + n]? = some c ∧
        CPUDebugger.logEntryAbs cap (cs.foldl (CPUDebugger.logInstruction cap) s0) n =
          some (s0.recordOf c) ∧
        CPUDebugger.loggedPC0Abs cap (cs.foldl (CPUDebugger.logInstruction cap) s0) n =
          some (s0.recordOf c).pc) := by
  obtain ⟨hcnt, _, hbuf⟩ := log_invariant cap s0 h0 cs
  generalize cs.foldl (CPUDebugger.logInstruction cap) s0 = sk at hcnt hbuf
  have hlogged : CPUDebugger.loggedInstructions cap sk = ((min cs.length cap : Nat) : Int) := by
    unfold CPUDebugger.loggedInstructions
    rw [hcnt]
    by_cases h : cs.length < cap
    · rw [if_pos h, Nat.min_eq_left (Nat.le_of_lt h)]
    · rw [if_neg h, Nat.min_eq_right (by omega)]
  -- the entry `n` steps back from the newest one
  have hrel : ∀ n : Nat, n < min cs.length cap →
      ∃ c, cs[cs.length - n - 1]? = some c ∧
        CPUDebugger.logEntryRel cap sk n = some (s0.recordOf c) ∧
        CPUDebugger.loggedPC0Rel cap sk n = some (s0.recordOf c).pc := by
    intro n hn
    have hnk : n < cs.length := Nat.lt_of_lt_of_le hn (Nat.min_le_left _ _)
    have hnc : n < cap := Nat.lt_of_lt_of_le hn (Nat.min_le_right _ _)
    have hidx : cs.length - n - 1 < cs.length := by omega
    have hc : cs[cs.length - n - 1]? = some cs[cs.length - n - 1] :=
      List.getElem?_eq_getElem hidx
    have hcell := hbuf (cs.length - n - 1) _ hc (by omega)
    have hlt : (n : Int) < CPUDebugger.loggedInstructions cap sk := by
      rw [hlogged]
      exact_mod_cast hn
    have hi : (Int.tmod ((sk.logCnt : Int) - 1 - (n : Int)) (cap : Int)).toNat =
        (cs.length - n - 1) % cap := by
      rw [hcnt, logged_index cap cs.length n hnk]
      congr 1
      omega
    refine ⟨_, hc, ?_, ?_⟩
    · unfold CPUDebugger.logEntryRel
      rw [if_pos hlt, hi, hcell]
    · unfold CPUDebugger.loggedPC0Rel
      rw [if_pos hlt, hi, hcell]
  refine ⟨hlogged, fun n hn => ⟨hrel n hn, ?_⟩⟩
  have hlt : (n : Int) < CPUDebugger.loggedInstructions cap sk := by
    rw [hlogged]
    exact_mod_cast hn
  have harg : CPUDebugger.loggedInstructions cap sk - (n : Int) - 1 =
      ((min cs.length cap - n - 1 : Nat) : Int) := by
    rw [hlogged]
    omega
  obtain ⟨c, hc, h1, h2⟩ := hrel (min cs.length cap - n - 1) (by omega)
  have hsame : cs.length - (min cs.length cap - n - 1) - 1 =
      cs.length - min cs.length cap + n := by
    have := Nat.min_le_left cs.length cap
    omega
  rw [hsame] at hc
  refine ⟨c, hc, ?_, ?_⟩
  · unfold CPUDebugger.logEntryAbs
    rw [if_pos hlt, harg, h1]
  · unfold CPUDebugger.loggedPC0Abs
    rw [if_pos hlt, harg, h2]

/-- Witness for C35: after five instructions at addresses 0 to 4 in a log of capacity 4,
four records are kept; the newest is the one of address 4 and the oldest the one of
address 1. -/
theorem instruction_log_ring_witness :
    CPUDebugger.loggedInstructions 4
      (((List.range 5).map cpuAt).foldl (CPUDebugger.logInstruction 4) sampleDebugger) = 4 ∧
    CPUDebugger.loggedPC0Rel 4
      (((List.range 5).map cpuAt).foldl (CPUDebugger.logInstruction 4) sampleDebugger) 0 =
      some 4 ∧
    CPUDebugger.loggedPC0Abs 4
      (((List.range 5).map cpuAt).foldl (CPUDebugger.logInstruction 4) sampleDebugger) 0 =
      some 1 := by
  obtain ⟨h1, h2⟩ := instruction_log_ring 4 sampleDebugger ((List.range 5).map cpuAt) rfl
  obtain ⟨⟨c, hc, _, hrel⟩, ⟨c2, hc2, _, habs⟩⟩ := h2 0 (by decide)
  have e1 : ((List.range 5).map cpuAt)[((List.range 5).map cpuAt).length - 0 - 1]? =
      some (cpuAt 4) := rfl
  have e2 : ((List.range 5).map cpuAt)[((List.range 5).map cpuAt).length -
      min ((List.range 5).map cpuAt).length 4 + 0]? = some (cpuAt 1) := rfl
  rw [e1] at hc
  rw [e2] at hc2
  rw [← Option.some.inj hc] at hrel
  rw [← Option.some.inj hc2] at habs
  exact ⟨h1.trans (by decide), hrel.trans (by decide), habs.trans (by decide)⟩

/-! ## The disassembled instruction -/

theorem strcpy_ok (dst src : List Char) (h : src.length + 1 ≤ dst.length) :
    strcpy dst src = some (src ++ [NUL] ++ dst.drop (src.length + 1)) := by
  unfold strcpy
  rw [if_pos h]

theorem strcpy_length (dst src r : List Char) (h : strcpy dst src = some r) :
    r.length = dst.length := by
  unfold strcpy at h
  split_ifs at h with hc
  rw [← Option.some.inj h]
  simp only [List.length_append, List.length_singleton, List.length_drop]
  omega

/-- The characters before a NUL at index `i` are at most `i`. -/
theorem cstr_length_le (buf : List Char) :
    ∀ i, buf[i]? = some NUL → (cstr buf).length ≤ i := by
  induction buf with
  | nil =>
    intro i h
    simp at h
  | cons c rest ih =>
    intro i h
    unfold cstr
    by_cases hc : c = NUL
    · simp [List.takeWhile, hc]
    · cases i with
      | zero =>
        simp at h
        exact absurd h hc
      | succ i =>
        have h2 : rest[i]? = some NUL := by simpa using h
        have hne : (c != NUL) = true := by simp [hc]
        rw [List.takeWhile_cons, if_pos hne]
        have := ih i h2
        unfold cstr at this
        simp only [List.length_cons]
        omega

/-- The three copies of `disassembleInstr` in a row: template, operand, mnemonic. -/
theorem copy_sequence (result operand t digits mn : List Char) (off n : Nat)
    (hres : t.length + 1 ≤ result.length) (hop : digits.length + 1 ≤ operand.length)
    (hn : digits.length = n) (hoff : off + n ≤ t.length) (h3 : 3 ≤ off) (hmn : mn.length = 3) :
    ∃ op r0 r1 r2, strcpy operand digits = some op ∧ strcpy result t = some r0 ∧
      memcpy r0 off op n = some r1 ∧ strncpy r1 mn 3 = some r2 ∧
      r2 = mn ++ (t.take off ++ digits ++ t.drop (off + n)).drop 3 ++ [NUL] ++
        result.drop (t.length + 1) := by
  have hr0 := strcpy_ok result t hres
  have hop0 := strcpy_ok operand digits hop
  have hmem : memcpy (t ++ [NUL] ++ result.drop (t.length + 1)) off
      (digits ++ [NUL] ++ operand.drop (digits.length + 1)) n =
      some (t.take off ++ digits ++ (t.drop (off + n) ++ [NUL] ++
        result.drop (t.length + 1))) := by
    unfold memcpy
    have hc : off + n ≤ (t ++ [NUL] ++ result.drop (t.length + 1)).length ∧
        n ≤ (digits ++ [NUL] ++ operand.drop (digits.length + 1)).length := by
      simp only [List.length_append, List.length_singleton, List.length_drop]
      omega
    rw [if_pos hc]
    have e1 : (t ++ [NUL] ++ result.drop (t.length + 1)).take off = t.take off := by
      rw [List.append_assoc, List.take_append_of_le_length (by omega)]
    have e2 : (digits ++ [NUL] ++ operand.drop (digits.length + 1)).take n = digits := by
      rw [List.append_assoc, ← hn, List.take_left]
    have e3 : (t ++ [NUL] ++ result.drop (t.length + 1)).drop (off + n) =
        t.drop (off + n) ++ [NUL] ++ result.drop (t.length + 1) := by
      rw [List.append_assoc, List.drop_append_of_le_length (by omega), List.append_assoc]
    rw [e1, e2, e3]
  have hlen1 : 3 ≤ (t.take off ++ digits ++ (t.drop (off + n) ++ [NUL] ++
      result.drop (t.length + 1))).length := by
    simp only [List.length_append, List.length_take, List.length_singleton, List.length_drop]
    omega
  have hstrn : strncpy (t.take off ++ digits ++ (t.drop (off + n) ++ [NUL] ++
      result.drop (t.length + 1))) mn 3 =
      some (mn ++ (t.take off ++ digits ++ t.drop (off + n)).drop 3 ++ [NUL] ++
        result.drop (t.length + 1)) := by
    unfold strncpy
    rw [if_pos hlen1]
    have e1 : mn.take 3 = mn := by rw [← hmn, List.take_length]
    have e2 : List.replicate (3 - mn.length) NUL = [] := by rw [hmn]; rfl
    have e3 : (t.take off ++ digits ++ (t.drop (off + n) ++ [NUL] ++
        result.drop (t.length + 1))).drop 3 =
        (t.take off ++ digits ++ t.drop (off + n)).drop 3 ++ [NUL] ++
          result.drop (t.length + 1) := by
      have hl : 3 ≤ (t.take off ++ digits ++ t.drop (off + n)).length := by
        simp only [List.length_append, List.length_take, List.length_drop]
        omega
      calc (t.take off ++ digits ++ (t.drop (off + n) ++ [NUL] ++
              result.drop (t.length + 1))).drop 3
          = ((t.take off ++ digits ++ t.drop (off + n)) ++
              ([NUL] ++ result.drop (t.length + 1))).drop 3 := by
            simp only [List.append_assoc]
        _ = (t.take off ++ digits ++ t.drop (off + n)).drop 3 ++
              ([NUL] ++ result.drop (t.length + 1)) := List.drop_append_of_le_length hl
        _ = (t.take off ++ digits ++ t.drop (off + n)).drop 3 ++ [NUL] ++
              result.drop (t.length + 1) := by simp only [List.append_assoc]
    rw [e1, e2, e3, List.append_nil]
    simp only [List.append_assoc]
  exact ⟨_, _, _, _, hop0, hr0, hmem, hstrn, rfl⟩

theorem copy_sequence_plain (result t mn : List Char)
    (hres : t.length + 1 ≤ result.length) (h3 : 3 ≤ t.length) (hmn : mn.length = 3) :
    ∃ r0 r2, strcpy result t = some r0 ∧ strncpy r0 mn 3 = some r2 ∧
      r2 = mn ++ t.drop 3 ++ [NUL] ++ result.drop (t.length + 1) := by
  have hr0 := strcpy_ok result t hres
  refine ⟨_, _, hr0, ?_, rfl⟩
  unfold strncpy
  have hlen : 3 ≤ (t ++ [NUL] ++ result.drop (t.length + 1)).length := by
    simp only [List.length_append, List.length_singleton, List.length_drop]
    omega
  rw [if_pos hlen]
  have e1 : mn.take 3 = mn := by rw [← hmn, List.take_length]
  have e2 : List.replicate (3 - mn.length) NUL = [] := by rw [hmn]; rfl
  have e3 : (t ++ [NUL] ++ result.drop (t.length + 1)).drop 3 =
      t.drop 3 ++ [NUL] ++ result.drop (t.length + 1) := by
    rw [List.append_assoc, List.drop_append_of_le_length h3, List.append_assoc]
  rw [e1, e2, e3, List.append_nil]
  simp only [List.append_assoc]

theorem nul_at (a rest : List Char) : (a ++ [NUL] ++ rest)[a.length]? = some NUL := by
  rw [List.append_assoc, List.getElem?_append_right (Nat.le_refl _), Nat.sub_self]
  simp

/-- The table of templates: each template starts with `xxx` and has at most 11
characters; where an operand is shown, the `memcpy` covers exactly the run of placeholder
characters (`h` in hexadecimal, `d` in decimal mode). -/
theorem instrFormat_run (mode : AddressingMode) (hex : Bool) :
    (instrFormat mode hex).1.toList.take 3 = "xxx".toList ∧
    (instrFormat mode hex).1.toList.length ≤ 11 ∧
    (match (instrFormat mode hex).2 with
      | none => (if hex then 'h' else 'd') ∉ (instrFormat mode hex).1.toList
      | some (off, n) =>
        3 < off ∧ off + n ≤ (instrFormat mode hex).1.toList.length ∧
        (instrFormat mode hex).1.toList =
          (instrFormat mode hex).1.toList.take off ++
            List.replicate n (if hex then 'h' else 'd') ++
            (instrFormat mode hex).1.toList.drop (off + n) ∧
        (if hex then 'h' else 'd') ∉ (instrFormat mode hex).1.toList.take off ∧
        (if hex then 'h' else 'd') ∉ (instrFormat mode hex).1.toList.drop (off + n)) := by
  cases mode <;> cases hex <;>
    (refine ⟨by decide, by decide, ?_⟩
     simp only [instrFormat, Bool.false_eq_true, if_false, if_true]
     decide)

/-- What the two `switch` statements agree on: either no operand is shown, or the first
writes as many characters as the second copies. -/
theorem operand_matches_slot (f : SprintDecls) (cs : Bool) (s : CPUDebugger)
    (instr : RecordedInstruction)
    (h8x : ∀ v, (f.sprint8x v).length = 2) (h8d : ∀ v, (f.sprint8d v).length = 3)
    (h16x : ∀ v, (f.sprint16x v).length = 4) (h16d : ∀ v, (f.sprint16d v).length = 5) :
    ((instrFormat (s.addressingMode instr.byte1) s.hex).2 = none ∧
      s.operandText f cs instr = none) ∨
    (∃ off n digits, (instrFormat (s.addressingMode instr.byte1) s.hex).2 = some (off, n) ∧
      s.operandText f cs instr = some digits ∧ digits.length = n ∧ n ≤ 5) := by
  unfold CPUDebugger.operandText
  cases hmode : s.addressingMode instr.byte1 <;> cases hhex : s.hex <;>
    simp [instrFormat, h8x, h8d, h16x, h16d] <;>
    exact ⟨_, _, ⟨rfl, rfl⟩, rfl, by decide⟩

/-- The modes whose template shows no operand are the implied and the accumulator mode. -/
theorem instrFormat_slot_none (mode : AddressingMode) (hex : Bool) :
    (instrFormat mode hex).2 = none ↔
      (mode = AddressingMode.ADDR_IMPLIED ∨ mode = AddressingMode.ADDR_ACCUMULATOR) := by
  cases mode <;> simp [instrFormat]

/-- The outcome of `disassembleInstr`: either no operand is shown and `result` holds the
mnemonic and the rest of the template, or the operand written by the first `switch` is
found in the positions the second `switch` copies it to. -/
theorem disassembleInstr_result (f : SprintDecls) (cs : Bool) (s : CPUDebugger)
    (result operand : List Char) (instr : RecordedInstruction)
    (hres : result.length = 16) (hop : operand.length = 6)
    (h8x : ∀ v, (f.sprint8x v).length = 2) (h8d : ∀ v, (f.sprint8d v).length = 3)
    (h16x : ∀ v, (f.sprint16x v).length = 4) (h16d : ∀ v, (f.sprint16d v).length = 5)
    (hmn : (s.mnemonic instr.byte1).length = 3) :
    ∃ r, s.disassembleInstr f cs result operand instr =
        some (s.getLengthOfInstruction instr.byte1, r) ∧
      r.length = 16 ∧ (cstr r).length ≤ 11 ∧
      (((instrFormat (s.addressingMode instr.byte1) s.hex).2 = none ∧
          s.operandText f cs instr = none ∧
          r = s.mnemonic instr.byte1 ++
            (instrFormat (s.addressingMode instr.byte1) s.hex).1.toList.drop 3 ++ [NUL] ++
            result.drop
              ((instrFormat (s.addressingMode instr.byte1) s.hex).1.toList.length + 1)) ∨
        (∃ off digits,
          (instrFormat (s.addressingMode instr.byte1) s.hex).2 = some (off, digits.length) ∧
          s.operandText f cs instr = some digits ∧
          r = s.mnemonic instr.byte1 ++
            ((instrFormat (s.addressingMode instr.byte1) s.hex).1.toList.take off ++ digits ++
              (instrFormat (s.addressingMode instr.byte1) s.hex).1.toList.drop
                (off + digits.length)).drop 3 ++ [NUL] ++
            result.drop
              ((instrFormat (s.addressingMode instr.byte1) s.hex).1.toList.length + 1))) := by
  obtain ⟨hxxx, h11, hslotfacts⟩ := instrFormat_run (s.addressingMode instr.byte1) s.hex
  generalize hfmt : instrFormat (s.addressingMode instr.byte1) s.hex = fmt at *
  have h3 : 3 ≤ fmt.1.toList.length := by
    have := congrArg List.length hxxx
    rw [List.length_take] at this
    have e : "xxx".toList.length = 3 := by decide
    rw [e] at this
    omega
  rcases operand_matches_slot f cs s instr h8x h8d h16x h16d with
    ⟨hnone, hopnone⟩ | ⟨off, n, digits, hslot, hdig, hlen, hn5⟩
  · rw [hfmt] at hnone
    obtain ⟨r0, r2, e0, e2, hr2⟩ := copy_sequence_plain result fmt.1.toList
      (s.mnemonic instr.byte1) (by omega) h3 hmn
    have hlen2 : r2.length = 16 := by
      rw [hr2]
      simp only [List.length_append, List.length_drop, List.length_singleton, hmn]
      omega
    refine ⟨r2, ?_, hlen2, ?_, Or.inl ⟨hnone, hopnone, hr2⟩⟩
    · unfold CPUDebugger.disassembleInstr
      simp only [hopnone, hfmt, e0, hnone, e2, Option.map_some']
    · rw [hr2]
      have hnul := nul_at (s.mnemonic instr.byte1 ++ fmt.1.toList.drop 3)
        (result.drop (fmt.1.toList.length + 1))
      apply Nat.le_trans (cstr_length_le _ _ hnul)
      simp only [List.length_append, List.length_drop, hmn]
      omega
  · rw [hfmt] at hslot
    rw [hslot] at hslotfacts
    obtain ⟨hoff3, hoffn, _⟩ := hslotfacts
    obtain ⟨op, r0, r1, r2, e0, e1, e2, e3, hr2⟩ := copy_sequence result operand
      fmt.1.toList digits (s.mnemonic instr.byte1) off n (by omega) (by omega) hlen hoffn
      (by omega) hmn
    have hX : (fmt.1.toList.take off ++ digits ++ fmt.1.toList.drop (off + n)).length =
        fmt.1.toList.length := by
      simp only [List.length_append, List.length_take, List.length_drop]
      omega
    have hlen2 : r2.length = 16 := by
      rw [hr2]
      simp only [List.length_append, List.length_drop, List.length_singleton, hmn, hX]
      omega
    refine ⟨r2, ?_, hlen2, ?_, Or.inr ⟨off, digits, by rw [hlen]; exact hslot, hdig, ?_⟩⟩
    · unfold CPUDebugger.disassembleInstr
      simp only [hdig, hfmt, e0, e1, hslot, e2, e3, Option.map_some']
    · rw [hr2]
      have hnul := nul_at (s.mnemonic instr.byte1 ++
        (fmt.1.toList.take off ++ digits ++ fmt.1.toList.drop (off + n)).drop 3)
        (result.drop (fmt.1.toList.length + 1))
      apply Nat.le_trans (cstr_length_le _ _ hnul)
      simp only [List.length_append, List.length_drop, hmn, hX]
      omega
    · rw [hlen]
      exact hr2

/-- C36: for every opcode, addressing mode and number format, with formatters that write
2, 3, 4 and 5 digits and a mnemonic of three characters.  The table of the second
`switch`: every template starts with `xxx` and has at most 11 characters; the template
of the implied and of the accumulator mode, and of no other mode, has no `memcpy` and
holds no placeholder character; in every other mode offset and length of the `memcpy`
are exactly the run of `h` (hexadecimal) or `d` (decimal) characters of the template.
The call: `disassembleInstr` returns with every write inside the 16 byte array `result`
and the 6 byte array `operand`, and `result` holds a string of at most 11 characters
before a NUL: the mnemonic in place of `xxx`, followed in the implied and the accumulator
mode by nothing, and in every other mode by the template in which the formatted operand
stands in the positions of the `memcpy`, whose length is the number of digits written:
the byte `byte2` in the 8 bit modes, the word `LO_HI(byte2, byte3)` in the 16 bit modes
and the branch target in the relative mode.  The length reported is 1, 2 or 3 as
`getLengthOfInstruction` gives it for the addressing mode. -/
theorem disassembleInstr_layout (f : SprintDecls) (cs : Bool) (s : CPUDebugger)
    (result operand : List Char) (instr : RecordedInstruction)
    (hres : result.length = 16) (hop : operand.length = 6)
    (h8x : ∀ v, (f.sprint8x v).length = 2) (h8d : ∀ v, (f.sprint8d v).length = 3)
    (h16x : ∀ v, (f.sprint16x v).length = 4) (h16d : ∀ v, (f.sprint16d v).length = 5)
    (hmn : (s.mnemonic instr.byte1).length = 3) :
    (∀ mode hex off n, (instrFormat mode hex).2 = some (off, n) →
      (instrFormat mode hex).1.toList =
        (instrFormat mode hex).1.toList.take off ++
          List.replicate n (if hex then 'h' else 'd') ++
          (instrFormat mode hex).1.toList.drop (off + n) ∧
      (if hex then 'h' else 'd') ∉ (instrFormat mode hex).1.toList.take off ∧
      (if hex then 'h' else 'd') ∉ (instrFormat mode hex).1.toList.drop (off + n)) ∧
    (∀ mode hex, (instrFormat mode hex).1.toList.take 3 = "xxx".toList) ∧
    (∀ mode hex, (instrFormat mode hex).1.toList.length ≤ 11) ∧
    (∀ mode hex, (instrFormat mode hex).2 = none ↔
      (mode = AddressingMode.ADDR_IMPLIED ∨ mode = AddressingMode.ADDR_ACCUMULATOR)) ∧
    (∀ mode hex, (instrFormat mode hex).2 = none →
      (if hex then 'h' else 'd') ∉ (instrFormat mode hex).1.toList) ∧
    (∀ mode hex off n, (instrFormat mode hex).2 = some (off, n) →
      3 < off ∧ 0 < n ∧ off + n ≤ (instrFormat mode hex).1.toList.length) ∧
    (∃ r, s.disassembleInstr f cs result operand instr =
        some (s.getLengthOfInstruction instr.byte1, r) ∧
      r.length = 16 ∧
      (cstr r).length ≤ 11 ∧
      (match s.addressingMode instr.byte1 with
        | .ADDR_IMPLIED | .ADDR_ACCUMULATOR =>
          (instrFormat (s.addressingMode instr.byte1) s.hex).2 = none ∧
          r = s.mnemonic instr.byte1 ++ [NUL] ++ result.drop 4
        | .ADDR_IMMEDIATE | .ADDR_ZERO_PAGE | .ADDR_ZERO_PAGE_X | .ADDR_ZERO_PAGE_Y
        | .ADDR_INDIRECT_X | .ADDR_INDIRECT_Y =>
          (∃ off, (instrFormat (s.addressingMode instr.byte1) s.hex).2 =
            some (off, (if s.hex then f.sprint8x (u8 instr.byte2) else f.sprint8d (u8 instr.byte2)).length) ∧
          r = s.mnemonic instr.byte1 ++
            ((instrFormat (s.addressingMode instr.byte1) s.hex).1.toList.take off ++
              (if s.hex then f.sprint8x (u8 instr.byte2) else f.sprint8d (u8 instr.byte2)) ++
              (instrFormat (s.addressingMode instr.byte1) s.hex).1.toList.drop
                (off + (if s.hex then f.sprint8x (u8 instr.byte2) else f.sprint8d (u8 instr.byte2)).length)).drop 3 ++
            [NUL] ++
            result.drop
              ((instrFormat (s.addressingMode instr.byte1) s.hex).1.toList.length + 1))
        | .ADDR_DIRECT | .ADDR_INDIRECT | .ADDR_ABSOLUTE | .ADDR_ABSOLUTE_X
        | .ADDR_ABSOLUTE_Y =>
          (∃ off, (instrFormat (s.addressingMode instr.byte1) s.hex).2 =
            some (off, (if s.hex then f.sprint16x (LO_HI instr.byte2 instr.byte3)
                else f.sprint16d (LO_HI instr.byte2 instr.byte3)).length) ∧
          r = s.mnemonic instr.byte1 ++
            ((instrFormat (s.addressingMode instr.byte1) s.hex).1.toList.take off ++
              (if s.hex then f.sprint16x (LO_HI instr.byte2 instr.byte3)
                else f.sprint16d (LO_HI instr.byte2 instr.byte3)) ++
              (instrFormat (s.addressingMode instr.byte1) s.hex).1.toList.drop
                (off + (if s.hex then f.sprint16x (LO_HI instr.byte2 instr.byte3)
                else f.sprint16d (LO_HI instr.byte2 instr.byte3)).length)).drop 3 ++
            [NUL] ++
            result.drop
              ((instrFormat (s.addressingMode instr.byte1) s.hex).1.toList.length + 1))
        | .ADDR_RELATIVE =>
          (∃ off, (instrFormat (s.addressingMode instr.byte1) s.hex).2 =
            some (off, (if s.hex then f.sprint16x (relativeTarget cs instr)
                else f.sprint16d (relativeTarget cs instr)).length) ∧
          r = s.mnemonic instr.byte1 ++
            ((instrFormat (s.addressingMode instr.byte1) s.hex).1.toList.take off ++
              (if s.hex then f.sprint16x (relativeTarget cs instr)
                else f.sprint16d (relativeTarget cs instr)) ++
              (instrFormat (s.addressingMode instr.byte1) s.hex).1.toList.drop
                (off + (if s.hex then f.sprint16x (relativeTarget cs instr)
                else f.sprint16d (relativeTarget cs instr)).length)).drop 3 ++
            [NUL] ++
            result.drop
              ((instrFormat (s.addressingMode instr.byte1) s.hex).1.toList.length + 1)))) ∧
    (1 ≤ s.getLengthOfInstruction instr.byte1 ∧ s.getLengthOfInstruction instr.byte1 ≤ 3) ∧
    (s.getLengthOfInstruction instr.byte1 =
      match s.addressingMode instr.byte1 with
      | .ADDR_IMPLIED | .ADDR_ACCUMULATOR => 1
      | .ADDR_ABSOLUTE | .ADDR_ABSOLUTE_X | .ADDR_ABSOLUTE_Y | .ADDR_DIRECT
      | .ADDR_INDIRECT => 3
      | _ => 2) := by
  refine ⟨?_, fun mode hex => (instrFormat_run mode hex).1,
    fun mode hex => (instrFormat_run mode hex).2.1, instrFormat_slot_none, ?_, ?_, ?_, ?_, ?_⟩
  · intro mode hex off n hslot
    have h := (instrFormat_run mode hex).2.2
    rw [hslot] at h
    exact h.2.2
  · intro mode hex hslot
    have h := (instrFormat_run mode hex).2.2
    rw [hslot] at h
    exact h
  · intro mode hex off n hslot
    have h := (instrFormat_run mode hex).2.2
    rw [hslot] at h
    refine ⟨h.1, ?_, h.2.1⟩
    cases mode <;> cases hex <;> simp [instrFormat] at hslot <;> omega
  · obtain ⟨r, hr, hl, hc, hcase⟩ :=
      disassembleInstr_result f cs s result operand instr hres hop h8x h8d h16x h16d hmn
    refine ⟨r, hr, hl, hc, ?_⟩
    rcases hcase with ⟨hnone, _, hreq⟩ | ⟨off, digits, hslot, hdig, hreq⟩
    · rcases (instrFormat_slot_none _ _).1 hnone with hm | hm
      · rw [hm] at hreq ⊢
        refine ⟨rfl, ?_⟩
        rw [hreq]
        simp [instrFormat]
      · rw [hm] at hreq ⊢
        refine ⟨rfl, ?_⟩
        rw [hreq]
        simp [instrFormat]
    · unfold CPUDebugger.operandText at hdig
      cases hmode : s.addressingMode instr.byte1 <;> rw [hmode] at hslot hreq hdig <;>
        dsimp only at hdig <;> cases hdig <;> exact ⟨off, hslot, hreq⟩
  · unfold CPUDebugger.getLengthOfInstruction
    cases s.addressingMode instr.byte1 <;> exact ⟨by decide, by decide⟩
  · unfold CPUDebugger.getLengthOfInstruction
    cases s.addressingMode instr.byte1 <;> rfl

/-- Witness for C36: in hexadecimal mode `A9 80` is disassembled as `LDA #80` with
length 2, `AD 34 12` as `LDA 1234` with length 3, and `EA` as `NOP` with length 1. -/
theorem disassembleInstr_layout_witness :
    (∃ r, sampleDebugger.disassembleInstr sampleSprint true (List.replicate 16 'z')
        (List.replicate 6 'z') { byte1 := 0xA9, byte2 := 0x80 } = some (2, r) ∧
      (cstr r).length ≤ 11 ∧ cstr r = "LDA #80".toList) ∧
    (∃ r, absoluteDebugger.disassembleInstr sampleSprint true (List.replicate 16 'z')
        (List.replicate 6 'z') { byte1 := 0xAD, byte2 := 0x34, byte3 := 0x12 } = some (3, r) ∧
      (cstr r).length ≤ 11 ∧ cstr r = "LDA 1234".toList) ∧
    (∃ r, absoluteDebugger.disassembleInstr sampleSprint true (List.replicate 16 'z')
        (List.replicate 6 'z') { byte1 := 0xEA } = some (1, r) ∧
      (cstr r).length ≤ 11 ∧ cstr r = "NOP".toList) := by
  have h1 := disassembleInstr_layout sampleSprint true sampleDebugger (List.replicate 16 'z')
    (List.replicate 6 'z') { byte1 := 0xA9, byte2 := 0x80 } rfl rfl (fun _ => rfl)
    (fun _ => rfl) (fun _ => rfl) (fun _ => rfl) rfl
  have h2 := disassembleInstr_layout sampleSprint true absoluteDebugger
    (List.replicate 16 'z') (List.replicate 6 'z') { byte1 := 0xAD, byte2 := 0x34, byte3 := 0x12 }
    rfl rfl (fun _ => rfl) (fun _ => rfl) (fun _ => rfl) (fun _ => rfl) rfl
  have h3 := disassembleInstr_layout sampleSprint true absoluteDebugger
    (List.replicate 16 'z') (List.replicate 6 'z') { byte1 := 0xEA }
    rfl rfl (fun _ => rfl) (fun _ => rfl) (fun _ => rfl) (fun _ => rfl) rfl
  refine ⟨?_, ?_, ?_⟩
  · obtain ⟨r, hr, _, hc, off, hslot, hreq⟩ := h1.2.2.2.2.2.2.1
    have hoff : off = 5 := by
      have := Option.some.inj hslot
      exact (congrArg Prod.fst this).symm
    subst hoff
    subst hreq
    exact ⟨_, hr, hc, by decide⟩
  · obtain ⟨r, hr, _, hc, off, hslot, hreq⟩ := h2.2.2.2.2.2.2.1
    have hoff : off = 4 := by
      have := Option.some.inj hslot
      exact (congrArg Prod.fst this).symm
    subst hoff
    subst hreq
    exact ⟨_, hr, hc, by decide⟩
  · obtain ⟨r, hr, _, hc, _, hreq⟩ := h3.2.2.2.2.2.2.1
    subst hreq
    exact ⟨_, hr, hc, by decide⟩

/-! ## Guards addressed by index -/

theorem cell_nonneg (g : Guards) (nr : Int) (h : 0 ≤ nr) :
    g.cell nr = some (g.guards nr.toNat) := by
  unfold Guards.cell
  rw [if_pos h]

theorem setGuard_same (a : Nat → Guard) (i : Nat) (v : Guard) : setGuard a i v i = v := by
  simp [setGuard]

theorem setGuard_other (a : Nat → Guard) (i : Nat) (v : Guard) (j : Nat) (h : j ≠ i) :
    setGuard a i v j = a j := by
  simp [setGuard, h]

theorem replace_cases (g : Guards) (nr : Int) (addr : Nat) (h0 : 0 ≤ nr) :
    (g.replace nr addr = some g ∧ (nr ≥ g.count ∨ g.isSetAt addr = true)) ∨
    (nr < g.count ∧ g.isSetAt addr = false ∧
      g.replace nr addr = some { g with
        guards := setGuard g.guards nr.toNat { g.guards nr.toNat with addr := addr, hits := 0 } }) := by
  unfold Guards.replace
  by_cases h1 : nr ≥ g.count
  · left
    simp [h1]
  · cases h2 : g.isSetAt addr
    · right
      refine ⟨by omega, rfl, ?_⟩
      simp [h1, cell_nonneg g nr h0]
    · left
      simp

/-- C34 (amended): for an index `nr ≥ 0`: when `nr < count`, `guardWithNr(nr)` returns
the guard in cell `nr`, `isEnabled(nr)` returns its enable flag, `remove(nr)` is
`removeAt` of its address, and `setEnable(nr, v)` and `replace(nr, addr)` change no cell
other than `nr`; when `nr ≥ count`, `guardWithNr(nr)` returns `NULL`, `isEnabled(nr)`
returns false and `remove`, `setEnable` and `replace` leave the guards as they are. -/
theorem guard_index_in_range (g : Guards) (nr : Int) (v : Bool) (addr : Nat) (h0 : 0 ≤ nr) :
    (nr < g.count →
      g.guardWithNr nr = some nr ∧ g.cell nr = some (g.guards nr.toNat) ∧
      g.isEnabled nr = some (g.guards nr.toNat).enabled ∧
      g.remove nr = some (g.removeAt (g.guards nr.toNat).addr) ∧
      g.setEnable nr v = some { g with
        guards := setGuard g.guards nr.toNat { g.guards nr.toNat with enabled := v } } ∧
      ∃ g1, g.replace nr addr = some g1 ∧ g1.count = g.count ∧
        ∀ j, j ≠ nr.toNat → g1.guards j = g.guards j) ∧
    (g.count ≤ nr →
      g.guardWithNr nr = none ∧ g.isEnabled nr = some false ∧ g.remove nr = some g ∧
      g.setEnable nr v = some g ∧ g.replace nr addr = some g) := by
  have hcell := cell_nonneg g nr h0
  constructor
  · intro h
    refine ⟨?_, hcell, ?_, ?_, ?_, ?_⟩
    · simp [Guards.guardWithNr, h]
    · simp [Guards.isEnabled, h, hcell]
    · simp [Guards.remove, h, hcell]
    · simp [Guards.setEnable, h, hcell]
    · rcases replace_cases g nr addr h0 with ⟨h1, _⟩ | ⟨_, _, h1⟩
      · exact ⟨g, h1, rfl, fun _ _ => rfl⟩
      · exact ⟨_, h1, rfl, fun j hj => setGuard_other _ _ _ _ hj⟩
  · intro h
    have hn : ¬ nr < g.count := by omega
    refine ⟨?_, ?_, ?_, ?_, ?_⟩
    · simp [Guards.guardWithNr, hn]
    · simp [Guards.isEnabled, hn]
    · simp [Guards.remove, hn]
    · simp [Guards.setEnable, hn]
    · simp [Guards.replace, h]

/-- Witness for C34 (amended): with two guards, index 1 is the guard at `$C010` and
index 2 is out of range. -/
theorem guard_index_in_range_witness :
    sampleGuards.guardWithNr 1 = some 1 ∧ sampleGuards.isEnabled 1 = some false ∧
    sampleGuards.guardWithNr 2 = none ∧ sampleGuards.isEnabled 2 = some false := by
  have h1 := (guard_index_in_range sampleGuards 1 true 0 (by decide)).1 (by decide)
  have h2 := (guard_index_in_range sampleGuards 2 true 0 (by decide)).2 (by decide)
  exact ⟨h1.1, h1.2.2.1, h2.1, h2.2.1⟩

/-- Counterexample to C34 as stated: with two guards, `guardWithNr(-1)` does not return
`NULL` but a pointer to the cell before the array, and `isEnabled(-1)`, `setEnable(-1, v)`,
`remove(-1)` and `replace(-1, addr)` access that cell, outside the indices `0..count-1`. -/
theorem guard_index_negative_counterexample :
    sampleGuards.guardWithNr (-1) = some (-1) ∧ sampleGuards.guardWithNr (-1) ≠ none ∧
    sampleGuards.cell (-1) = none ∧ sampleGuards.isEnabled (-1) = none ∧
    sampleGuards.setEnable (-1) true = none ∧ sampleGuards.remove (-1) = none ∧
    sampleGuards.replace (-1) 0xC020 = none := by
  refine ⟨by decide, by decide, rfl, rfl, rfl, rfl, rfl⟩

/-! ## Looking up, adding and removing guards -/

theorem guardAtAddrLoop_none (g : Guards) (addr : Nat) :
    ∀ n i, (∀ j, i ≤ j → j < i + n → (g.guards j).addr ≠ addr) →
      Guards.guardAtAddrLoop g addr n i = none := by
  intro n
  induction n with
  | zero => intro i _; rfl
  | succ n ih =>
    intro i h
    unfold Guards.guardAtAddrLoop
    have h0 : ((g.guards i).addr == addr) = false := by
      simp [h i (Nat.le_refl i) (by omega)]
    rw [h0]
    exact ih (i + 1) (fun j h1 h2 => h j (by omega) (by omega))

theorem guardAtAddrLoop_some (g : Guards) (addr : Nat) :
    ∀ n i k, i ≤ k → k < i + n → (g.guards k).addr = addr →
      (∀ j, i ≤ j → j < k → (g.guards j).addr ≠ addr) →
      Guards.guardAtAddrLoop g addr n i = some (k : Int) := by
  intro n
  induction n with
  | zero => intro i k h1 h2; omega
  | succ n ih =>
    intro i k h1 h2 h3 h4
    unfold Guards.guardAtAddrLoop
    by_cases hik : i = k
    · subst hik
      simp [h3]
    · have h0 : ((g.guards i).addr == addr) = false := by
        simp [h4 i (Nat.le_refl i) (by omega)]
      rw [h0]
      exact ih (i + 1) k (by omega) (by omega) h3 (fun j h5 h6 => h4 j (by omega) h6)

/-- Among finitely many cells, either none holds the address or there is a first one that
does. -/
theorem first_match (g : Guards) (addr : Nat) (n : Nat) :
    (∀ j, j < n → (g.guards j).addr ≠ addr) ∨
    ∃ k, k < n ∧ (g.guards k).addr = addr ∧ ∀ j, j < k → (g.guards j).addr ≠ addr := by
  induction n with
  | zero => exact Or.inl (fun j hj => absurd hj (Nat.not_lt_zero j))
  | succ n ih =>
    rcases ih with h | ⟨k, hk, h1, h2⟩
    · by_cases hn : (g.guards n).addr = addr
      · exact Or.inr ⟨n, by omega, hn, h⟩
      · left
        intro j hj
        by_cases hjn : j = n
        · rw [hjn]; exact hn
        · exact h j (by omega)
    · exact Or.inr ⟨k, by omega, h1, h2⟩

theorem isSetAt_iff (g : Guards) (addr : Nat) :
    g.isSetAt addr = true ↔ ∃ k, k < g.count.toNat ∧ (g.guards k).addr = addr := by
  unfold Guards.isSetAt Guards.guardAtAddr
  rcases first_match g addr g.count.toNat with h | ⟨k, hk, h1, h2⟩
  · rw [guardAtAddrLoop_none g addr _ 0 (fun j _ hj => h j (by omega))]
    constructor
    · intro hc
      simp at hc
    · rintro ⟨k, hk, hka⟩
      exact absurd hka (h k hk)
  · rw [guardAtAddrLoop_some g addr _ 0 k (Nat.zero_le k) (by omega) h1 (fun j _ hj => h2 j hj)]
    constructor
    · intro _
      exact ⟨k, hk, h1⟩
    · intro _
      simp

theorem isSetAt_false_iff (g : Guards) (addr : Nat) :
    g.isSetAt addr = false ↔ ∀ k, k < g.count.toNat → (g.guards k).addr ≠ addr := by
  constructor
  · intro h k hk hka
    have := (isSetAt_iff g addr).2 ⟨k, hk, hka⟩
    rw [h] at this
    exact Bool.noConfusion this
  · intro h
    cases hc : g.isSetAt addr
    · rfl
    · obtain ⟨k, hk, hka⟩ := (isSetAt_iff g addr).1 hc
      exact absurd hka (h k hk)

/-- The copy loop of the reallocation fills the first `c` cells of the new array. -/
theorem copy_loop (old : Nat → Guard) (c : Nat) (j : Nat) :
    (List.range c).foldl (fun a i => setGuard a i (old i)) (fun _ => {}) j =
      if j < c then old j else {} := by
  induction c with
  | zero => simp
  | succ c ih =>
    rw [List.range_succ, List.foldl_append]
    simp only [List.foldl_cons, List.foldl_nil]
    by_cases hj : j = c
    · subst hj
      rw [setGuard_same]
      simp
    · rw [setGuard_other _ _ _ _ hj, ih]
      by_cases h1 : j < c
      · have h2 : j < c + 1 := by omega
        rw [if_pos h1, if_pos h2]
      · have h2 : ¬ j < c + 1 := by omega
        rw [if_neg h1, if_neg h2]

theorem grow_fields (g : Guards) :
    g.grow.count = g.count ∧ g.grow.capacity = g.capacity * 2 ∧
    g.grow.needsCheck = g.needsCheck ∧
    ∀ j, j < g.capacity.toNat → g.grow.guards j = g.guards j := by
  refine ⟨rfl, rfl, rfl, ?_⟩
  intro j hj
  show (List.range g.capacity.toNat).foldl (fun a i => setGuard a i (g.guards i))
    (fun _ => {}) j = g.guards j
  rw [copy_loop, if_pos hj]

/-- The state after `addAt` when the address is new. -/
theorem addAt_new (g : Guards) (addr : Nat) (skip : Int) (h0 : 0 ≤ g.count)
    (hcap : g.count ≤ g.capacity) (hset : g.isSetAt addr = false) :
    (g.addAt addr skip).count = g.count + 1 ∧
    (∀ i, i < g.count.toNat → (g.addAt addr skip).guards i = g.guards i) ∧
    (g.addAt addr skip).guards g.count.toNat =
      { addr := addr, enabled := true, hits := 0, skip := skip } ∧
    (g.addAt addr skip).capacity =
      (if g.count ≥ g.capacity then g.capacity * 2 else g.capacity) ∧
    (g.addAt addr skip).needsCheck = g.needsCheck ++ [true] := by
  unfold Guards.addAt
  rw [hset]
  simp only [Bool.false_eq_true, if_false]
  by_cases hfull : g.count ≥ g.capacity
  · rw [if_pos hfull]
    obtain ⟨c1, c2, c3, c4⟩ := grow_fields g
    refine ⟨?_, ?_, ?_, ?_, ?_⟩
    · show g.grow.count + 1 = g.count + 1
      rw [c1]
    · intro i hi
      show setGuard g.grow.guards g.grow.count.toNat _ i = g.guards i
      rw [c1, setGuard_other _ _ _ _ (by omega)]
      exact c4 i (by omega)
    · show setGuard g.grow.guards g.grow.count.toNat _ g.count.toNat = _
      rw [c1, setGuard_same]
    · rw [if_pos hfull]
      exact c2
    · show g.grow.needsCheck ++ [true] = _
      rw [c3]
  · rw [if_neg hfull]
    refine ⟨rfl, ?_, ?_, ?_, rfl⟩
    · intro i hi
      show setGuard g.guards g.count.toNat _ i = g.guards i
      rw [setGuard_other _ _ _ _ (by omega)]
    · show setGuard g.guards g.count.toNat _ g.count.toNat = _
      rw [setGuard_same]
    · rw [if_neg hfull]
      rfl

theorem toList_getElem? (g : Guards) (j : Nat) :
    g.toList[j]? = if j < g.count.toNat then some (g.guards j) else none := by
  unfold Guards.toList
  by_cases h : j < g.count.toNat
  · simp [h]
  · simp [h]
    omega

/-- C32 (amended): for guards with `0 ≤ count ≤ capacity`, `capacity ≥ 1` and pairwise
distinct addresses in the cells in use: `addAt(addr, skip)` changes nothing when `addr` is
present; otherwise it puts a guard with that address, enabled, with `hits = 0` and the
given `skip` behind the existing guards, which keep their cells (also when the array is
reallocated to twice the capacity), and `count` grows by 1.  Afterwards `isSetAt(addr)`
holds, `count ≤ capacity`, and the addresses are still pairwise distinct; `replace(nr,
addr)` with an index `nr ≥ 0` returns and keeps them distinct as well. -/
theorem addAt_appends (g : Guards) (addr : Nat) (skip : Int) (h0 : 0 ≤ g.count)
    (hcap : g.count ≤ g.capacity) (h1 : 1 ≤ g.capacity)
    (hd : ∀ i j, i < g.count.toNat → j < g.count.toNat →
      (g.guards i).addr = (g.guards j).addr → i = j) :
    (g.isSetAt addr = true → g.addAt addr skip = g) ∧
    (g.isSetAt addr = false →
      (g.addAt addr skip).count = g.count + 1 ∧
      (∀ i, i < g.count.toNat → (g.addAt addr skip).guards i = g.guards i) ∧
      (g.addAt addr skip).guards g.count.toNat =
        { addr := addr, enabled := true, hits := 0, skip := skip } ∧
      (g.addAt addr skip).toList =
        g.toList ++ [{ addr := addr, enabled := true, hits := 0, skip := skip }] ∧
      (g.addAt addr skip).capacity =
        (if g.count ≥ g.capacity then g.capacity * 2 else g.capacity)) ∧
    (g.addAt addr skip).isSetAt addr = true ∧
    (g.addAt addr skip).count ≤ (g.addAt addr skip).capacity ∧
    (∀ i j, i < (g.addAt addr skip).count.toNat → j < (g.addAt addr skip).count.toNat →
      ((g.addAt addr skip).guards i).addr = ((g.addAt addr skip).guards j).addr → i = j) ∧
    (∀ (nr : Int) (a : Nat), 0 ≤ nr → ∃ g1, g.replace nr a = some g1 ∧ g1.count = g.count ∧
      ∀ i j, i < g1.count.toNat → j < g1.count.toNat →
        (g1.guards i).addr = (g1.guards j).addr → i = j) := by
  have hsame : g.isSetAt addr = true → g.addAt addr skip = g := by
    intro h
    unfold Guards.addAt
    rw [if_pos h]
  have hnew : g.isSetAt addr = false →
      (g.addAt addr skip).count = g.count + 1 ∧
      (∀ i, i < g.count.toNat → (g.addAt addr skip).guards i = g.guards i) ∧
      (g.addAt addr skip).guards g.count.toNat =
        { addr := addr, enabled := true, hits := 0, skip := skip } ∧
      (g.addAt addr skip).toList =
        g.toList ++ [{ addr := addr, enabled := true, hits := 0, skip := skip }] ∧
      (g.addAt addr skip).capacity =
        (if g.count ≥ g.capacity then g.capacity * 2 else g.capacity) := by
    intro hset
    obtain ⟨a1, a2, a3, a4, _⟩ := addAt_new g addr skip h0 hcap hset
    refine ⟨a1, a2, a3, ?_, a4⟩
    apply List.ext_getElem?
    intro n
    rw [toList_getElem?, a1, List.getElem?_append, toList_getElem?]
    have hlen : g.toList.length = g.count.toNat := by simp [Guards.toList]
    rw [hlen]
    have hc : (g.count + 1).toNat = g.count.toNat + 1 := by omega
    rw [hc]
    by_cases hn : n < g.count.toNat
    · have hn1 : n < g.count.toNat + 1 := by omega
      rw [if_pos hn1, if_pos hn, if_pos hn, a2 n hn]
    · by_cases hn2 : n = g.count.toNat
      · have hn1 : n < g.count.toNat + 1 := by omega
        rw [if_pos hn1, if_neg hn, hn2, a3]
        simp
      · have hn1 : ¬ n < g.count.toNat + 1 := by omega
        rw [if_neg hn1, if_neg hn]
        have : n - g.count.toNat ≠ 0 := by omega
        cases hk : n - g.count.toNat with
        | zero => exact absurd hk this
        | succ k => rfl
  refine ⟨hsame, hnew, ?_, ?_, ?_, ?_⟩
  · cases hset : g.isSetAt addr
    · obtain ⟨a1, _, a3, _, _⟩ := hnew hset
      rw [isSetAt_iff]
      refine ⟨g.count.toNat, by omega, ?_⟩
      rw [a3]
    · rw [hsame hset]
      exact hset
  · cases hset : g.isSetAt addr
    · obtain ⟨a1, _, _, _, a5⟩ := hnew hset
      rw [a1, a5]
      split <;> omega
    · rw [hsame hset]
      exact hcap
  · cases hset : g.isSetAt addr
    · obtain ⟨a1, a2, a3, _, _⟩ := hnew hset
      have hfree := (isSetAt_false_iff g addr).1 hset
      intro i j hi hj hij
      rw [a1] at hi hj
      have hi2 : i < g.count.toNat + 1 := by omega
      have hj2 : j < g.count.toNat + 1 := by omega
      by_cases hic : i = g.count.toNat
      · by_cases hjc : j = g.count.toNat
        · omega
        · rw [hic, a3, a2 j (by omega)] at hij
          exact absurd hij.symm (hfree j (by omega))
      · by_cases hjc : j = g.count.toNat
        · rw [hjc, a3, a2 i (by omega)] at hij
          exact absurd hij (hfree i (by omega))
        · rw [a2 i (by omega), a2 j (by omega)] at hij
          exact hd i j (by omega) (by omega) hij
    · rw [hsame hset]
      exact hd
  · intro nr a hnr
    rcases replace_cases g nr a hnr with ⟨hr, _⟩ | ⟨hlt, hset, hr⟩
    · exact ⟨g, hr, rfl, hd⟩
    · refine ⟨_, hr, rfl, ?_⟩
      have hfree := (isSetAt_false_iff g a).1 hset
      intro i j hi hj hij
      have hi2 : i < g.count.toNat := hi
      have hj2 : j < g.count.toNat := hj
      have hcell : ∀ x, x < g.count.toNat →
          (setGuard g.guards nr.toNat { g.guards nr.toNat with addr := a, hits := 0 } x).addr =
            if x = nr.toNat then a else (g.guards x).addr := by
        intro x _
        by_cases hx : x = nr.toNat
        · rw [if_pos hx, hx, setGuard_same]
        · rw [if_neg hx, setGuard_other _ _ _ _ hx]
      have hij2 : (if i = nr.toNat then a else (g.guards i).addr) =
          (if j = nr.toNat then a else (g.guards j).addr) := by
        rw [← hcell i hi2, ← hcell j hj2]
        exact hij
      by_cases hi3 : i = nr.toNat
      · by_cases hj3 : j = nr.toNat
        · omega
        · rw [if_pos hi3, if_neg hj3] at hij2
          exact absurd hij2.symm (hfree j hj2)
      · by_cases hj3 : j = nr.toNat
        · rw [if_neg hi3, if_pos hj3] at hij2
          exact absurd hij2 (hfree i hi2)
        · rw [if_neg hi3, if_neg hj3] at hij2
          exact hd i j hi2 hj2 hij2

/-- Witness for C32: a third breakpoint at `$C020` is added to the two of the sample; the
full array of two cells is reallocated to four. -/
theorem addAt_appends_witness :
    (sampleGuards.addAt 0xC020 3).count = 3 ∧ (sampleGuards.addAt 0xC020 3).capacity = 4 ∧
    (sampleGuards.addAt 0xC020 3).toList = sampleGuards.toList ++
      [{ addr := 0xC020, enabled := true, hits := 0, skip := 3 }] ∧
    sampleGuards.addAt 0xC000 3 = sampleGuards := by
  have h := addAt_appends sampleGuards 0xC020 3 (by decide) (by decide) (by decide)
    (fun i j hi hj => by
      have hi2 : i < 2 := hi
      have hj2 : j < 2 := hj
      interval_cases i <;> interval_cases j <;> decide)
  have h2 := addAt_appends sampleGuards 0xC000 3 (by decide) (by decide) (by decide)
    (fun i j hi hj => by
      have hi2 : i < 2 := hi
      have hj2 : j < 2 := hj
      interval_cases i <;> interval_cases j <;> decide)
  obtain ⟨a1, _, _, a4, a5⟩ := h.2.1 (by decide)
  exact ⟨a1.trans (by decide), a5.trans (by decide), a4, h2.1 (by decide)⟩

/-- Counterexample to C32 as stated: the two sample guards meet the conditions of the
claim (`0 ≤ count ≤ capacity`, `capacity ≥ 1`, distinct addresses), `$C020` is not among
them and `-1 ≥ count` is false, so `replace(-1, 0xC020)` passes the test at its head and
writes `guards[-1]`, a cell before the array: the call has no defined outcome, and no
state with distinct addresses is returned. -/
theorem replace_negative_index_counterexample :
    0 ≤ sampleGuards.count ∧ sampleGuards.count ≤ sampleGuards.capacity ∧
    1 ≤ sampleGuards.capacity ∧
    (∀ i j, i < sampleGuards.count.toNat → j < sampleGuards.count.toNat →
      (sampleGuards.guards i).addr = (sampleGuards.guards j).addr → i = j) ∧
    ((-1 : Int) ≥ sampleGuards.count || sampleGuards.isSetAt 0xC020) = false ∧
    sampleGuards.cell (-1) = none ∧
    sampleGuards.replace (-1) 0xC020 = none ∧
    ¬ ∃ g1, sampleGuards.replace (-1) 0xC020 = some g1 ∧ g1.count = sampleGuards.count ∧
      ∀ i j, i < g1.count.toNat → j < g1.count.toNat →
        (g1.guards i).addr = (g1.guards j).addr → i = j := by
  refine ⟨by decide, by decide, by decide, ?_, by decide, rfl, rfl, ?_⟩
  · intro i j hi hj
    have hi2 : i < 2 := hi
    have hj2 : j < 2 := hj
    interval_cases i <;> interval_cases j <;> decide
  · rintro ⟨g1, h, _⟩
    have h0 : sampleGuards.replace (-1) 0xC020 = none := rfl
    rw [h0] at h
    exact Option.noConfusion h

/-- The inner loop of `removeAt` moves the `n` cells after index `j` one place down. -/
theorem shiftGuards_apply (n : Nat) :
    ∀ (j : Nat) (a : Nat → Guard) (x : Nat),
      shiftGuards n j a x = if j ≤ x ∧ x < j + n then a (x + 1) else a x := by
  induction n with
  | zero =>
    intro j a x
    have h : ¬ (j ≤ x ∧ x < j + 0) := by omega
    rw [if_neg h]
    rfl
  | succ n ih =>
    intro j a x
    show shiftGuards n (j + 1) (setGuard a j (a (j + 1))) x = _
    rw [ih]
    by_cases h1 : j + 1 ≤ x ∧ x < j + 1 + n
    · have h2 : j ≤ x ∧ x < j + (n + 1) := by omega
      rw [if_pos h1, if_pos h2, setGuard_other _ _ _ _ (by omega)]
    · rw [if_neg h1]
      by_cases hx : x = j
      · have h2 : j ≤ x ∧ x < j + (n + 1) := by omega
        rw [if_pos h2, hx, setGuard_same]
      · have h2 : ¬ (j ≤ x ∧ x < j + (n + 1)) := by omega
        rw [if_neg h2, setGuard_other _ _ _ _ hx]

theorem removeAtLoop_none (addr : Nat) (g : Guards) :
    ∀ n i, (∀ j, i ≤ j → j < i + n → (g.guards j).addr ≠ addr) →
      Guards.removeAtLoop addr n i g = g := by
  intro n
  induction n with
  | zero => intro i _; rfl
  | succ n ih =>
    intro i h
    unfold Guards.removeAtLoop
    have h0 : ((g.guards i).addr == addr) = false := by
      simp [h i (Nat.le_refl i) (by omega)]
    rw [h0]
    exact ih (i + 1) (fun j h1 h2 => h j (by omega) (by omega))

theorem removeAtLoop_some (addr : Nat) (g : Guards) :
    ∀ n i k, i ≤ k → k < i + n → (g.guards k).addr = addr →
      (∀ j, i ≤ j → j < k → (g.guards j).addr ≠ addr) →
      Guards.removeAtLoop addr n i g =
        { g with guards := shiftGuards (g.count.toNat - (k + 1)) k g.guards,
                 count := g.count - 1 } := by
  intro n
  induction n with
  | zero => intro i k h1 h2; omega
  | succ n ih =>
    intro i k h1 h2 h3 h4
    unfold Guards.removeAtLoop
    by_cases hik : i = k
    · subst hik
      simp [h3]
    · have h0 : ((g.guards i).addr == addr) = false := by
        simp [h4 i (Nat.le_refl i) (by omega)]
      rw [h0]
      exact ih (i + 1) k (by omega) (by omega) h3 (fun j h5 h6 => h4 j (by omega) h6)

/-- The state after `removeAt` when the first guard with the address sits in cell `k`. -/
theorem removeAt_found (g : Guards) (addr k : Nat) (hk : k < g.count.toNat)
    (hka : (g.guards k).addr = addr) (hfirst : ∀ j, j < k → (g.guards j).addr ≠ addr) :
    (g.removeAt addr).count = g.count - 1 ∧
    (∀ j, j < k → (g.removeAt addr).guards j = g.guards j) ∧
    (∀ j, k ≤ j → j + 1 < g.count.toNat → (g.removeAt addr).guards j = g.guards (j + 1)) ∧
    (g.removeAt addr).capacity = g.capacity ∧
    (g.removeAt addr).needsCheck = g.needsCheck ++ [g.count - 1 != 0] := by
  have hloop := removeAtLoop_some addr g g.count.toNat 0 k (Nat.zero_le k) (by omega) hka
    (fun j _ hj => hfirst j hj)
  unfold Guards.removeAt
  rw [hloop]
  refine ⟨rfl, ?_, ?_, rfl, rfl⟩
  · intro j hj
    show shiftGuards (g.count.toNat - (k + 1)) k g.guards j = g.guards j
    rw [shiftGuards_apply, if_neg (by omega)]
  · intro j hj1 hj2
    show shiftGuards (g.count.toNat - (k + 1)) k g.guards j = g.guards (j + 1)
    rw [shiftGuards_apply, if_pos (by omega)]

theorem removeAt_absent (g : Guards) (addr : Nat) (h : g.isSetAt addr = false) :
    (g.removeAt addr).guards = g.guards ∧ (g.removeAt addr).count = g.count ∧
    (g.removeAt addr).capacity = g.capacity ∧
    (g.removeAt addr).needsCheck = g.needsCheck ++ [g.count != 0] := by
  have hfree := (isSetAt_false_iff g addr).1 h
  have hloop := removeAtLoop_none addr g g.count.toNat 0 (fun j _ hj => hfree j (by omega))
  unfold Guards.removeAt
  rw [hloop]
  exact ⟨rfl, rfl, rfl, rfl⟩

/-- C33: when a guard with address `addr` is present, its first occurrence being in cell
`k`, `removeAt(addr)` decreases `count` by 1, leaves the guards before cell `k` in place
and moves the guards behind it one cell down, fields and order unchanged; with distinct
addresses `isSetAt(addr)` is false afterwards.  When no such guard is present the guards
and `count` are unchanged.  In both cases `setNeedsCheck` is called once, with
`count != 0` for the new `count`; and `remove(nr)` for `0 ≤ nr < count` is
`removeAt` of the address in cell `nr`. -/
theorem removeAt_deletes (g : Guards) (addr : Nat) :
    (∀ k, k < g.count.toNat → (g.guards k).addr = addr →
      (∀ j, j < k → (g.guards j).addr ≠ addr) →
      (g.removeAt addr).count = g.count - 1 ∧
      (∀ j, j < k → (g.removeAt addr).guards j = g.guards j) ∧
      (∀ j, k ≤ j → j + 1 < g.count.toNat → (g.removeAt addr).guards j = g.guards (j + 1)) ∧
      (g.removeAt addr).toList = g.toList.take k ++ g.toList.drop (k + 1) ∧
      ((∀ i j, i < g.count.toNat → j < g.count.toNat →
          (g.guards i).addr = (g.guards j).addr → i = j) →
        (g.removeAt addr).isSetAt addr = false)) ∧
    (g.isSetAt addr = true → ∃ k, k < g.count.toNat ∧ (g.guards k).addr = addr ∧
      ∀ j, j < k → (g.guards j).addr ≠ addr) ∧
    (g.isSetAt addr = false →
      (g.removeAt addr).guards = g.guards ∧ (g.removeAt addr).count = g.count ∧
      (g.removeAt addr).toList = g.toList) ∧
    (g.removeAt addr).needsCheck = g.needsCheck ++ [(g.removeAt addr).count != 0] ∧
    (∀ nr : Int, 0 ≤ nr → nr < g.count →
      g.remove nr = some (g.removeAt (g.guards nr.toNat).addr)) := by
  refine ⟨?_, ?_, ?_, ?_, ?_⟩
  · intro k hk hka hfirst
    obtain ⟨r1, r2, r3, _, _⟩ := removeAt_found g addr k hk hka hfirst
    have hcnt : (g.removeAt addr).count.toNat = g.count.toNat - 1 := by
      rw [r1]
      omega
    refine ⟨r1, r2, r3, ?_, ?_⟩
    · apply List.ext_getElem?
      intro n
      have hlen : g.toList.length = g.count.toNat := by simp [Guards.toList]
      rw [toList_getElem?, hcnt, List.getElem?_append, List.length_take, hlen,
        List.getElem?_take, List.getElem?_drop, toList_getElem?, toList_getElem?]
      have hmin : min k g.count.toNat = k := Nat.min_eq_left (by omega)
      rw [hmin]
      by_cases hn : n < k
      · rw [if_pos hn, if_pos hn, if_pos (by omega), if_pos (by omega), r2 n hn]
      · rw [if_neg hn]
        have e : k + 1 + (n - k) = n + 1 := by omega
        rw [e]
        by_cases hn2 : n < g.count.toNat - 1
        · rw [if_pos hn2, if_pos (by omega), r3 n (by omega) (by omega)]
        · rw [if_neg hn2, if_neg (by omega)]
    · intro hd
      rw [isSetAt_false_iff, hcnt]
      intro j hj hja
      by_cases hjk : j < k
      · rw [r2 j hjk] at hja
        exact hfirst j hjk hja
      · rw [r3 j (by omega) (by omega)] at hja
        have := hd (j + 1) k (by omega) hk (hja.trans hka.symm)
        omega
  · intro hset
    obtain ⟨k0, hk0, hka0⟩ := (isSetAt_iff g addr).1 hset
    rcases first_match g addr g.count.toNat with h | h
    · exact absurd hka0 (h k0 hk0)
    · exact h
  · intro hset
    obtain ⟨r1, r2, _, _⟩ := removeAt_absent g addr hset
    refine ⟨r1, r2, ?_⟩
    unfold Guards.toList
    rw [r1, r2]
  · cases hset : g.isSetAt addr
    · obtain ⟨_, r2, _, r4⟩ := removeAt_absent g addr hset
      rw [r4, r2]
    · obtain ⟨k0, hk0, hka0⟩ := (isSetAt_iff g addr).1 hset
      rcases first_match g addr g.count.toNat with h | ⟨k, hk, hka, hfirst⟩
      · exact absurd hka0 (h k0 hk0)
      · obtain ⟨r1, _, _, _, r5⟩ := removeAt_found g addr k hk hka hfirst
        rw [r5, r1]
  · intro nr h0 hlt
    simp [Guards.remove, hlt, cell_nonneg g nr h0]

end VirtualC64
